import Mathlib

/-!
Verification development for the pluggable allocator of the `libc`
repository (`src/allocator.c`, `allocator.h`).

The C code is shallowly embedded.  One `AllocatorBlock` (a `uint64_t`,
8 bytes) is modelled by a `Cell` holding the two 32-bit header fields
`block_count` / `freelist_id`; a cell also serves as 8 bytes of payload
through its 64-bit value `Cell.val` (little-endian, `block_count` in the
low half, matching the struct layout).  A region's memory is a total
function from block offsets to cells — like C's flat memory, writes are
not bounds-checked.  A region (`struct arena_page`) is such a memory
together with the `head` / `end` block offsets and the freelist (the
dense array of pointers of `struct allocation_array`, modelled as the
list of block indices of the free headers).  Pointers are structured: a
block index inside an identified page, or the id of a separately
allocated OS block.  This models the C pointer-range tests faithfully
for every execution in which distinct OS allocations and regions occupy
disjoint address intervals (which the OS guarantees).

`size_t` arithmetic wraps modulo 2^64; stores into the 32-bit header
fields truncate modulo 2^32.  Both are modelled explicitly with `%`.
`ALLOCATOR_ABORT` terminates the process; aborting branches are
modelled by `none` results / unchanged state and are marked in comments.
-/

namespace LibcAlloc

abbrev U32 : Nat := 4294967296
abbrev U64 : Nat := 18446744073709551616

/-- One 8-byte block.  Read as a `struct allocation` header it carries the
`block_count` (low 4 bytes) and `freelist_id` (high 4 bytes) fields. -/
structure Cell where
  bc : Nat
  fid : Nat
deriving DecidableEq

def Cell.zero : Cell := ⟨0, 0⟩

instance : Inhabited Cell := ⟨Cell.zero⟩

/-- The 64-bit value stored in the block (little-endian byte order:
`block_count` occupies bytes 0-3, `freelist_id` bytes 4-7). -/
def Cell.val (c : Cell) : Nat := c.bc % U32 + U32 * (c.fid % U32)

def Cell.ofVal (v : Nat) : Cell := ⟨v % U32, (v / U32) % U32⟩

/-- Byte `j` (0-based, little-endian) of a block. -/
def Cell.byte (c : Cell) (j : Nat) : Nat := c.val / 2 ^ (8 * j) % 256

/-- Overwrite byte `j` of a block with `v % 256`. -/
def Cell.setByte (c : Cell) (j v : Nat) : Cell :=
  Cell.ofVal (c.val % 2 ^ (8 * j) + v % 256 * 2 ^ (8 * j)
    + c.val / 2 ^ (8 * (j + 1)) * 2 ^ (8 * (j + 1)))

/-- Write one cell of a region memory. -/
def setCell (buf : Nat → Cell) (i : Nat) (c : Cell) : Nat → Cell :=
  fun j => if j = i then c else buf j

/-- `a->block_count` (a `uint32_t` field). -/
def getBc (buf : Nat → Cell) (i : Nat) : Nat := (buf i).bc % U32

/-- `a->freelist_id` (a `uint32_t` field). -/
def getFid (buf : Nat → Cell) (i : Nat) : Nat := (buf i).fid % U32

def setBc (buf : Nat → Cell) (i v : Nat) : Nat → Cell :=
  setCell buf i { buf i with bc := v % U32 }

def setFid (buf : Nat → Cell) (i v : Nat) : Nat → Cell :=
  setCell buf i { buf i with fid := v % U32 }

/-- `sizeof(struct allocation) / sizeof(AllocatorBlock)`: the header
(two `uint32_t`s) occupies exactly one 8-byte block. -/
abbrev ALLOCATION_HEAD_BLOCK_COUNT : Nat := 1

/-- `1 + ALLOCATION_HEAD_BLOCK_COUNT`. -/
abbrev MIN_BLOCKS_REQUIRED_FOR_ALLOCATION : Nat := 2

/-- `blocks_required_for_size`: `(size + sizeof(AllocatorBlock) - 1) /
sizeof(AllocatorBlock)` in `size_t` arithmetic (the addition wraps). -/
def blocks_required_for_size (size : Nat) : Nat := (size + 7) % U64 / 8

/-- `allocation_next`: `(struct allocation*)(mem->blocks + mem->block_count)`,
i.e. the block index one header plus `block_count` blocks further. -/
def allocation_next (buf : Nat → Cell) (a : Nat) : Nat :=
  a + ALLOCATION_HEAD_BLOCK_COUNT + getBc buf a

/-- `allocation_array_contains` (allocator.c lines 54-65). -/
def allocation_array_contains (buf : Nat → Cell) (fl : List Nat) (a : Nat) : Bool :=
  decide (getFid buf a ≠ 0 ∧ getFid buf a ≤ fl.length ∧ fl.getD (getFid buf a - 1) 0 = a)

/-- `allocation_array_append` (lines 67-84).  Capacity management of the
backing array is bookkeeping only (its failure aborts the process) and is
not part of the observable state. -/
def allocation_array_append (buf : Nat → Cell) (fl : List Nat) (a : Nat) :
    (Nat → Cell) × List Nat :=
  let fl2 := fl ++ [a]
  (setFid buf a fl2.length, fl2)

/-- `allocation_array_remove` (lines 86-107): swap the entry with the last
element, update the swapped element's tag, shrink, clear `a`'s tag. -/
def allocation_array_remove (buf : Nat → Cell) (fl : List Nat) (a : Nat) :
    (Nat → Cell) × List Nat :=
  let fid := getFid buf a
  let last := fl.getD (fl.length - 1) 0
  let fl2 := (fl.set (fid - 1) last).dropLast
  let buf2 := setFid buf last fid
  let buf3 := setFid buf2 a 0
  (buf3, fl2)

/-- `allocation_array_try_to_take_blocks_from_member` (lines 112-147).
Returns the number of blocks taken (0 on failure) together with the
updated memory and freelist. -/
def allocation_array_try_to_take_blocks_from_member
    (buf : Nat → Cell) (fl : List Nat) (member required_blocks : Nat) :
    Nat × (Nat → Cell) × List Nat :=
  let available_blocks := getBc buf member + ALLOCATION_HEAD_BLOCK_COUNT
  if available_blocks < required_blocks then
    (0, buf, fl)
  else if available_blocks < required_blocks + MIN_BLOCKS_REQUIRED_FOR_ALLOCATION then
    let r := allocation_array_remove buf fl member
    (available_blocks, r.1, r.2)
  else
    let remaining_blocks := available_blocks - required_blocks
    let fid := getFid buf member
    -- member->block_count = required_blocks - ALLOCATION_HEAD_BLOCK_COUNT
    -- (size_t subtraction, then truncating store into the uint32_t field)
    let buf2 := setBc buf member ((required_blocks + U64 - 1) % U64)
    let new_free_node := allocation_next buf2 member
    let buf3 := setBc buf2 new_free_node (remaining_blocks - 1)
    let buf4 := setFid buf3 new_free_node fid
    let fl2 := fl.set (fid - 1) new_free_node
    (required_blocks, buf4, fl2)

/-- The code after the scan loop of `allocation_array_join_allocation`
(lines 185-187): append when no merge linked the node. -/
def aaj_after_scan (buf : Nat → Cell) (fl : List Nat) (a : Nat) :
    (Nat → Cell) × List Nat :=
  if getFid buf a = 0 then allocation_array_append buf fl a
  else (buf, fl)

/-- The scan over the array looking for a node adjacent on the left
(lines 171-181 of `allocation_array_join_allocation`), followed by the
append fallback (lines 185-187).  `fuel` (structural, so that the kernel
can evaluate the function) bounds the number of iterations; the scan never
modifies `fl` before returning, so `fl.length + 1` fuel always reaches the
loop exit, which coincides with the fuel-exhaustion result. -/
def aaj_scan (buf : Nat → Cell) (fl : List Nat) (a : Nat) (i fuel : Nat) :
    (Nat → Cell) × List Nat :=
  match fuel with
  | 0 => aaj_after_scan buf fl a
  | fuel + 1 =>
    if h : i < fl.length then
      let before := fl.get ⟨i, h⟩
      if allocation_next buf before = a then
        let buf2 := setBc buf before (getBc buf before + getBc buf a + 1)
        if getFid buf2 a ≠ 0 then allocation_array_remove buf2 fl a
        else (buf2, fl)
      else aaj_scan buf fl a (i + 1) fuel
    else aaj_after_scan buf fl a

/-- `allocation_array_join_allocation` (lines 153-188): merge with the
right neighbour when it is in the array, then scan for a left neighbour,
otherwise append. -/
def allocation_array_join_allocation (buf : Nat → Cell) (fl : List Nat) (a : Nat) :
    (Nat → Cell) × List Nat :=
  let nxt := allocation_next buf a
  if allocation_array_contains buf fl nxt then
    let fid := getFid buf nxt
    let buf2 := setFid buf a fid
    let buf3 := setBc buf2 a (getBc buf2 a + getBc buf2 nxt + 1)
    aaj_scan buf3 (fl.set (fid - 1) a) a 0 (fl.length + 1)
  else
    aaj_scan buf fl a 0 (fl.length + 1)

/-! ### Regions (`struct arena_page`) -/

/-- `struct arena_page`.  `buf` is the backing memory viewed as blocks;
`headIdx` and `endIdx` are the `head` and `end` pointers as block offsets
from `memory`.  `owns_memory` only matters for teardown and is omitted. -/
structure ArenaPage where
  buf : Nat → Cell
  headIdx : Nat
  endIdx : Nat
  freelist : List Nat

def dummyPage : ArenaPage := ⟨fun _ => Cell.zero, 0, 0, []⟩

instance : Inhabited ArenaPage := ⟨dummyPage⟩

/-- `arena_page_create_from_memory` (lines 190-214).  `block_count` is
`size / sizeof(AllocatorBlock)` for a buffer of `size` bytes.  A buffer of
fewer than `ALLOCATION_HEAD_BLOCK_COUNT` blocks makes the C function
abort; that is modelled by `none`.  The final header slot is reserved as
the `end` sentinel and zeroed. -/
def arena_page_create_from_memory (mem : Nat → Cell) (block_count : Nat) :
    Option ArenaPage :=
  if block_count < ALLOCATION_HEAD_BLOCK_COUNT then none
  else some
    { buf := setCell mem (block_count - ALLOCATION_HEAD_BLOCK_COUNT) Cell.zero
      headIdx := 0
      endIdx := block_count - ALLOCATION_HEAD_BLOCK_COUNT
      freelist := [] }

/-- `arena_page_contains_allocation` (lines 216-224): `memory <= a < end`.
For a structured pointer known to lie in this page's buffer the test is the
offset bound; distinct pages/OS blocks never alias. -/
def arena_page_contains_allocation (page : ArenaPage) (a : Nat) : Bool :=
  decide (a < page.endIdx)

/-- `arena_page_try_advancing_head` (lines 237-244).  `none` models the
`false` return, in which case the page is unchanged. -/
def arena_page_try_advancing_head (page : ArenaPage) (advance_block_count : Nat) :
    Option ArenaPage :=
  if page.headIdx + advance_block_count > page.endIdx then none
  else some { page with headIdx := page.headIdx + advance_block_count }

/-- The freelist loop of `arena_page_make_allocation` (lines 329-342):
try each entry in order; a failing probe returns 0 and leaves the state
unchanged, a successful one re-stamps the header (tag 0, block count
`allocated - ALLOCATION_HEAD_BLOCK_COUNT`).  `fuel` bounds the iteration
count; the C loop runs at most the initial `count` iterations because the
count never grows during the loop. -/
def ap_alloc_from_freelist (buf : Nat → Cell) (fl : List Nat) (required i fuel : Nat) :
    Option (Nat × (Nat → Cell) × List Nat) :=
  match fuel with
  | 0 => none
  | fuel + 1 =>
    if h : i < fl.length then
      let a := fl.get ⟨i, h⟩
      match allocation_array_try_to_take_blocks_from_member buf fl a required with
      | (0, buf2, fl2) => ap_alloc_from_freelist buf2 fl2 required (i + 1) fuel
      | (allocated, buf2, fl2) =>
        let buf3 := setFid buf2 a 0
        let buf4 := setBc buf3 a (allocated - 1)
        some (a, buf4, fl2)
    else none

/-- `arena_page_make_allocation` (lines 313-354).  Returns the block index
of the new allocation's header.  A failing call leaves the page unchanged
(the failing branches of the C function perform no writes). -/
def arena_page_make_allocation (page : ArenaPage) (size : Nat) : Option (Nat × ArenaPage) :=
  let required := blocks_required_for_size size + ALLOCATION_HEAD_BLOCK_COUNT
  -- page full: `page->end - page->head <= (int64_t)required_blocks`
  if (page.endIdx : Int) - (page.headIdx : Int) ≤ (required : Int)
      ∧ page.freelist.length = 0 then
    none
  else
    match ap_alloc_from_freelist page.buf page.freelist required 0 page.freelist.length with
    | some (a, buf2, fl2) => some (a, { page with buf := buf2, freelist := fl2 })
    | none =>
      match arena_page_try_advancing_head page required with
      | some page2 =>
        let buf2 := setBc page2.buf page.headIdx (required - 1)
        let buf3 := setFid buf2 page.headIdx 0
        some (page.headIdx, { page2 with buf := buf3 })
      | none => none

/-- `arena_page_free_allocation` (lines 358-372). -/
def arena_page_free_allocation (page : ArenaPage) (a : Nat) : ArenaPage :=
  if allocation_next page.buf a = page.headIdx then
    { page with headIdx := page.headIdx - (ALLOCATION_HEAD_BLOCK_COUNT + getBc page.buf a) }
  else
    let r := allocation_array_join_allocation page.buf page.freelist a
    { page with buf := r.1, freelist := r.2 }

/-- `arena_page_try_reallocating_in_place` (lines 246-311).  `none` models
the `false` return; in every `false` branch the C function has performed no
writes, so the caller keeps the original page. -/
def arena_page_try_reallocating_in_place (page : ArenaPage) (a size : Nat) :
    Option ArenaPage :=
  let required := blocks_required_for_size size
  if getBc page.buf a ≥ required + MIN_BLOCKS_REQUIRED_FOR_ALLOCATION then
    -- allocation is shrinking
    let remaining := getBc page.buf a - required
    if allocation_next page.buf a = page.headIdx then
      some { page with headIdx := page.headIdx - remaining, buf := setBc page.buf a required }
    else
      let buf2 := setBc page.buf a required
      let remainder := allocation_next buf2 a
      let buf3 := setBc buf2 remainder (remaining - 1)
      let buf4 := setFid buf3 remainder 0
      let r := allocation_array_join_allocation buf4 page.freelist remainder
      some { page with buf := r.1, freelist := r.2 }
  else if getBc page.buf a < required then
    -- allocation is growing
    let additional := required - getBc page.buf a
    let nxt := allocation_next page.buf a
    if nxt = page.headIdx then
      match arena_page_try_advancing_head page additional with
      | none => none
      | some page2 =>
        some { page2 with buf := setBc page2.buf a (getBc page2.buf a + additional) }
    else if allocation_array_contains page.buf page.freelist nxt then
      match allocation_array_try_to_take_blocks_from_member
          page.buf page.freelist nxt additional with
      | (0, _, _) => none
      | (allocated, buf2, fl2) =>
        some { page with buf := setBc buf2 a (getBc buf2 a + allocated), freelist := fl2 }
    else none
  else
    -- allocation is unchanged
    some page

/-! ### The growing arena (`struct arena`) -/

structure Arena where
  page_size : Nat
  pages : Array ArenaPage

/-- The page loop of `arena_malloc` (lines 477-481): try every existing
page in order.  A failing `make` leaves its page unchanged. -/
def arena_malloc_pages (ar : Arena) (size i fuel : Nat) : Option ((Nat × Nat) × Arena) :=
  match fuel with
  | 0 => none
  | fuel + 1 =>
    if h : i < ar.pages.size then
      match arena_page_make_allocation (ar.pages.get ⟨i, h⟩) size with
      | some (idx, pg2) => some ((i, idx), { ar with pages := ar.pages.set ⟨i, h⟩ pg2 })
      | none => arena_malloc_pages ar size (i + 1) fuel
    else none

/-- `arena_malloc` (lines 466-498).  The result locates the new header as
(page index, block index).  The fresh page's backing memory is the zero
memory (the C buffer is uninitialised; only cells the allocator has
written are ever read back).  The two `ALLOCATOR_ABORT`s for bookkeeping
failure do not return and internal bookkeeping allocation is modelled as
always succeeding; the abort in `arena_page_create_from_memory`
(page_size < 8) is modelled by a `none` result with the arena unchanged. -/
def arena_malloc (ar : Arena) (size : Nat) : Option (Nat × Nat) × Arena :=
  if size > ar.page_size then (none, ar)
  else
    match arena_malloc_pages ar size 0 ar.pages.size with
    | some (loc, ar2) => (some loc, ar2)
    | none =>
      match arena_page_create_from_memory (fun _ => Cell.zero) (ar.page_size / 8) with
      | none => (none, ar)
      | some fresh =>
        match arena_page_make_allocation fresh size with
        | none => (none, { ar with pages := ar.pages.push fresh })
        | some (idx, fresh2) =>
          (some (ar.pages.size, idx), { ar with pages := ar.pages.push fresh2 })

/-- `n` successive `arena_page_make_allocation` calls of the same size
(used to state the fixed-region capacity claims); fails as soon as one
allocation fails. -/
def arena_page_make_n (page : ArenaPage) (size : Nat) : Nat → Option ArenaPage
  | 0 => some page
  | n + 1 =>
    match arena_page_make_allocation page size with
    | none => none
    | some (_, page2) => arena_page_make_n page2 size n

/-- The freelist-array invariant: the entry stored at index `i` carries
tag `i + 1`. -/
def FLInv (buf : Nat → Cell) (fl : List Nat) : Prop :=
  ∀ i, i < fl.length → getFid buf (fl.getD i 0) = i + 1

instance (buf : Nat → Cell) (fl : List Nat) : Decidable (FLInv buf fl) := by
  unfold FLInv; infer_instance

/-- No two freelist entries are chain-adjacent: no entry's `next` header
is itself an entry. -/
def NoAdjFree (buf : Nat → Cell) (fl : List Nat) : Prop :=
  ∀ e ∈ fl, ∀ f ∈ fl, allocation_next buf e ≠ f

instance (buf : Nat → Cell) (fl : List Nat) : Decidable (NoAdjFree buf fl) := by
  unfold NoAdjFree; infer_instance

/-! ### The allocator handle chain, OS heap, and router
(`struct allocator`, `allocator_malloc` / `_calloc` / `_realloc` /
`_free`, lines 374-787) -/

/-- An OS-heap allocation made by the system-direct or tracked-system
strategy: the in-band `struct allocation` header followed by its payload
cells. -/
structure OSBlock where
  hdr : Cell
  data : Nat → Cell

/-- A pointer as the router sees it: a header inside page `pg` of the
handle at chain index `h`, or the id of an OS-heap block.  Distinct OS
blocks and regions never occupy overlapping address intervals (the OS
guarantees it), so the C pointer-range and pointer-equality tests are
decided structurally. -/
inductive APtr where
  | osp : Nat → APtr
  | pgp : (h : Nat) → (pg : Nat) → (idx : Nat) → APtr
deriving DecidableEq

/-- One handle of the fallback chain (`struct allocator`): the type tag
plus the variant state.  The ledger of the tracked-system strategy
(`default_plus_allocations`) stores the ids of the OS blocks it owns. -/
inductive HKind where
  | hdefault : HKind
  | hdefaultPlus : List Nat → HKind
  | hstaticArena : ArenaPage → HKind
  | harena : Arena → HKind

/-- The global state: the fallback chain (root first), the OS heap
(freed ids map to `none`, `osNext` is the next fresh id), and the
success plan for the OS calls that allocate user data (`plan osCtr`
decides whether the next `ALLOCATOR_INTERNAL_MALLOC` / `_REALLOC` for
user data succeeds).  Bookkeeping allocations (freelist capacity, the
page vector, fresh page memory) abort the process on failure and are
modelled as always succeeding. -/
structure AState where
  handles : List HKind
  os : Nat → Option OSBlock
  osNext : Nat
  plan : Nat → Bool
  osCtr : Nat

def getHandle (st : AState) (h : Nat) : HKind := st.handles.getD h HKind.hdefault

def setHandle (st : AState) (h : Nat) (k : HKind) : AState :=
  { st with handles := st.handles.set h k }

/-- The region addressed by a structured page pointer (the zero region
when the pointer dangles outside every region; such reads are C UB). -/
def pageOf (st : AState) (h pg : Nat) : ArenaPage :=
  match getHandle st h with
  | .hstaticArena page => if pg = 0 then page else dummyPage
  | .harena ar => ar.pages.getD pg dummyPage
  | _ => dummyPage

def setPageOf (st : AState) (h pg : Nat) (page : ArenaPage) : AState :=
  match getHandle st h with
  | .hstaticArena old =>
    if pg = 0 then setHandle st h (.hstaticArena page)
    else setHandle st h (.hstaticArena old)
  | .harena ar => setHandle st h (.harena { ar with pages := ar.pages.setD pg page })
  | _ => st

/-- The header cell a pointer designates (reads of freed OS memory, which
are C UB, read as zero). -/
def aptrHdr (st : AState) (p : APtr) : Cell :=
  match p with
  | .osp id =>
    match st.os id with
    | some b => b.hdr
    | none => Cell.zero
  | .pgp h pg idx => (pageOf st h pg).buf idx

/-- `a->freelist_id` read through a pointer. -/
def aptrFid (st : AState) (p : APtr) : Nat := (aptrHdr st p).fid % U32

/-- `a->block_count` read through a pointer. -/
def aptrBc (st : AState) (p : APtr) : Nat := (aptrHdr st p).bc % U32

/-- Payload cell `k` of an allocation (the cell `HEADER_BLOCKS + k`
blocks after the header). -/
def payloadCell (st : AState) (p : APtr) (k : Nat) : Cell :=
  match p with
  | .osp id =>
    match st.os id with
    | some b => b.data k
    | none => Cell.zero
  | .pgp h pg idx => (pageOf st h pg).buf (idx + ALLOCATION_HEAD_BLOCK_COUNT + k)

/-- Byte `b` of an allocation's payload (little-endian within a block). -/
def readByte (st : AState) (p : APtr) (b : Nat) : Nat :=
  (payloadCell st p (b / 8)).byte (b % 8)

def writePayloadCell (st : AState) (p : APtr) (k : Nat) (c : Cell) : AState :=
  match p with
  | .osp id =>
    match st.os id with
    | some b =>
      { st with os := fun j => if j = id
          then some { b with data := fun i => if i = k then c else b.data i }
          else st.os j }
    | none => st
  | .pgp h pg idx =>
    let page := pageOf st h pg
    setPageOf st h pg
      { page with buf := setCell page.buf (idx + ALLOCATION_HEAD_BLOCK_COUNT + k) c }

def writeByte (st : AState) (p : APtr) (b v : Nat) : AState :=
  writePayloadCell st p (b / 8) ((payloadCell st p (b / 8)).setByte (b % 8) v)

/-- `memcpy(dst_user, src_user, n)` at byte granularity, ascending from
byte offset `off`. -/
def copyBytes (st : AState) (src dst : APtr) (off : Nat) : Nat → AState
  | 0 => st
  | n + 1 => copyBytes (writeByte st dst off (readByte st src off)) src dst (off + 1) n

/-- `memset(user, 0, n)` at byte granularity. -/
def zeroBytes (st : AState) (p : APtr) (off : Nat) : Nat → AState
  | 0 => st
  | n + 1 => zeroBytes (writeByte st p off 0) p (off + 1) n

abbrev DEFAULT_ALLOCATOR_SPECIAL_FREELIST_ID : Nat := 4294967295

/-- `default_malloc` (lines 376-388): `ALLOCATOR_INTERNAL_MALLOC` of
`total_allocation_size_by_data_size(size)` bytes — a fresh OS block whose
success the plan decides — then the header is stamped with the block
count and the sentinel tag.  Fresh memory is modelled zero-filled (the C
contents are indeterminate and never read before being written). -/
def default_malloc (st : AState) (size : Nat) : Option APtr × AState :=
  if st.plan st.osCtr then
    (some (.osp st.osNext),
      { st with
          os := fun j => if j = st.osNext
            then some ⟨⟨blocks_required_for_size size % U32,
              DEFAULT_ALLOCATOR_SPECIAL_FREELIST_ID⟩, fun _ => Cell.zero⟩
            else st.os j
          osNext := st.osNext + 1
          osCtr := st.osCtr + 1 })
  else (none, { st with osCtr := st.osCtr + 1 })

/-- The OS `realloc` of a user block to
`total_allocation_size_by_data_size(size)` bytes, shared by
`default_realloc` (lines 390-404) and `default_plus_realloc` (lines
444-464).  It is modelled address-stable (the heap resizes in place), so
`default_plus_realloc`'s `new != a` ledger fix-up path never runs; the
header and `min(old payload, new payload)` cells are preserved and the
block count field is restamped.  `realloc` of a freed id (C UB) is
modelled as failure. -/
def os_user_realloc (st : AState) (id size : Nat) : Option APtr × AState :=
  match st.os id with
  | some b =>
    if st.plan st.osCtr then
      (some (.osp id),
        { st with
            os := fun j => if j = id
              then some ⟨⟨blocks_required_for_size size % U32, b.hdr.fid⟩,
                fun i => if i < min (b.hdr.bc % U32) (blocks_required_for_size size)
                  then b.data i else Cell.zero⟩
              else st.os j
            osCtr := st.osCtr + 1 })
    else (none, { st with osCtr := st.osCtr + 1 })
  | none => (none, { st with osCtr := st.osCtr + 1 })

/-- `default_free` (lines 406-413): release the OS block. -/
def default_free (st : AState) (id : Nat) : AState :=
  { st with os := fun j => if j = id then none else st.os j }

/-- `allocation_array_contains` applied to the tracked-system ledger:
the pointer comparison `array->allocations[fid-1] == a` is decided
structurally (ledger entries are OS blocks). -/
def ledger_contains (st : AState) (led : List Nat) (p : APtr) : Bool :=
  decide (aptrFid st p ≠ 0 ∧ aptrFid st p ≤ led.length ∧
    APtr.osp (led.getD (aptrFid st p - 1) 0) = p)

/-- Write the `freelist_id` field of an OS block's header. -/
def osSetFid (st : AState) (id v : Nat) : AState :=
  match st.os id with
  | some b =>
    { st with os := fun j => if j = id
        then some { b with hdr := { b.hdr with fid := v % U32 } }
        else st.os j }
  | none => st

/-- `allocation_array_append` on the ledger. -/
def ledger_append (st : AState) (led : List Nat) (id : Nat) : AState × List Nat :=
  (osSetFid st id (led ++ [id]).length, led ++ [id])

/-- `allocation_array_remove` on the ledger. -/
def ledger_remove (st : AState) (led : List Nat) (id : Nat) : AState × List Nat :=
  let fid := aptrFid st (.osp id)
  let last := led.getD (led.length - 1) 0
  let led2 := (led.set (fid - 1) last).dropLast
  (osSetFid (osSetFid st last fid) id 0, led2)

/-- `default_plus_malloc` (lines 415-430): OS-allocate, stamp the block
count, append to the ledger (which assigns the tag). -/
def default_plus_malloc (st : AState) (led : List Nat) (size : Nat) :
    Option APtr × AState × List Nat :=
  if st.plan st.osCtr then
    let id := st.osNext
    let st2 : AState :=
      { st with
          os := fun j => if j = id
            then some ⟨⟨blocks_required_for_size size % U32, 0⟩, fun _ => Cell.zero⟩
            else st.os j
          osNext := st.osNext + 1
          osCtr := st.osCtr + 1 }
    let r := ledger_append st2 led id
    (some (.osp id), r.1, r.2)
  else (none, { st with osCtr := st.osCtr + 1 }, led)

/-- `default_plus_free` (lines 432-440): remove from the ledger, release. -/
def default_plus_free (st : AState) (led : List Nat) (id : Nat) : AState × List Nat :=
  let r := ledger_remove st led id
  (default_free r.1 id, r.2)

/-- `memcpy` of `n` whole cells inside one region memory, ascending (the
C regions never overlap). -/
def copyCells (buf : Nat → Cell) (src dst n : Nat) : Nat → Cell :=
  match n with
  | 0 => buf
  | n + 1 => copyCells (setCell buf dst (buf src)) (src + 1) (dst + 1) n

/-- `static_arena_realloc` (lines 546-567): in place, else a fresh
allocation in the same region, `memcpy` of the smaller block count, free
the original. -/
def static_arena_realloc (page : ArenaPage) (a size : Nat) : Option Nat × ArenaPage :=
  match arena_page_try_reallocating_in_place page a size with
  | some page2 => (some a, page2)
  | none =>
    match arena_page_make_allocation page size with
    | none => (none, page)
    | some (nidx, page2) =>
      let smaller := min (getBc page2.buf a) (getBc page2.buf nidx)
      let page3 := { page2 with buf := copyCells page2.buf (a + 1) (nidx + 1) smaller }
      (some nidx, arena_page_free_allocation page3 a)

/-- The owning-page scan of `arena_realloc` / `arena_page_contains_allocation`
(lines 516-522): the `pg = i` conjunct models the address-range
disjointness of distinct pages. -/
def arena_find_owning_page (ar : Arena) (pg idx i fuel : Nat) : Option Nat :=
  match fuel with
  | 0 => none
  | fuel + 1 =>
    if h : i < ar.pages.size then
      if pg = i ∧ arena_page_contains_allocation (ar.pages.get ⟨i, h⟩) idx then some i
      else arena_find_owning_page ar pg idx (i + 1) fuel
    else none

/-- `memcpy` of `n` whole cells between (possibly different) pages of an
arena, ascending. -/
def arena_copy_cells (ar : Arena) (spg src dpg dst n : Nat) : Arena :=
  match n with
  | 0 => ar
  | n + 1 =>
    let c := (ar.pages.getD spg dummyPage).buf src
    let dpage := ar.pages.getD dpg dummyPage
    let dpage2 : ArenaPage := { dpage with buf := setCell dpage.buf dst c }
    arena_copy_cells { ar with pages := ar.pages.setD dpg dpage2 }
      spg (src + 1) dpg (dst + 1) n

/-- `arena_realloc` (lines 502-542): reject oversize, find the owning
page, try in place, else allocate from the arena (which may append a
page), copy the smaller block count and free the original in its page
(re-fetched by index, as the page vector may have been reallocated). -/
def arena_realloc (ar : Arena) (pg idx size : Nat) : Option (Nat × Nat) × Arena :=
  if size > ar.page_size then (none, ar)
  else
    match arena_find_owning_page ar pg idx 0 ar.pages.size with
    | none => (none, ar)
    | some opi =>
      match arena_page_try_reallocating_in_place (ar.pages.getD opi dummyPage) idx size with
      | some page2 => (some (pg, idx), { ar with pages := ar.pages.setD opi page2 })
      | none =>
        let r := arena_malloc ar size
        match r.1 with
        | none => (none, r.2)
        | some (npg, nidx) =>
          let smaller := min (getBc ((r.2.pages.getD opi dummyPage)).buf idx)
            (getBc ((r.2.pages.getD npg dummyPage)).buf nidx)
          let ar3 := arena_copy_cells r.2 opi (idx + 1) npg (nidx + 1) smaller
          let freed := arena_page_free_allocation (ar3.pages.getD opi dummyPage) idx
          (some (npg, nidx), { ar3 with pages := ar3.pages.setD opi freed })

/-- `allocator_owns_memory` (lines 569-593). -/
def allocator_owns_memory (st : AState) (h : Nat) (p : APtr) : Bool :=
  match getHandle st h with
  | .hdefault => decide (aptrFid st p = DEFAULT_ALLOCATOR_SPECIAL_FREELIST_ID)
  | .hdefaultPlus led => ledger_contains st led p
  | .hstaticArena page =>
    match p with
    | .pgp h2 pg idx =>
      decide (h2 = h ∧ pg = 0) && arena_page_contains_allocation page idx
    | .osp _ => false
  | .harena ar =>
    match p with
    | .pgp h2 pg idx =>
      decide (h2 = h) && decide (pg < ar.pages.size)
        && arena_page_contains_allocation (ar.pages.getD pg dummyPage) idx
    | .osp _ => false

/-- `find_owning_allocator` (lines 595-609): walk the chain from `h`. -/
def find_owning_from (st : AState) (p : APtr) (h fuel : Nat) : Option Nat :=
  match fuel with
  | 0 => none
  | fuel + 1 =>
    if h < st.handles.length then
      if allocator_owns_memory st h p then some h
      else find_owning_from st p (h + 1) fuel
    else none

def find_owning_allocator (st : AState) (p : APtr) : Option Nat :=
  find_owning_from st p 0 st.handles.length

/-- One strategy's `malloc` dispatch (the `switch` of `allocator_malloc`,
lines 623-640). -/
def strategy_malloc (st : AState) (h size : Nat) : Option APtr × AState :=
  match getHandle st h with
  | .hdefault => default_malloc st size
  | .hdefaultPlus led =>
    let r := default_plus_malloc st led size
    (r.1, setHandle r.2.1 h (.hdefaultPlus r.2.2))
  | .hstaticArena page =>
    match arena_page_make_allocation page size with
    | none => (none, st)
    | some (idx, page2) => (some (.pgp h 0 idx), setHandle st h (.hstaticArena page2))
  | .harena ar =>
    let r := arena_malloc ar size
    match r.1 with
    | none => (none, setHandle st h (.harena r.2))
    | some (pg, idx) => (some (.pgp h pg idx), setHandle st h (.harena r.2))

/-- `allocator_malloc` with the fallback recursion (lines 611-649),
walking the chain from handle `h`.  Failed strategies keep their state
mutations (an arena may have appended a page). -/
def allocator_malloc_from (st : AState) (h size fuel : Nat) : Option APtr × AState :=
  match fuel with
  | 0 => (none, st)
  | fuel + 1 =>
    if h < st.handles.length then
      match strategy_malloc st h size with
      | (some p, st2) => (some p, st2)
      | (none, st2) => allocator_malloc_from st2 (h + 1) size fuel
    else (none, st)

/-- `allocator_malloc` from the root handle.  `size == 0` returns NULL. -/
def allocator_malloc (st : AState) (size : Nat) : Option APtr × AState :=
  if size = 0 then (none, st)
  else allocator_malloc_from st 0 size st.handles.length

/-- `allocator_free_internal` (lines 683-712); the caller has validated
ownership.  The arena case scans for the containing page and silently
returns when none contains the pointer, like the C loop. -/
def allocator_free_internal (st : AState) (h : Nat) (p : APtr) : AState :=
  match getHandle st h with
  | .hdefault =>
    match p with
    | .osp id => default_free st id
    | .pgp _ _ _ => st
  | .hdefaultPlus led =>
    match p with
    | .osp id =>
      let r := default_plus_free st led id
      setHandle r.1 h (.hdefaultPlus r.2)
    | .pgp _ _ _ => st
  | .hstaticArena page =>
    match p with
    | .pgp _ _ idx => setHandle st h (.hstaticArena (arena_page_free_allocation page idx))
    | .osp _ => st
  | .harena ar =>
    match p with
    | .pgp _ pg idx =>
      match arena_find_owning_page ar pg idx 0 ar.pages.size with
      | none => st
      | some opi =>
        let freed := arena_page_free_allocation (ar.pages.getD opi dummyPage) idx
        setHandle st h (.harena { ar with pages := ar.pages.setD opi freed })
    | .osp _ => st

/-- `allocator_free` (lines 714-730): NULL is a no-op; an unrecognised
pointer aborts (`none`). -/
def allocator_free (st : AState) (p : Option APtr) : Option AState :=
  match p with
  | none => some st
  | some p =>
    match find_owning_allocator st p with
    | none => none
    | some h => some (allocator_free_internal st h p)

/-- One strategy's `realloc` dispatch (the `switch` of
`allocator_realloc`, lines 754-771). -/
def strategy_realloc (st : AState) (h : Nat) (p : APtr) (size : Nat) :
    Option APtr × AState :=
  match getHandle st h with
  | .hdefault =>
    match p with
    | .osp id => os_user_realloc st id size
    | .pgp _ _ _ => (none, st)
  | .hdefaultPlus _ =>
    match p with
    | .osp id => os_user_realloc st id size
    | .pgp _ _ _ => (none, st)
  | .hstaticArena page =>
    match p with
    | .pgp _ _ idx =>
      let r := static_arena_realloc page idx size
      match r.1 with
      | none => (none, setHandle st h (.hstaticArena r.2))
      | some nidx => (some (.pgp h 0 nidx), setHandle st h (.hstaticArena r.2))
    | .osp _ => (none, st)
  | .harena ar =>
    match p with
    | .pgp _ pg idx =>
      let r := arena_realloc ar pg idx size
      match r.1 with
      | none => (none, setHandle st h (.harena r.2))
      | some (npg, nidx) => (some (.pgp h npg nidx), setHandle st h (.harena r.2))
    | .osp _ => (none, st)

/-- `allocator_realloc` (lines 732-787).  `none` models the abort on an
unrecognised pointer.  When the owning strategy fails, a fresh
allocation is attempted from the root, `min(old payload bytes, size)`
bytes are copied, and only then is the original freed. -/
def allocator_realloc (st : AState) (p : Option APtr) (size : Nat) :
    Option (Option APtr × AState) :=
  if size = 0 then
    match allocator_free st p with
    | none => none
    | some st2 => some (none, st2)
  else
    match p with
    | none => some (allocator_malloc st size)
    | some p =>
      match find_owning_allocator st p with
      | none => none
      | some h =>
        match strategy_realloc st h p size with
        | (some np, st2) => some (some np, st2)
        | (none, st2) =>
          let r := allocator_malloc st2 size
          match r.1 with
          | none => some (none, r.2)
          | some np =>
            let st4 := copyBytes r.2 p np 0 (min (aptrBc r.2 p * 8) size)
            some (some np, allocator_free_internal st4 h p)

/-- `allocator_calloc` (lines 651-664): the total size is the unchecked
`size_t` product `size * count`; allocate, then `memset` that many
bytes to zero. -/
def allocator_calloc (st : AState) (count size : Nat) : Option APtr × AState :=
  let total_size := size * count % U64
  let r := allocator_malloc st total_size
  match r.1 with
  | none => (none, r.2)
  | some p => (some p, zeroBytes r.2 p 0 total_size)

/-- A chain holding only the system-direct handle over an empty OS heap,
with every OS call succeeding; used by concrete instances. -/
def defaultChainState : AState :=
  ⟨[HKind.hdefault], fun _ => none, 0, fun _ => true, 0⟩

/-- A concrete region memory used by witnesses: free headers of 2 payload
blocks at blocks 0 and 6 (tags 1 and 2), live allocations of 2 payload
blocks at blocks 3 and 9, bump head at block 12. -/
def wit4buf : Nat → Cell := fun j =>
  if j = 0 then ⟨2, 1⟩
  else if j = 3 then ⟨2, 0⟩
  else if j = 6 then ⟨2, 2⟩
  else if j = 9 then ⟨2, 0⟩
  else Cell.zero

/-- The memory a pointer designates, compared across two states: for an
OS pointer the OS block, for a page pointer the whole designated region
(header cell, payload cells, head, end and freelist alike). -/
def memAtPtrEq (st st2 : AState) (p : APtr) : Prop :=
  match p with
  | .osp id => st2.os id = st.os id
  | .pgp h2 pg _ => pageOf st2 h2 pg = pageOf st h2 pg

/-- A state step that is invisible at `p`: the OS heap is untouched, the
chain length is unchanged, the memory `p` designates is unchanged, and
every handle answers ownership of `p` as before. -/
def StableAt (st st2 : AState) (p : APtr) : Prop :=
  st2.os = st.os ∧
  st2.osNext = st.osNext ∧
  st2.handles.length = st.handles.length ∧
  memAtPtrEq st st2 p ∧
  ∀ x, allocator_owns_memory st2 x p = allocator_owns_memory st x p

/-- A one-page fixed region for the failed-resize instance: a live
2-payload-block allocation at block 0, bump head at block 3, end
sentinel at block 4, empty freelist.  A grow to 100 bytes can neither
extend in place nor be re-allocated. -/
def c9buf : Nat → Cell := fun j => if j = 0 then ⟨2, 0⟩ else Cell.zero

def c9page : ArenaPage := ⟨c9buf, 3, 4, []⟩

def c9st : AState :=
  ⟨[HKind.hstaticArena c9page], fun _ => none, 0, fun _ => false, 0⟩

def c9st2 : AState := setHandle c9st 0 (HKind.hstaticArena c9page)

/-- The span invariant of a region: the bump head is below the end
sentinel, every free node lies entirely below the head, and the spans
`[e, e + 1 + block_count e)` of distinct free nodes do not overlap. -/
def PageWF (page : ArenaPage) : Prop :=
  page.headIdx ≤ page.endIdx ∧
  (∀ e ∈ page.freelist, allocation_next page.buf e ≤ page.headIdx) ∧
  (∀ e ∈ page.freelist, ∀ f ∈ page.freelist, e ≠ f →
    allocation_next page.buf e ≤ f ∨ allocation_next page.buf f ≤ e)

instance (page : ArenaPage) : Decidable (PageWF page) := by
  unfold PageWF
  infer_instance

/-- A live allocation headed at `a`: its span lies below the bump head
and does not overlap any free node's span. -/
def LiveAt (page : ArenaPage) (a : Nat) : Prop :=
  allocation_next page.buf a ≤ page.headIdx ∧
  (∀ e ∈ page.freelist, allocation_next page.buf e ≤ a ∨ allocation_next page.buf a ≤ e)

instance (page : ArenaPage) (a : Nat) : Decidable (LiveAt page a) := by
  unfold LiveAt
  infer_instance

/-- Well-formedness of the memory a pointer designates: trivial for an
OS block (the OS keeps blocks disjoint), the span invariants for a
region allocation. -/
def PtrWF (st : AState) (p : APtr) : Prop :=
  match p with
  | .osp _ => True
  | .pgp h2 pg idx => PageWF (pageOf st h2 pg) ∧ LiveAt (pageOf st h2 pg) idx

instance (st : AState) (p : APtr) : Decidable (PtrWF st p) := by
  unfold PtrWF
  cases p <;> infer_instance

/-- Two pointers that can never alias in the model: distinct OS blocks,
or regions of distinct handles, or an OS block versus a region. -/
def DistinctPtr (p np : APtr) : Prop :=
  match p, np with
  | .osp id, .osp nid => nid ≠ id
  | .pgp h _ _, .pgp h2 _ _ => h2 ≠ h
  | _, _ => True

/-- A pointer whose designated slot accepts writes in the model: a live
OS block, page 0 of a fixed region, or an in-range page of an arena. -/
def WritablePtr (st : AState) (p : APtr) : Prop :=
  match p with
  | .osp id => st.os id ≠ none
  | .pgp h2 pg _ =>
    match getHandle st h2 with
    | .hstaticArena _ => pg = 0
    | .harena ar => pg < ar.pages.size
    | _ => False

/-- A fixed region for the unbounded-size counterexample: a live
allocation of 2 payload blocks at block 0 (payload cells holding the
recognisable values 123 and 7), a second live allocation at block 3,
bump head at block 5, end sentinel at block 6. -/
def c6buf : Nat → Cell := fun j =>
  if j = 0 then ⟨2, 0⟩
  else if j = 1 then ⟨123, 45⟩
  else if j = 2 then ⟨7, 9⟩
  else if j = 3 then ⟨1, 0⟩
  else if j = 4 then ⟨5, 6⟩
  else Cell.zero

def c6page : ArenaPage := ⟨c6buf, 5, 6, []⟩

def c6st : AState :=
  ⟨[HKind.hstaticArena c6page], fun _ => none, 0, fun _ => false, 0⟩

/-- Handle `h` cannot serve a fresh `size`-byte allocation: its region's
`make` fails (fixed region), or its whole `arena_malloc` fails (growing
arena).  System-backed handles carry no such token. -/
def FailsAt (st : AState) (h size : Nat) : Prop :=
  match getHandle st h with
  | .hstaticArena page => arena_page_make_allocation page size = none
  | .harena ar => (arena_malloc ar size).1 = none
  | _ => True

/-- One iteration of the `arena_copy_cells` loop: copy one cell from
page `spg` into page `dpg`. -/
def acc_step (ar : Arena) (spg src dpg dst : Nat) : Arena :=
  let dpage := ar.pages.getD dpg dummyPage
  let c := (ar.pages.getD spg dummyPage).buf src
  { ar with pages := ar.pages.setD dpg { dpage with buf := setCell dpage.buf dst c } }

/-- A one-page fixed region for the successful-resize witness: one live
2-payload-block allocation at block 0 sitting right under the bump head,
plenty of room to grow in place. -/
def c6wbuf : Nat → Cell := fun j =>
  if j = 0 then ⟨2, 0⟩ else if j = 1 then ⟨77, 0⟩ else if j = 2 then ⟨88, 0⟩
  else Cell.zero

def c6wpage : ArenaPage := ⟨c6wbuf, 3, 10, []⟩

def c6wst : AState := ⟨[HKind.hstaticArena c6wpage], fun _ => none, 0, fun _ => false, 0⟩

/-- The state after growing that allocation to 20 bytes (resolved in
place by advancing the head). -/
def c6wst2 : AState :=
  match allocator_realloc c6wst (some (APtr.pgp 0 0 0)) 20 with
  | some (_, st) => st
  | none => c6wst


/-! ### Basic lemmas about cell reads and writes -/

theorem getBc_lt (buf : Nat → Cell) (i : Nat) : getBc buf i < U32 :=
  Nat.mod_lt _ (by decide)

theorem getFid_lt (buf : Nat → Cell) (i : Nat) : getFid buf i < U32 :=
  Nat.mod_lt _ (by decide)

@[simp] theorem getBc_setBc_self (buf : Nat → Cell) (i v : Nat) :
    getBc (setBc buf i v) i = v % U32 := by
  simp [getBc, setBc, setCell, Nat.mod_mod_of_dvd]

@[simp] theorem getBc_setBc_ne (buf : Nat → Cell) (i v j : Nat) (h : j ≠ i) :
    getBc (setBc buf i v) j = getBc buf j := by
  simp [getBc, setBc, setCell, h]

@[simp] theorem getBc_setFid (buf : Nat → Cell) (i v j : Nat) :
    getBc (setFid buf i v) j = getBc buf j := by
  by_cases h : j = i <;> simp [getBc, setFid, setCell, h]

@[simp] theorem getFid_setBc (buf : Nat → Cell) (i v j : Nat) :
    getFid (setBc buf i v) j = getFid buf j := by
  by_cases h : j = i <;> simp [getFid, setBc, setCell, h]

@[simp] theorem getFid_setFid_self (buf : Nat → Cell) (i v : Nat) :
    getFid (setFid buf i v) i = v % U32 := by
  simp [getFid, setFid, setCell, Nat.mod_mod_of_dvd]

@[simp] theorem getFid_setFid_ne (buf : Nat → Cell) (i v j : Nat) (h : j ≠ i) :
    getFid (setFid buf i v) j = getFid buf j := by
  simp [getFid, setFid, setCell, h]

theorem setBc_apply_ne (buf : Nat → Cell) (i v j : Nat) (h : j ≠ i) :
    setBc buf i v j = buf j := by
  simp [setBc, setCell, h]

theorem setFid_apply_ne (buf : Nat → Cell) (i v j : Nat) (h : j ≠ i) :
    setFid buf i v j = buf j := by
  simp [setFid, setCell, h]

theorem allocation_next_eq (buf : Nat → Cell) (a : Nat) :
    allocation_next buf a = a + 1 + getBc buf a := rfl

theorem contains_iff (buf : Nat → Cell) (fl : List Nat) (a : Nat) :
    allocation_array_contains buf fl a = true ↔
      getFid buf a ≠ 0 ∧ getFid buf a ≤ fl.length ∧ fl.getD (getFid buf a - 1) 0 = a := by
  simp [allocation_array_contains]

/-! ### Claim C5: the `take_blocks_from` contract -/

/-- **C5.**  For every freelist member `h` with
`available = h.block_count + HEADER_BLOCKS` and every `needed_blocks`
(a nonzero `size_t`, as at every call site):
`take_blocks_from(h, needed)` returns 0 (without touching anything) when
`available < needed`; removes `h` from the freelist and returns
`available` when `needed ≤ available < needed + MIN_ALLOC_BLOCKS`; and
otherwise shrinks `h` to `needed - HEADER_BLOCKS` payload blocks,
constructs at `h`'s new next (block `h + needed`) a free header of
`available - needed - HEADER_BLOCKS` payload blocks that inherits `h`'s
freelist slot and tag, and returns exactly `needed`. -/
theorem claim_C5 (buf : Nat → Cell) (fl : List Nat) (member needed : Nat)
    (hmem : allocation_array_contains buf fl member = true)
    (h1 : 1 ≤ needed) (h64 : needed < U64) :
    (getBc buf member + 1 < needed →
      allocation_array_try_to_take_blocks_from_member buf fl member needed
        = (0, buf, fl)) ∧
    (needed ≤ getBc buf member + 1 →
      getBc buf member + 1 < needed + MIN_BLOCKS_REQUIRED_FOR_ALLOCATION →
      (allocation_array_try_to_take_blocks_from_member buf fl member needed).1
          = getBc buf member + 1 ∧
      getFid (allocation_array_try_to_take_blocks_from_member buf fl member needed).2.1
          member = 0 ∧
      allocation_array_contains
          (allocation_array_try_to_take_blocks_from_member buf fl member needed).2.1
          (allocation_array_try_to_take_blocks_from_member buf fl member needed).2.2
          member = false ∧
      (allocation_array_try_to_take_blocks_from_member buf fl member needed).2.2.length
          = fl.length - 1) ∧
    (needed + MIN_BLOCKS_REQUIRED_FOR_ALLOCATION ≤ getBc buf member + 1 →
      (allocation_array_try_to_take_blocks_from_member buf fl member needed).1 = needed ∧
      getBc (allocation_array_try_to_take_blocks_from_member buf fl member needed).2.1
          member = needed - 1 ∧
      getBc (allocation_array_try_to_take_blocks_from_member buf fl member needed).2.1
          (member + needed) = getBc buf member + 1 - needed - 1 ∧
      getFid (allocation_array_try_to_take_blocks_from_member buf fl member needed).2.1
          (member + needed) = getFid buf member ∧
      (allocation_array_try_to_take_blocks_from_member buf fl member needed).2.2
          = fl.set (getFid buf member - 1) (member + needed)) := by
  have hbcm := getBc_lt buf member
  have hfidm := getFid_lt buf member
  refine ⟨?_, ?_, ?_⟩
  · intro hlt
    unfold allocation_array_try_to_take_blocks_from_member
    simp only [ALLOCATION_HEAD_BLOCK_COUNT]
    rw [if_pos hlt]
  · intro hge hlt
    unfold allocation_array_try_to_take_blocks_from_member
    simp only [ALLOCATION_HEAD_BLOCK_COUNT, MIN_BLOCKS_REQUIRED_FOR_ALLOCATION] at hlt ⊢
    rw [if_neg (by omega), if_pos hlt]
    have hcon := (contains_iff buf fl member).mp hmem
    refine ⟨rfl, ?_, ?_, ?_⟩
    · simp [allocation_array_remove]
    · simp [allocation_array_contains, allocation_array_remove]
    · simp only [allocation_array_remove, List.length_dropLast, List.length_set]
  · intro hge
    unfold allocation_array_try_to_take_blocks_from_member
    simp only [ALLOCATION_HEAD_BLOCK_COUNT, MIN_BLOCKS_REQUIRED_FOR_ALLOCATION] at hge ⊢
    rw [if_neg (by omega), if_neg (by omega)]
    have hneed32 : needed < U32 := by omega
    have hshrunk : (needed + U64 - 1) % U64 % U32 = needed - 1 := by
      have h3 : (needed + U64 - 1) % U64 = needed - 1 := by
        simp only [U64] at h64 ⊢; omega
      rw [h3]
      simp only [U32] at hneed32 ⊢; omega
    have hnn : allocation_next (setBc buf member ((needed + U64 - 1) % U64)) member
        = member + needed := by
      rw [allocation_next_eq, getBc_setBc_self, hshrunk]; omega
    rw [hnn]
    have hne : member + needed ≠ member := by omega
    refine ⟨rfl, ?_, ?_, ?_, rfl⟩
    · rw [getBc_setFid, getBc_setBc_ne _ _ _ _ (by omega), getBc_setBc_self, hshrunk]
    · rw [getBc_setFid, getBc_setBc_self]
      simp only [U32] at hbcm ⊢; omega
    · rw [getFid_setFid_self]
      exact Nat.mod_eq_of_lt hfidm

/-- Witness for C5 at a concrete region state: block 0 is a free header of
5 payload blocks, the freelist is `[0]`, and 2 blocks are requested
(the split case applies: `available = 6 ≥ 2 + 2`). -/
theorem claim_C5_witness :
    (allocation_array_contains
        (fun j => if j = 0 then ⟨5, 1⟩ else Cell.zero) [0] 0 = true ∧
      1 ≤ 2 ∧ 2 < U64) ∧
    ((allocation_array_try_to_take_blocks_from_member
        (fun j => if j = 0 then ⟨5, 1⟩ else Cell.zero) [0] 0 2).1 = 2 ∧
      getBc (allocation_array_try_to_take_blocks_from_member
        (fun j => if j = 0 then ⟨5, 1⟩ else Cell.zero) [0] 0 2).2.1 0 = 1 ∧
      getBc (allocation_array_try_to_take_blocks_from_member
        (fun j => if j = 0 then ⟨5, 1⟩ else Cell.zero) [0] 0 2).2.1 2 = 3 ∧
      getFid (allocation_array_try_to_take_blocks_from_member
        (fun j => if j = 0 then ⟨5, 1⟩ else Cell.zero) [0] 0 2).2.1 2 = 1 ∧
      (allocation_array_try_to_take_blocks_from_member
        (fun j => if j = 0 then ⟨5, 1⟩ else Cell.zero) [0] 0 2).2.2 = [2]) :=
  ⟨⟨by decide, by decide, by decide⟩, by
    have h := (claim_C5 (fun j => if j = 0 then ⟨5, 1⟩ else Cell.zero) [0] 0 2
      (by decide) (by decide) (by decide)).2.2 (by decide)
    simpa using h⟩

/-! ### Claim C3: freelist bijectivity -/

theorem flinv_distinct {buf : Nat → Cell} {fl : List Nat} (hinv : FLInv buf fl)
    {i j : Nat} (hi : i < fl.length) (hj : j < fl.length)
    (heq : fl.getD i 0 = fl.getD j 0) : i = j := by
  have h1 := hinv i hi
  have h2 := hinv j hj
  rw [heq] at h1
  omega

theorem mem_iff_getD {fl : List Nat} {a : Nat} :
    a ∈ fl ↔ ∃ i, i < fl.length ∧ fl.getD i 0 = a := by
  rw [List.mem_iff_get]
  constructor
  · rintro ⟨⟨i, hi⟩, rfl⟩
    exact ⟨i, hi, (List.getD_eq_get fl 0 hi).symm ▸ rfl⟩
  · rintro ⟨i, hi, heq⟩
    exact ⟨⟨i, hi⟩, by rw [← List.getD_eq_get fl 0 hi]; exact heq⟩

theorem flinv_not_mem_of_fid_zero {buf : Nat → Cell} {fl : List Nat}
    (hinv : FLInv buf fl) {a : Nat} (ha : getFid buf a = 0) : a ∉ fl := by
  intro hmem
  obtain ⟨i, hi, heq⟩ := mem_iff_getD.mp hmem
  have := hinv i hi
  rw [heq, ha] at this
  omega

theorem flinv_contains_iff_mem {buf : Nat → Cell} {fl : List Nat}
    (hinv : FLInv buf fl) {a : Nat} :
    allocation_array_contains buf fl a = true ↔ a ∈ fl := by
  rw [contains_iff]
  constructor
  · rintro ⟨h0, hle, heq⟩
    exact mem_iff_getD.mpr ⟨getFid buf a - 1, by omega, heq⟩
  · intro hmem
    obtain ⟨i, hi, heq⟩ := mem_iff_getD.mp hmem
    have hf := hinv i hi
    rw [heq] at hf
    exact ⟨by omega, by omega, by rw [hf]; simpa using heq⟩

theorem flinv_append {buf : Nat → Cell} {fl : List Nat} {a : Nat}
    (hinv : FLInv buf fl) (ha : getFid buf a = 0) (hlen : fl.length + 1 < U32) :
    FLInv (allocation_array_append buf fl a).1 (allocation_array_append buf fl a).2 := by
  intro i hi
  simp only [allocation_array_append, List.length_append, List.length_cons,
    List.length_nil] at hi ⊢
  rcases Nat.lt_or_ge i fl.length with hlt | hge
  · have hne : fl.getD i 0 ≠ a := by
      intro h
      exact flinv_not_mem_of_fid_zero hinv ha (mem_iff_getD.mpr ⟨i, hlt, h⟩)
    rw [List.getD_append _ _ _ _ hlt, getFid_setFid_ne _ _ _ _ hne]
    exact hinv i hlt
  · have hieq : i = fl.length := by omega
    subst hieq
    have hgd : (fl ++ [a]).getD fl.length 0 = a := by
      rw [List.getD_eq_get _ _ (by simp)]
      simp
    rw [hgd, getFid_setFid_self, Nat.mod_eq_of_lt (by omega)]

theorem getD_set_self {α : Type} {l : List α} {i : Nat} (v d : α) (h : i < l.length) :
    (l.set i v).getD i d = v := by
  rw [List.getD_eq_getElem _ _ (by simpa using h)]
  simp [List.getElem_set, h]

theorem getD_set_ne2 {α : Type} {l : List α} {i j : Nat} (v d : α) (h : j < l.length)
    (hne : j ≠ i) : (l.set i v).getD j d = l.getD j d := by
  rw [List.getD_eq_getElem _ _ (by simpa using h), List.getD_eq_getElem _ _ h]
  simp [List.getElem_set, Ne.symm hne]

theorem getD_dropLast {α : Type} {l : List α} {i : Nat} (d : α) (h : i < l.length - 1) :
    l.dropLast.getD i d = l.getD i d := by
  rw [List.getD_eq_getElem _ _ (by simpa using h), List.getD_eq_getElem _ _ (by omega)]
  apply List.getElem_dropLast

theorem flinv_remove {buf : Nat → Cell} {fl : List Nat} {a : Nat}
    (hinv : FLInv buf fl) (hcon : allocation_array_contains buf fl a = true) :
    FLInv (allocation_array_remove buf fl a).1 (allocation_array_remove buf fl a).2 := by
  obtain ⟨h0, hle, hslot⟩ := (contains_iff buf fl a).mp hcon
  intro i hi
  simp only [allocation_array_remove, List.length_dropLast, List.length_set] at hi ⊢
  rw [getD_dropLast _ (by simp only [List.length_set]; omega)]
  rcases eq_or_ne i (getFid buf a - 1) with hieq | hine
  · subst hieq
    rw [getD_set_self _ _ (by omega)]
    have hlne : fl.getD (fl.length - 1) 0 ≠ a := by
      intro h
      have := flinv_distinct hinv (by omega) (by omega) (h.trans hslot.symm)
      omega
    rw [getFid_setFid_ne _ _ _ _ hlne, getFid_setFid_self,
      Nat.mod_eq_of_lt (by have := getFid_lt buf a; omega)]
    omega
  · rw [getD_set_ne2 _ _ (by omega) hine]
    have hmem : fl.getD i 0 ≠ a := by
      intro h
      exact hine (flinv_distinct hinv (by omega) (by omega) (h.trans hslot.symm))
    have hlne : fl.getD i 0 ≠ fl.getD (fl.length - 1) 0 := by
      intro h
      have := flinv_distinct hinv (by omega) (by omega) h
      omega
    rw [getFid_setFid_ne _ _ _ _ hmem, getFid_setFid_ne _ _ _ _ hlne]
    exact hinv i (by omega)

/-- `FLInv` only reads tags, so block-count writes do not disturb it. -/
theorem flinv_setBc {buf : Nat → Cell} {fl : List Nat} (hinv : FLInv buf fl)
    (i v : Nat) : FLInv (setBc buf i v) fl := by
  intro j hj
  rw [getFid_setBc]
  exact hinv j hj

theorem flinv_take {buf : Nat → Cell} {fl : List Nat} {member needed : Nat}
    (hinv : FLInv buf fl) (hcon : allocation_array_contains buf fl member = true)
    (h1 : 1 ≤ needed) (h64 : needed < U64) (hnn : member + needed ∉ fl) :
    FLInv (allocation_array_try_to_take_blocks_from_member buf fl member needed).2.1
      (allocation_array_try_to_take_blocks_from_member buf fl member needed).2.2 := by
  obtain ⟨h0, hle, hslot⟩ := (contains_iff buf fl member).mp hcon
  have hbcm := getBc_lt buf member
  have hfidm := getFid_lt buf member
  unfold allocation_array_try_to_take_blocks_from_member
  simp only [ALLOCATION_HEAD_BLOCK_COUNT, MIN_BLOCKS_REQUIRED_FOR_ALLOCATION]
  split
  · exact hinv
  · split
    · exact flinv_remove hinv hcon
    · rename_i hge1 hge2
      have hneed32 : needed < U32 := by simp only [U32] at *; omega
      have hshrunk : (needed + U64 - 1) % U64 % U32 = needed - 1 := by
        have h3 : (needed + U64 - 1) % U64 = needed - 1 := by
          simp only [U64] at h64 ⊢; omega
        rw [h3]
        simp only [U32] at hneed32 ⊢; omega
      have hnne : allocation_next (setBc buf member ((needed + U64 - 1) % U64)) member
          = member + needed := by
        rw [allocation_next_eq, getBc_setBc_self, hshrunk]; omega
      rw [hnne]
      intro i hi
      simp only [List.length_set] at hi
      rcases eq_or_ne i (getFid buf member - 1) with hieq | hine
      · subst hieq
        rw [getD_set_self _ _ (by omega), getFid_setFid_self,
          Nat.mod_eq_of_lt (by omega)]
        have := hinv (getFid buf member - 1) (by omega)
        rw [hslot] at this
        omega
      · rw [getD_set_ne2 _ _ hi hine]
        have hmemne : fl.getD i 0 ≠ member + needed := by
          intro h
          exact hnn (mem_iff_getD.mpr ⟨i, hi, h⟩)
        rw [getFid_setFid_ne _ _ _ _ hmemne, getFid_setBc, getFid_setBc]
        exact hinv i hi

theorem flinv_after_scan {buf : Nat → Cell} {fl : List Nat} {a : Nat}
    (hinv : FLInv buf fl) (hlen : fl.length + 1 < U32) :
    FLInv (aaj_after_scan buf fl a).1 (aaj_after_scan buf fl a).2 := by
  unfold aaj_after_scan
  split
  · exact flinv_append hinv (by assumption) hlen
  · exact hinv

theorem flinv_scan {buf : Nat → Cell} {fl : List Nat} {a : Nat} (i fuel : Nat)
    (hinv : FLInv buf fl) (hlen : fl.length + 1 < U32)
    (hc : getFid buf a ≠ 0 → allocation_array_contains buf fl a = true) :
    FLInv (aaj_scan buf fl a i fuel).1 (aaj_scan buf fl a i fuel).2 := by
  induction fuel generalizing i with
  | zero => exact flinv_after_scan hinv hlen
  | succ fuel ih =>
    unfold aaj_scan
    split
    · dsimp only
      split
      · rename_i hlt hnext
        split
        · rename_i hfid
          rw [getFid_setBc] at hfid
          refine flinv_remove (flinv_setBc hinv _ _) ?_
          have hcon := hc hfid
          rw [contains_iff] at hcon ⊢
          rw [getFid_setBc]
          exact hcon
        · exact flinv_setBc hinv _ _
      · exact ih i.succ
    · exact flinv_after_scan hinv hlen

theorem flinv_join {buf : Nat → Cell} {fl : List Nat} {a : Nat}
    (hinv : FLInv buf fl) (ha : getFid buf a = 0) (hlen : fl.length + 1 < U32) :
    FLInv (allocation_array_join_allocation buf fl a).1
      (allocation_array_join_allocation buf fl a).2 := by
  unfold allocation_array_join_allocation
  dsimp only
  split
  · rename_i hcon
    obtain ⟨h0, hle, hslot⟩ := (contains_iff buf fl _).mp hcon
    have hfidn := getFid_lt buf (allocation_next buf a)
    have hanotin : a ∉ fl := flinv_not_mem_of_fid_zero hinv ha
    have hinv1 : FLInv
        (setBc (setFid buf a (getFid buf (allocation_next buf a))) a
          (getBc (setFid buf a (getFid buf (allocation_next buf a))) a +
            getBc (setFid buf a (getFid buf (allocation_next buf a)))
              (allocation_next buf a) + 1))
        (fl.set (getFid buf (allocation_next buf a) - 1) a) := by
      intro i hi
      simp only [List.length_set] at hi
      rcases eq_or_ne i (getFid buf (allocation_next buf a) - 1) with hieq | hine
      · subst hieq
        rw [getD_set_self _ _ (by omega), getFid_setBc, getFid_setFid_self,
          Nat.mod_eq_of_lt (by omega)]
        omega
      · rw [getD_set_ne2 _ _ hi hine]
        have hne : fl.getD i 0 ≠ a := by
          intro h
          exact hanotin (mem_iff_getD.mpr ⟨i, hi, h⟩)
        rw [getFid_setBc, getFid_setFid_ne _ _ _ _ hne]
        exact hinv i hi
    refine flinv_scan 0 _ hinv1 (by simpa using hlen) (fun _ => ?_)
    rw [contains_iff]
    refine ⟨?_, ?_, ?_⟩
    · rw [getFid_setBc, getFid_setFid_self, Nat.mod_eq_of_lt (by omega)]
      omega
    · rw [getFid_setBc, getFid_setFid_self, Nat.mod_eq_of_lt (by omega)]
      simpa using hle
    · rw [getFid_setBc, getFid_setFid_self, Nat.mod_eq_of_lt (by omega)]
      exact getD_set_self _ _ (by omega)
  · exact flinv_scan 0 _ hinv hlen (fun h => absurd ha h)

/-- **C3.**  In every reachable state of a freelist array (regions and
the tracked-system ledger share the data structure and these operations):
`contains(h)` holds iff `h.freelist_tag ≠ 0` and the entry at index
`h.freelist_tag - 1` is `h`; and the bijectivity invariant `FLInv` —
the entry stored at index `i` carries tag `i + 1` — is preserved by
`append` (of a node with tag 0), `remove` (of a contained node),
`take_blocks_from` (of a contained node whose carved successor
`member + needed` is not itself an entry, as in any walkable region) and
`join` (of a node with tag 0).  The tag-width side conditions
(`fl.length + 1 < 2^32`, `1 ≤ needed < 2^64`) hold in every state the
allocator can reach. -/
theorem claim_C3 :
    (∀ (buf : Nat → Cell) (fl : List Nat) (h : Nat),
      allocation_array_contains buf fl h = true ↔
        getFid buf h ≠ 0 ∧ fl[getFid buf h - 1]? = some h) ∧
    (∀ (buf : Nat → Cell) (fl : List Nat) (a : Nat),
      FLInv buf fl → getFid buf a = 0 → fl.length + 1 < U32 →
      FLInv (allocation_array_append buf fl a).1 (allocation_array_append buf fl a).2) ∧
    (∀ (buf : Nat → Cell) (fl : List Nat) (a : Nat),
      FLInv buf fl → allocation_array_contains buf fl a = true →
      FLInv (allocation_array_remove buf fl a).1 (allocation_array_remove buf fl a).2) ∧
    (∀ (buf : Nat → Cell) (fl : List Nat) (member needed : Nat),
      FLInv buf fl → allocation_array_contains buf fl member = true →
      1 ≤ needed → needed < U64 → member + needed ∉ fl →
      FLInv (allocation_array_try_to_take_blocks_from_member buf fl member needed).2.1
        (allocation_array_try_to_take_blocks_from_member buf fl member needed).2.2) ∧
    (∀ (buf : Nat → Cell) (fl : List Nat) (a : Nat),
      FLInv buf fl → getFid buf a = 0 → fl.length + 1 < U32 →
      FLInv (allocation_array_join_allocation buf fl a).1
        (allocation_array_join_allocation buf fl a).2) := by
  refine ⟨?_, fun _ _ _ => flinv_append, fun _ _ _ => flinv_remove,
    fun _ _ _ _ => flinv_take, fun _ _ _ => flinv_join⟩
  intro buf fl h
  rw [contains_iff]
  constructor
  · rintro ⟨h0, hle, heq⟩
    refine ⟨h0, ?_⟩
    rw [List.getElem?_eq_getElem (by omega)]
    rw [List.getD_eq_getElem _ _ (by omega)] at heq
    exact congrArg some heq
  · rintro ⟨h0, hsome⟩
    obtain ⟨hlt, heq⟩ := List.getElem?_eq_some.mp hsome
    exact ⟨h0, by omega, by rw [List.getD_eq_getElem _ _ hlt]; exact heq⟩

/-- Witness for C3 at a concrete state: tags/slots of a two-entry freelist
(`[0, 4]`, headers of 2 payload blocks each) satisfy the invariant, and a
`join` of the header at block 8 (tag 0, right neighbour and left neighbour
both absent) appends it with tag 3. -/
theorem claim_C3_witness :
    (allocation_array_contains (fun j => if j = 0 then (⟨2, 1⟩ : Cell) else if j = 4 then ⟨2, 2⟩ else Cell.zero) [0, 4] 0 = true ↔
      getFid (fun j => if j = 0 then (⟨2, 1⟩ : Cell) else if j = 4 then ⟨2, 2⟩ else Cell.zero) 0 ≠ 0 ∧ [0, 4][getFid (fun j => if j = 0 then (⟨2, 1⟩ : Cell) else if j = 4 then ⟨2, 2⟩ else Cell.zero) 0 - 1]? = some 0) ∧
    (FLInv (fun j => if j = 0 then (⟨2, 1⟩ : Cell) else if j = 4 then ⟨2, 2⟩ else Cell.zero) [0, 4] ∧ getFid (fun j => if j = 0 then (⟨2, 1⟩ : Cell) else if j = 4 then ⟨2, 2⟩ else Cell.zero) 8 = 0 ∧ ([0, 4] : List Nat).length + 1 < U32) ∧
    FLInv (allocation_array_join_allocation (fun j => if j = 0 then (⟨2, 1⟩ : Cell) else if j = 4 then ⟨2, 2⟩ else Cell.zero) [0, 4] 8).1
      (allocation_array_join_allocation (fun j => if j = 0 then (⟨2, 1⟩ : Cell) else if j = 4 then ⟨2, 2⟩ else Cell.zero) [0, 4] 8).2 :=
  ⟨claim_C3.1 (fun j => if j = 0 then (⟨2, 1⟩ : Cell) else if j = 4 then ⟨2, 2⟩ else Cell.zero) [0, 4] 0,
    ⟨by decide, by decide, by decide⟩,
    claim_C3.2.2.2.2 (fun j => if j = 0 then (⟨2, 1⟩ : Cell) else if j = 4 then ⟨2, 2⟩ else Cell.zero) [0, 4] 8 (by decide) (by decide) (by decide)⟩

/-! ### Allocation from the head: shared lemmas for C1, C2, C7 -/

theorem take_fail {buf : Nat → Cell} {fl : List Nat} {member required : Nat}
    (h : getBc buf member + ALLOCATION_HEAD_BLOCK_COUNT < required) :
    allocation_array_try_to_take_blocks_from_member buf fl member required
      = (0, buf, fl) := by
  unfold allocation_array_try_to_take_blocks_from_member
  rw [if_pos h]

theorem ap_loop_none {required : Nat} :
    ∀ (fuel i : Nat) (buf : Nat → Cell) (fl : List Nat),
    (∀ j, j < fl.length →
      getBc buf (fl.getD j 0) + ALLOCATION_HEAD_BLOCK_COUNT < required) →
    ap_alloc_from_freelist buf fl required i fuel = none := by
  intro fuel
  induction fuel with
  | zero => intro i buf fl _; rfl
  | succ fuel ih =>
    intro i buf fl hall
    unfold ap_alloc_from_freelist
    split
    · rename_i hlt
      have hfail : allocation_array_try_to_take_blocks_from_member buf fl
          (fl.get ⟨i, hlt⟩) required = (0, buf, fl) := by
        refine take_fail ?_
        have := hall i hlt
        rwa [List.getD_eq_getElem _ _ hlt] at this
      dsimp only
      rw [hfail]
      exact ih (i + 1) buf fl hall
    · rfl

/-- When no freelist entry can serve and the head has strictly more than
`required` blocks of room before `end` — or the freelist is nonempty and
`head + required ≤ end` — `make` bumps the head. -/
theorem make_head_spec (page : ArenaPage) (size : Nat)
    (hserve : ∀ j, j < page.freelist.length →
      getBc page.buf (page.freelist.getD j 0) + ALLOCATION_HEAD_BLOCK_COUNT
        < blocks_required_for_size size + ALLOCATION_HEAD_BLOCK_COUNT)
    (hfit : page.headIdx + (blocks_required_for_size size + 1) ≤ page.endIdx)
    (hemp : page.freelist = [] →
      page.headIdx + (blocks_required_for_size size + 1) < page.endIdx) :
    arena_page_make_allocation page size = some (page.headIdx,
      { buf := setFid
          (setBc page.buf page.headIdx (blocks_required_for_size size + 1 - 1))
          page.headIdx 0
        headIdx := page.headIdx + (blocks_required_for_size size + 1)
        endIdx := page.endIdx
        freelist := page.freelist }) := by
  have hneg : ¬((page.endIdx : Int) - (page.headIdx : Int)
      ≤ ((blocks_required_for_size size + ALLOCATION_HEAD_BLOCK_COUNT : Nat) : Int)
      ∧ page.freelist.length = 0) := by
    rintro ⟨hle, hlen⟩
    have hfl : page.freelist = [] := List.length_eq_zero.mp hlen
    have := hemp hfl
    simp only [ALLOCATION_HEAD_BLOCK_COUNT] at hle
    omega
  unfold arena_page_make_allocation
  dsimp only
  rw [if_neg hneg, ap_loop_none page.freelist.length 0 _ _ hserve]
  unfold arena_page_try_advancing_head
  rw [if_neg (by simp only [ALLOCATION_HEAD_BLOCK_COUNT]; omega)]

/-- With an empty freelist, `make` fails as soon as
`end ≤ head + required`: the "page full" early return fires (also in the
exact-fit case `end - head = required`). -/
theorem make_fail_full (page : ArenaPage) (size : Nat)
    (hfl : page.freelist = [])
    (h : page.endIdx ≤ page.headIdx + (blocks_required_for_size size + 1)) :
    arena_page_make_allocation page size = none := by
  unfold arena_page_make_allocation
  dsimp only
  rw [if_pos]
  refine ⟨by simp only [ALLOCATION_HEAD_BLOCK_COUNT]; omega, by rw [hfl]; rfl⟩

/-- Iterated head allocation on a region with an empty freelist: `k`
rounds succeed when `head + k·required` stays strictly below `end`. -/
theorem make_n_spec (size : Nat) : ∀ (k : Nat) (page : ArenaPage),
    page.freelist = [] →
    (k = 0 ∨ page.headIdx + k * (blocks_required_for_size size + 1) < page.endIdx) →
    ∃ page2, arena_page_make_n page size k = some page2 ∧
      page2.headIdx = page.headIdx + k * (blocks_required_for_size size + 1) ∧
      page2.freelist = [] ∧ page2.endIdx = page.endIdx := by
  intro k
  induction k with
  | zero =>
    intro page hfl _
    exact ⟨page, rfl, by omega, hfl, rfl⟩
  | succ k ih =>
    intro page hfl hor
    have hmul : (k + 1) * (blocks_required_for_size size + 1)
        = k * (blocks_required_for_size size + 1)
          + (blocks_required_for_size size + 1) := Nat.succ_mul _ _
    have hlt : page.headIdx + (k + 1) * (blocks_required_for_size size + 1)
        < page.endIdx := by
      rcases hor with h | h
      · exact absurd h (Nat.succ_ne_zero k)
      · exact h
    rw [hmul] at hlt
    have hstep := make_head_spec page size
      (by rw [hfl]; intro j hj; simp at hj)
      (by omega) (fun _ => by omega)
    have hunfold : arena_page_make_n page size (k + 1) = arena_page_make_n
        { buf := setFid
            (setBc page.buf page.headIdx (blocks_required_for_size size + 1 - 1))
            page.headIdx 0
          headIdx := page.headIdx + (blocks_required_for_size size + 1)
          endIdx := page.endIdx
          freelist := page.freelist } size k := by
      show (match arena_page_make_allocation page size with
        | none => none
        | some (_, page2) => arena_page_make_n page2 size k) = _
      rw [hstep]
    obtain ⟨page2, hmk, hh, hf2, he⟩ := ih
      { buf := setFid
          (setBc page.buf page.headIdx (blocks_required_for_size size + 1 - 1))
          page.headIdx 0
        headIdx := page.headIdx + (blocks_required_for_size size + 1)
        endIdx := page.endIdx
        freelist := page.freelist }
      hfl (Or.inr (by dsimp only; omega))
    refine ⟨page2, by rw [hunfold]; exact hmk, by rw [hh]; dsimp only; omega, hf2,
      by rw [he]⟩

theorem make_n_cons (page : ArenaPage) (size k : Nat) :
    arena_page_make_n page size (k + 1)
      = (arena_page_make_allocation page size).bind
          (fun r => arena_page_make_n r.2 size k) := by
  show (match arena_page_make_allocation page size with
    | none => none
    | some (_, page2) => arena_page_make_n page2 size k) = _
  cases arena_page_make_allocation page size with
  | none => rfl
  | some r => cases r; rfl

theorem make_n_succ_last (size k : Nat) : ∀ page,
    arena_page_make_n page size (k + 1)
      = (arena_page_make_n page size k).bind
          (fun p2 => (arena_page_make_allocation p2 size).map (fun r => r.2)) := by
  induction k with
  | zero =>
    intro page
    rw [make_n_cons]
    cases h : arena_page_make_allocation page size <;>
      simp [h, arena_page_make_n]
  | succ k ih =>
    intro page
    rw [make_n_cons]
    cases h : arena_page_make_allocation page size with
    | none =>
      rw [make_n_cons, h]
      rfl
    | some r =>
      show arena_page_make_n r.2 size (k + 1) = _
      rw [ih r.2, make_n_cons, h]
      rfl

/-! ### Claim C2: allocating from the region head -/

/-- **C2 (amended).**  For every region and every `size > 0`, with
`needed = blocks_for(size) + HEADER_BLOCKS`: if no freelist entry can
serve the request (every entry offers fewer than `needed` blocks),
`head + needed ≤ end`, and — whenever the freelist is empty —
`head + needed < end` **strictly**, then `make(size)` places a header at
`head` (tag 0, `needed - HEADER_BLOCKS` payload blocks), advances `head`
by exactly `needed` blocks, and returns it.  (The original claim also
asserted success in the exact-fit case `end - head = needed` with an
empty freelist; the code's "page full" early return
`end - head <= required` fires there, see `claim_C2_counterexample`.
Exact fit does succeed when the freelist is nonempty.) -/
theorem claim_C2 (page : ArenaPage) (size : Nat) (h0 : 0 < size)
    (hserve : ∀ j, j < page.freelist.length →
      getBc page.buf (page.freelist.getD j 0) + ALLOCATION_HEAD_BLOCK_COUNT
        < blocks_required_for_size size + ALLOCATION_HEAD_BLOCK_COUNT)
    (hfit : page.headIdx + (blocks_required_for_size size + ALLOCATION_HEAD_BLOCK_COUNT)
      ≤ page.endIdx)
    (hemp : page.freelist = [] →
      page.headIdx + (blocks_required_for_size size + ALLOCATION_HEAD_BLOCK_COUNT)
        < page.endIdx) :
    ∃ page2, arena_page_make_allocation page size = some (page.headIdx, page2) ∧
      page2.headIdx
        = page.headIdx + (blocks_required_for_size size + ALLOCATION_HEAD_BLOCK_COUNT) ∧
      getFid page2.buf page.headIdx = 0 ∧
      getBc page2.buf page.headIdx
        = (blocks_required_for_size size + ALLOCATION_HEAD_BLOCK_COUNT - 1) % U32 ∧
      page2.endIdx = page.endIdx ∧
      page2.freelist = page.freelist := by
  refine ⟨_, make_head_spec page size hserve hfit hemp, rfl, ?_, ?_, rfl, rfl⟩
  · rw [getFid_setFid_self]
    simp
  · rw [getBc_setFid, getBc_setBc_self]

/-- **C2, counterexample to the original claim.**  A fresh region over a
24-byte buffer (3 blocks, `end = 2`) with its (empty) freelist unable to
serve, and `head + needed = 0 + 2 ≤ 2 = end` (exact fit): the claim
asserts `make(8)` succeeds, but it returns NULL. -/
theorem claim_C2_counterexample :
    ∃ page : ArenaPage,
      arena_page_create_from_memory (fun _ => Cell.zero) 3 = some page ∧
      page.freelist = [] ∧
      page.headIdx + (blocks_required_for_size 8 + ALLOCATION_HEAD_BLOCK_COUNT)
        ≤ page.endIdx ∧
      arena_page_make_allocation page 8 = none :=
  ⟨_, rfl, rfl, by decide, rfl⟩

/-- Witness for C2 (amended) on a fresh region over a 32-byte buffer:
`head + needed = 2 < 3 = end`, so an 8-byte allocation is placed at
block 0 and the head advances to 2. -/
theorem claim_C2_witness :
    ∃ page2,
      arena_page_make_allocation
        ⟨setCell (fun _ => Cell.zero) 3 Cell.zero, 0, 3, []⟩ 8
        = some (0, page2) ∧
      page2.headIdx = 0 + (blocks_required_for_size 8 + ALLOCATION_HEAD_BLOCK_COUNT) ∧
      getFid page2.buf 0 = 0 ∧
      getBc page2.buf 0
        = (blocks_required_for_size 8 + ALLOCATION_HEAD_BLOCK_COUNT - 1) % U32 ∧
      page2.endIdx = 3 ∧
      page2.freelist = [] :=
  claim_C2 ⟨setCell (fun _ => Cell.zero) 3 Cell.zero, 0, 3, []⟩ 8
    (by decide) (by intro j hj; simp at hj) (by decide) (fun _ => by decide)

/-! ### Claim C7: fixed-region capacity -/

/-- **C7 (amended).**  For a fixed region built over a buffer of
capacity `C` bytes (`C / 8` blocks, one reserved as the `end` sentinel)
and request size `S > 0`, exactly
`K = (C / BLOCK - 2) / (HEADER_BLOCKS + ceil(S/BLOCK))`
successive allocations of size `S` succeed on the fresh region, and the
`(K+1)`-th fails locally.  (The original claim's
`K = C / (HEADER + ceil(S/BLOCK)·BLOCK)` over-counts: it ignores the
reserved sentinel block and the strict `end - head > needed` check;
see `claim_C7_counterexample`, where it predicts 4 but only 3 fit —
exactly what the repository's own test asserts.) -/
theorem claim_C7 (mem : Nat → Cell) (C S : Nat) (h0 : 0 < S)
    (hS : S + 7 < U64) (hC : 8 ≤ C) :
    ∃ page, arena_page_create_from_memory mem (C / 8) = some page ∧
      (arena_page_make_n page S
        ((C / 8 - 2) / (blocks_required_for_size S + 1))).isSome = true ∧
      arena_page_make_n page S
        ((C / 8 - 2) / (blocks_required_for_size S + 1) + 1) = none := by
  have hblk : 1 ≤ C / 8 := by omega
  have hbf : 1 ≤ blocks_required_for_size S := by
    unfold blocks_required_for_size
    simp only [U64] at hS ⊢
    omega
  have hcreate : arena_page_create_from_memory mem (C / 8)
      = some ⟨setCell mem (C / 8 - 1) Cell.zero, 0, C / 8 - 1, []⟩ := by
    unfold arena_page_create_from_memory
    rw [if_neg (by simp only [ALLOCATION_HEAD_BLOCK_COUNT]; omega)]
  have hn : 0 < blocks_required_for_size S + 1 := by omega
  have hKmul : (C / 8 - 2) / (blocks_required_for_size S + 1)
      * (blocks_required_for_size S + 1) ≤ C / 8 - 2 :=
    Nat.div_mul_le_self _ _
  have hKmul2 : C / 8 - 2 < (C / 8 - 2) / (blocks_required_for_size S + 1)
      * (blocks_required_for_size S + 1) + (blocks_required_for_size S + 1) :=
    Nat.lt_div_mul_add hn
  obtain ⟨pageK, hmk, hh, hf, he⟩ :=
    make_n_spec S ((C / 8 - 2) / (blocks_required_for_size S + 1))
      ⟨setCell mem (C / 8 - 1) Cell.zero, 0, C / 8 - 1, []⟩ rfl
      (by
        rcases Nat.eq_zero_or_pos ((C / 8 - 2) / (blocks_required_for_size S + 1))
          with hK0 | hKpos
        · exact Or.inl hK0
        · right
          dsimp only
          have h1 : 1 * (blocks_required_for_size S + 1)
              ≤ (C / 8 - 2) / (blocks_required_for_size S + 1)
                * (blocks_required_for_size S + 1) :=
            Nat.mul_le_mul_right _ hKpos
          omega)
  refine ⟨_, hcreate, ?_, ?_⟩
  · rw [hmk]; rfl
  · rw [make_n_succ_last, hmk]
    have hfull : arena_page_make_allocation pageK S = none := by
      refine make_fail_full pageK S hf ?_
      rw [he, hh]
      dsimp only
      omega
    show (arena_page_make_allocation pageK S).map (fun r => r.2) = none
    rw [hfull]
    rfl

/-- **C7, counterexample to the original claim.**  With `C = 450` and
`S = 100` the claimed `K = ⌊450 / (8 + ⌈100/8⌉·8)⌋ = ⌊450/112⌋ = 4`, but
the fourth allocation on the fresh region fails (the repository's own
test `STACK_ALLOCATOR(alloc, 450)` asserts exactly 3 successes). -/
theorem claim_C7_counterexample :
    450 / (8 + (100 + 7) / 8 * 8) = 4 ∧
    ∃ page : ArenaPage,
      arena_page_create_from_memory (fun _ => Cell.zero) (450 / 8) = some page ∧
      arena_page_make_n page 100 (450 / (8 + (100 + 7) / 8 * 8)) = none :=
  ⟨by decide, _, rfl, rfl⟩

/-! ### Claim C1: the growing arena never fails (corrected) -/

/-- **C1 (amended).**  For the growing-region strategy with
`blk = region_size / BLOCK` blocks per region: for every size with
`0 < size` and `blocks_for(size) + HEADER_BLOCKS + 1 < blk`, `allocate`
never returns NULL — when no existing region can satisfy the request it
appends a fresh region of `region_size` bytes and the allocation from
that fresh region succeeds at its first block.  (The original bound
"any `size ≤ region_size`" is wrong: the fresh region reserves one
sentinel block and `make`'s "page full" check is strict, so e.g.
`size = region_size` always fails, see `claim_C1_counterexample`.) -/
theorem claim_C1 (ar : Arena) (size : Nat) (h0 : 0 < size)
    (hS : size + 7 < U64)
    (hfit : blocks_required_for_size size + ALLOCATION_HEAD_BLOCK_COUNT + 1
      < ar.page_size / 8) :
    (arena_malloc ar size).1.isSome = true ∧
    ((∀ i, (h : i < ar.pages.size) →
        arena_page_make_allocation (ar.pages.get ⟨i, h⟩) size = none) →
      (arena_malloc ar size).1 = some (ar.pages.size, 0) ∧
      (arena_malloc ar size).2.pages.size = ar.pages.size + 1) := by
  have hsize : ¬ size > ar.page_size := by
    unfold blocks_required_for_size at hfit
    simp only [U64] at hS hfit
    omega
  have hcreate : arena_page_create_from_memory (fun _ => Cell.zero) (ar.page_size / 8)
      = some ⟨setCell (fun _ => Cell.zero) (ar.page_size / 8 - 1) Cell.zero, 0,
        ar.page_size / 8 - 1, []⟩ := by
    unfold arena_page_create_from_memory
    rw [if_neg (by simp only [ALLOCATION_HEAD_BLOCK_COUNT]; omega)]
  have hfresh := make_head_spec
    ⟨setCell (fun _ => Cell.zero) (ar.page_size / 8 - 1) Cell.zero, 0,
      ar.page_size / 8 - 1, []⟩ size
    (by intro j hj; simp at hj)
    (by simp only [ALLOCATION_HEAD_BLOCK_COUNT] at hfit ⊢; omega)
    (fun _ => by simp only [ALLOCATION_HEAD_BLOCK_COUNT] at hfit ⊢; omega)
  constructor
  · unfold arena_malloc
    rw [if_neg hsize]
    cases hloop : arena_malloc_pages ar size 0 ar.pages.size with
    | some r => cases r; rfl
    | none =>
      simp only [hcreate, hfresh]
      rfl
  · intro hall
    have hloop : ∀ fuel i, arena_malloc_pages ar size i fuel = none := by
      intro fuel
      induction fuel with
      | zero => intro i; rfl
      | succ fuel ih =>
        intro i
        unfold arena_malloc_pages
        split
        · rename_i hlt
          rw [hall i hlt]
          exact ih (i + 1)
        · rfl
    unfold arena_malloc
    rw [if_neg hsize, hloop]
    simp only [hcreate, hfresh]
    refine ⟨by simp, by simp⟩

/-- **C1, counterexample to the original claim.**  A growing arena with
`region_size = 64` and `size = 64` (`0 < size ≤ region_size`): no
existing region can satisfy (there are none), a fresh 64-byte region is
appended, but the allocation from it fails — `arena_malloc` returns
NULL. -/
theorem claim_C1_counterexample :
    (0 < 64 ∧ 64 ≤ 64) ∧
    (arena_malloc ⟨64, #[]⟩ 64).1 = none ∧
    (arena_malloc ⟨64, #[]⟩ 64).2.pages.size = 1 :=
  ⟨⟨by decide, by decide⟩, rfl, rfl⟩

/-- Witness for C1 (amended) on an empty growing arena with 64-byte
regions and an allocation of 8 bytes (`1 + 1 + 1 < 8`). -/
theorem claim_C1_witness :
    ((arena_malloc ⟨64, #[]⟩ 8).1.isSome = true ∧
      ((∀ i, (h : i < (#[] : Array ArenaPage).size) →
          arena_page_make_allocation ((#[] : Array ArenaPage).get ⟨i, h⟩) 8 = none) →
        (arena_malloc ⟨64, #[]⟩ 8).1 = some (0, 0) ∧
        (arena_malloc ⟨64, #[]⟩ 8).2.pages.size = 0 + 1)) :=
  claim_C1 ⟨64, #[]⟩ 8 (by decide) (by decide) (by decide)

/-- Witness for C7 (amended) over the 450-byte buffer of the repository's
own test: `K = (56 - 2) / 14 = 3` allocations of 100 bytes succeed and
the fourth fails. -/
theorem claim_C7_witness :
    (0 < 100 ∧ 100 + 7 < U64 ∧ 8 ≤ 450) ∧
    ∃ page, arena_page_create_from_memory (fun _ => Cell.zero) (450 / 8) = some page ∧
      (arena_page_make_n page 100
        ((450 / 8 - 2) / (blocks_required_for_size 100 + 1))).isSome = true ∧
      arena_page_make_n page 100
        ((450 / 8 - 2) / (blocks_required_for_size 100 + 1) + 1) = none :=
  ⟨⟨by decide, by decide, by decide⟩,
    claim_C7 (fun _ => Cell.zero) 450 100 (by decide) (by decide) (by decide)⟩

/-! ### Claim C4: adjacent free headers never coexist -/

theorem getBc_remove (B : Nat → Cell) (L : List Nat) (a x : Nat) :
    getBc (allocation_array_remove B L a).1 x = getBc B x := by
  unfold allocation_array_remove
  dsimp only
  rw [getBc_setFid, getBc_setFid]

theorem next_remove (B : Nat → Cell) (L : List Nat) (a x : Nat) :
    allocation_next (allocation_array_remove B L a).1 x = allocation_next B x := by
  unfold allocation_next
  rw [getBc_remove]

theorem remove_mem_iff {B : Nat → Cell} {L : List Nat} {a : Nat}
    (hinv : FLInv B L) (hcon : allocation_array_contains B L a = true) {x : Nat} :
    x ∈ (allocation_array_remove B L a).2 ↔ (x ∈ L ∧ x ≠ a) := by
  obtain ⟨h0, hle, hslot⟩ := (contains_iff B L a).mp hcon
  have hlen1 : 1 ≤ L.length := by omega
  unfold allocation_array_remove
  dsimp only
  constructor
  · intro hx
    obtain ⟨j, hj, hgd⟩ := mem_iff_getD.mp hx
    simp only [List.length_dropLast, List.length_set] at hj
    rw [getD_dropLast _ (by simp only [List.length_set]; omega)] at hgd
    rcases eq_or_ne j (getFid B a - 1) with hje | hje
    · subst hje
      rw [getD_set_self _ _ (by omega)] at hgd
      have hmem : x ∈ L := mem_iff_getD.mpr ⟨L.length - 1, by omega, hgd⟩
      refine ⟨hmem, ?_⟩
      intro hxa
      have h2 : L.getD (L.length - 1) 0 = L.getD (getFid B a - 1) 0 := by
        rw [hgd, hxa, hslot]
      have h3 := flinv_distinct hinv (by omega) (by omega) h2
      omega
    · rw [getD_set_ne2 _ _ (by omega) hje] at hgd
      refine ⟨mem_iff_getD.mpr ⟨j, by omega, hgd⟩, ?_⟩
      intro hxa
      refine hje (flinv_distinct hinv (by omega) (by omega) ?_)
      rw [hgd, hxa, hslot]
  · rintro ⟨hxL, hxa⟩
    obtain ⟨j, hj, hgd⟩ := mem_iff_getD.mp hxL
    have hje : j ≠ getFid B a - 1 := by
      intro h
      subst h
      exact hxa (hgd.symm.trans hslot)
    rcases Nat.lt_or_ge j (L.length - 1) with hjl | hjl
    · refine mem_iff_getD.mpr ⟨j, by simp only [List.length_dropLast, List.length_set]; omega, ?_⟩
      rw [getD_dropLast _ (by simp only [List.length_set]; omega),
        getD_set_ne2 _ _ (by omega) hje]
      exact hgd
    · have hjeq : j = L.length - 1 := by omega
      subst hjeq
      have hfa : getFid B a - 1 < L.length - 1 := by
        rcases Nat.lt_or_ge (getFid B a - 1) (L.length - 1) with h | h
        · exact h
        · exfalso
          have : getFid B a - 1 = L.length - 1 := by omega
          exact hje this.symm
      refine mem_iff_getD.mpr ⟨getFid B a - 1,
        by simp only [List.length_dropLast, List.length_set]; omega, ?_⟩
      rw [getD_dropLast _ (by simp only [List.length_set]; omega),
        getD_set_self _ _ (by omega)]
      exact hgd

/-- The post-loop code of `join` preserves `NoAdjFree`, given that every
entry was checked not to be the left neighbour of `a`. -/
theorem noadj_after_scan {B : Nat → Cell} {L : List Nat} {a : Nat}
    (hinv : FLInv B L)
    (P2 : ∀ e ∈ L, e ≠ a → ∀ f ∈ L, f ≠ a → allocation_next B e ≠ f)
    (P3 : ∀ f ∈ L, allocation_next B a ≠ f)
    (P4 : getFid B a ≠ 0 → allocation_array_contains B L a = true)
    (hall : ∀ j, j < L.length → allocation_next B (L.getD j 0) ≠ a) :
    NoAdjFree (aaj_after_scan B L a).1 (aaj_after_scan B L a).2 := by
  have hallm : ∀ e ∈ L, allocation_next B e ≠ a := by
    intro e he
    obtain ⟨j, hj, hgd⟩ := mem_iff_getD.mp he
    have := hall j hj
    rwa [hgd] at this
  unfold aaj_after_scan
  split
  · rename_i hfid
    have hanotin : a ∉ L := flinv_not_mem_of_fid_zero hinv hfid
    intro e he f hf
    unfold allocation_array_append at he hf ⊢
    dsimp only at he hf ⊢
    rw [List.mem_append] at he hf
    have hnext : ∀ x, allocation_next (setFid B a (L ++ [a]).length) x
        = allocation_next B x := by
      intro x
      unfold allocation_next
      rw [getBc_setFid]
    rw [hnext]
    rcases he with heL | hea
    · rcases hf with hfL | hfa
      · exact P2 e heL (fun h => hanotin (h ▸ heL)) f hfL (fun h => hanotin (h ▸ hfL))
      · rw [List.mem_singleton] at hfa
        subst hfa
        exact hallm e heL
    · rw [List.mem_singleton] at hea
      subst hea
      rcases hf with hfL | hfa
      · exact P3 f hfL
      · rw [List.mem_singleton] at hfa
        subst hfa
        rw [allocation_next_eq]
        omega
  · rename_i hfid
    intro e he f hf
    rcases eq_or_ne e a with hea | hea
    · subst hea
      exact P3 f hf
    · rcases eq_or_ne f a with hfa | hfa
      · subst hfa
        exact hallm e he
      · exact P2 e he hea f hf hfa

/-- The merge-left scan of `join` preserves `NoAdjFree`. -/
theorem noadj_scan {B : Nat → Cell} {L : List Nat} {a : Nat} :
    ∀ (fuel i : Nat),
    FLInv B L →
    (∀ e ∈ L, e ≠ a → ∀ f ∈ L, f ≠ a → allocation_next B e ≠ f) →
    (∀ f ∈ L, allocation_next B a ≠ f) →
    (getFid B a ≠ 0 → allocation_array_contains B L a = true) →
    (∀ x, getBc B x < 2 ^ 31) →
    (∀ j, j < i → allocation_next B (L.getD j 0) ≠ a) →
    L.length ≤ i + fuel →
    NoAdjFree (aaj_scan B L a i fuel).1 (aaj_scan B L a i fuel).2 := by
  intro fuel
  induction fuel with
  | zero =>
    intro i hinv P2 P3 P4 P5 hchk hfuel
    exact noadj_after_scan hinv P2 P3 P4 (fun j hj => hchk j (by omega))
  | succ fuel ih =>
    intro i hinv P2 P3 P4 P5 hchk hfuel
    unfold aaj_scan
    split
    · rename_i hlt
      dsimp only
      split
      · rename_i hbefore
        -- found the left neighbour: `before := L.get ⟨i, hlt⟩`, grow it
        have hbmem : L.get ⟨i, hlt⟩ ∈ L := List.get_mem L i hlt
        have hsum : getBc B (L.get ⟨i, hlt⟩) + getBc B a + 1 < U32 := by
          have h1 := P5 (L.get ⟨i, hlt⟩)
          have h2 := P5 a
          simp only [U32] at *
          omega
        have hnext2 : ∀ x, allocation_next
            (setBc B (L.get ⟨i, hlt⟩) (getBc B (L.get ⟨i, hlt⟩) + getBc B a + 1)) x
            = if x = L.get ⟨i, hlt⟩ then allocation_next B a else allocation_next B x := by
          intro x
          rcases eq_or_ne x (L.get ⟨i, hlt⟩) with hx | hx
          · subst hx
            rw [if_pos rfl, allocation_next_eq, allocation_next_eq, getBc_setBc_self,
              Nat.mod_eq_of_lt hsum]
            rw [allocation_next_eq] at hbefore
            omega
          · rw [if_neg hx, allocation_next_eq, allocation_next_eq,
              getBc_setBc_ne _ _ _ _ hx]
        split
        · rename_i hfid
          -- `a` was linked by the right merge: remove its entry
          rw [getFid_setBc] at hfid
          have hcon := P4 hfid
          have hcon2 : allocation_array_contains
              (setBc B (L.get ⟨i, hlt⟩) (getBc B (L.get ⟨i, hlt⟩) + getBc B a + 1))
              L a = true := by
            rw [contains_iff] at hcon ⊢
            rwa [getFid_setBc]
          have hinv2 : FLInv
              (setBc B (L.get ⟨i, hlt⟩) (getBc B (L.get ⟨i, hlt⟩) + getBc B a + 1))
              L := flinv_setBc hinv _ _
          intro e he f hf
          rw [remove_mem_iff hinv2 hcon2] at he hf
          obtain ⟨heL, hea⟩ := he
          obtain ⟨hfL, hfa⟩ := hf
          rw [next_remove, hnext2]
          split
          · rename_i heb
            exact P3 f hfL
          · exact P2 e heL hea f hfL hfa
        · -- `a` was not linked: only the neighbour's block count grew
          rename_i hfid
          rw [getFid_setBc, Ne, not_not] at hfid
          have hanotin : a ∉ L := flinv_not_mem_of_fid_zero hinv hfid
          intro e he f hf
          rw [hnext2]
          split
          · rename_i heb
            exact P3 f hf
          · exact P2 e he (fun h => hanotin (h ▸ he)) f hf (fun h => hanotin (h ▸ hf))
      · rename_i hbefore
        refine ih (i + 1) hinv P2 P3 P4 P5 ?_ (by omega)
        intro j hj
        rcases Nat.lt_or_ge j i with hji | hji
        · exact hchk j hji
        · have hjeq : j = i := by omega
          subst hjeq
          rwa [List.getD_eq_getElem _ _ hlt]
    · rename_i hge
      exact noadj_after_scan hinv P2 P3 P4
        (fun j hj => hchk j (by omega))

/-- **C4.**  After any region `free`, no two back-to-back adjacent headers
are both members of the freelist: the head-retraction path touches
neither memory nor freelist, and `join` merges the freed header with an
already-free right neighbour (absorbing its slot) and with an
already-free left neighbour (growing the left entry and removing the
freed header's entry), so adjacent free headers never coexist.  The
hypotheses are the region invariants: freelist bijectivity, no adjacent
free entries before the call, tag 0 on the freed (live) header, and
block counts below 2^30 (no 32-bit truncation in the merges). -/
theorem claim_C4 (page : ArenaPage) (a : Nat)
    (hinv : FLInv page.buf page.freelist)
    (hadj : NoAdjFree page.buf page.freelist)
    (ha : getFid page.buf a = 0)
    (hbc : ∀ x, getBc page.buf x < 2 ^ 30) :
    NoAdjFree (arena_page_free_allocation page a).buf
      (arena_page_free_allocation page a).freelist := by
  unfold arena_page_free_allocation
  split
  · exact hadj
  · show NoAdjFree (allocation_array_join_allocation page.buf page.freelist a).1
      (allocation_array_join_allocation page.buf page.freelist a).2
    unfold allocation_array_join_allocation
    dsimp only
    have hana : allocation_next page.buf a ≠ a := by
      rw [allocation_next_eq]; omega
    split
    · rename_i hcon
      obtain ⟨h0, hle, hslot⟩ :=
        (contains_iff page.buf page.freelist _).mp hcon
      have hnamem : allocation_next page.buf a ∈ page.freelist :=
        (flinv_contains_iff_mem hinv).mp hcon
      have hanotin : a ∉ page.freelist := flinv_not_mem_of_fid_zero hinv ha
      have hsum : getBc page.buf a + getBc page.buf (allocation_next page.buf a) + 1
          < U32 := by
        have h1 := hbc a
        have h2 := hbc (allocation_next page.buf a)
        simp only [U32] at *
        omega
      -- the memory after the right merge
      have hbc3 : ∀ x, getBc
          (setBc (setFid page.buf a (getFid page.buf (allocation_next page.buf a))) a
            (getBc (setFid page.buf a (getFid page.buf (allocation_next page.buf a))) a +
              getBc (setFid page.buf a (getFid page.buf (allocation_next page.buf a)))
                (allocation_next page.buf a) + 1)) x
          = if x = a
            then getBc page.buf a + getBc page.buf (allocation_next page.buf a) + 1
            else getBc page.buf x := by
        intro x
        rcases eq_or_ne x a with hx | hx
        · subst hx
          rw [if_pos rfl, getBc_setBc_self, getBc_setFid, getBc_setFid,
            Nat.mod_eq_of_lt hsum]
        · rw [if_neg hx, getBc_setBc_ne _ _ _ _ hx, getBc_setFid]
      have hnext3 : ∀ x, allocation_next
          (setBc (setFid page.buf a (getFid page.buf (allocation_next page.buf a))) a
            (getBc (setFid page.buf a (getFid page.buf (allocation_next page.buf a))) a +
              getBc (setFid page.buf a (getFid page.buf (allocation_next page.buf a)))
                (allocation_next page.buf a) + 1)) x
          = if x = a
            then allocation_next page.buf (allocation_next page.buf a)
            else allocation_next page.buf x := by
        intro x
        rw [allocation_next_eq, hbc3]
        rcases eq_or_ne x a with hx | hx
        · subst hx
          rw [if_pos rfl, if_pos rfl, allocation_next_eq, allocation_next_eq]
          omega
        · rw [if_neg hx, if_neg hx, allocation_next_eq]
      -- membership in the patched list
      have hmem1 : ∀ x, x ∈ page.freelist.set
            (getFid page.buf (allocation_next page.buf a) - 1) a →
          x = a ∨ x ∈ page.freelist := by
        intro x hx
        rcases List.mem_or_eq_of_mem_set hx with h | h
        · exact Or.inr h
        · exact Or.inl h
      -- the freelist invariant after the right merge
      have hinv3 : FLInv
          (setBc (setFid page.buf a (getFid page.buf (allocation_next page.buf a))) a
            (getBc (setFid page.buf a (getFid page.buf (allocation_next page.buf a))) a +
              getBc (setFid page.buf a (getFid page.buf (allocation_next page.buf a)))
                (allocation_next page.buf a) + 1))
          (page.freelist.set (getFid page.buf (allocation_next page.buf a) - 1) a) := by
        intro j hj
        simp only [List.length_set] at hj
        rcases eq_or_ne j (getFid page.buf (allocation_next page.buf a) - 1) with hje | hje
        · subst hje
          rw [getD_set_self _ _ (by omega), getFid_setBc, getFid_setFid_self,
            Nat.mod_eq_of_lt (by have := getFid_lt page.buf (allocation_next page.buf a); omega)]
          omega
        · rw [getD_set_ne2 _ _ hj hje]
          have hne : page.freelist.getD j 0 ≠ a := by
            intro h
            exact hanotin (mem_iff_getD.mpr ⟨j, hj, h⟩)
          rw [getFid_setBc, getFid_setFid_ne _ _ _ _ hne]
          exact hinv j hj
      refine noadj_scan (page.freelist.length + 1) 0 hinv3 ?_ ?_ ?_ ?_
        (by intro j hj; omega) (by simp only [List.length_set]; omega)
      · intro e he hea f hf hfa
        rw [hnext3, if_neg hea]
        rcases hmem1 e he with h | heL
        · exact absurd h hea
        · rcases hmem1 f hf with h | hfL
          · exact absurd h hfa
          · exact hadj e heL f hfL
      · intro f hf
        rw [hnext3, if_pos rfl]
        rcases hmem1 f hf with h | hfL
        · rw [h, allocation_next_eq, allocation_next_eq]
          omega
        · exact hadj (allocation_next page.buf a) hnamem f hfL
      · intro hfid
        rw [contains_iff]
        rw [getFid_setBc, getFid_setFid_self,
          Nat.mod_eq_of_lt (by have := getFid_lt page.buf (allocation_next page.buf a); omega)]
        refine ⟨by omega, by simp only [List.length_set]; omega, ?_⟩
        exact getD_set_self _ _ (by omega)
      · intro x
        rw [hbc3]
        split
        · have h1 := hbc a
          have h2 := hbc (allocation_next page.buf a)
          simp only [Nat.pow_succ] at *
          omega
        · have := hbc x
          omega
    · rename_i hcon
      have hnanotin : allocation_next page.buf a ∉ page.freelist := by
        intro hmem
        exact absurd ((flinv_contains_iff_mem hinv).mpr hmem) (by simpa using hcon)
      have hanotin : a ∉ page.freelist := flinv_not_mem_of_fid_zero hinv ha
      refine noadj_scan (page.freelist.length + 1) 0 hinv ?_ ?_ ?_ ?_
        (by intro j hj; omega) (by omega)
      · intro e he hea f hf hfa
        exact hadj e he f hf
      · intro f hf
        intro h
        exact hnanotin (h ▸ hf)
      · intro hfid
        exact absurd ha hfid
      · intro x
        have := hbc x
        simp only [Nat.pow_succ] at *
        omega

/-- Witness for C4: freeing the live allocation at block 3, whose right
neighbour (block 6) and left neighbour (block 0) are both free, merges
all three; the freelist keeps no adjacent entries. -/
theorem claim_C4_witness :
    (FLInv wit4buf [0, 6] ∧ NoAdjFree wit4buf [0, 6] ∧ getFid wit4buf 3 = 0) ∧
    NoAdjFree (arena_page_free_allocation ⟨wit4buf, 12, 55, [0, 6]⟩ 3).buf
      (arena_page_free_allocation ⟨wit4buf, 12, 55, [0, 6]⟩ 3).freelist :=
  ⟨⟨by decide, by decide, by decide⟩,
    claim_C4 ⟨wit4buf, 12, 55, [0, 6]⟩ 3 (by decide) (by decide) (by decide)
      (by
        intro x
        unfold getBc wit4buf
        dsimp only
        split_ifs <;> decide)⟩

/-! ### Claim C8: resize(0) is free, resize(NULL) is allocate -/

/-- **C8.**  For every handle chain and pointer:
`resize(h, ptr, 0)` performs exactly `free(h, ptr)` (a no-op when `ptr`
is NULL, an abort when no handle owns it) and returns NULL; and
`resize(h, NULL, N)` returns exactly the result of `allocate(h, N)`,
with the same state. -/
theorem claim_C8 :
    (∀ (st : AState) (p : Option APtr),
      allocator_realloc st p 0
        = (allocator_free st p).map (fun st2 => ((none : Option APtr), st2))) ∧
    (∀ (st : AState) (N : Nat),
      allocator_realloc st none N = some (allocator_malloc st N)) := by
  constructor
  · intro st p
    unfold allocator_realloc
    rw [if_pos rfl]
    cases allocator_free st p <;> rfl
  · intro st N
    unfold allocator_realloc
    rcases Nat.eq_zero_or_pos N with h0 | hpos
    · subst h0
      rw [if_pos rfl]
      unfold allocator_free allocator_malloc
      rw [if_pos rfl]
    · rw [if_neg (by omega)]

/-! ### Claim C10: calloc multiplies without an overflow check -/

/-- **C10.**  `allocator_calloc` computes the total size as the unchecked
64-bit product `size * count`: at `count = 8`,
`elem_size = 2^61 + 1` the mathematical product `2^64 + 8` exceeds
`2^64 - 1` and wraps to 8, so on a system-direct chain the call returns a
non-NULL pointer whose allocation is backed by a single block
(`block_count = 1`) and zeroed for only 8 bytes, instead of failing. -/
theorem claim_C10 :
    2305843009213693953 * 8 > 2 ^ 64 - 1 ∧
    2305843009213693953 * 8 % U64 = 8 ∧
    (allocator_calloc defaultChainState 8 2305843009213693953).1
      = some (APtr.osp 0) ∧
    aptrBc (allocator_calloc defaultChainState 8 2305843009213693953).2
      (APtr.osp 0) = 1 ∧
    (∀ b, b < 8 →
      readByte (allocator_calloc defaultChainState 8 2305843009213693953).2
        (APtr.osp 0) b = 0) := by
  refine ⟨by decide, by decide, by decide, by decide, by decide⟩

/-! ### Claim C9: a failed resize leaves the original allocation intact

Every `NULL`-returning path of `allocator_realloc` (with `size > 0` and a
recognised pointer) is write-free at the original allocation: the failing
branches of `arena_page_try_reallocating_in_place`,
`arena_page_make_allocation` and the OS `realloc` perform no writes, a
failing `arena_malloc` can only append a fresh page, and the migration
path frees the original only after a fallback allocation has succeeded —
which is exactly the non-`NULL` case. -/

theorem getHandle_set (st : AState) (h0 : Nat) (k : HKind) (x : Nat) :
    getHandle (setHandle st h0 k) x =
      if x = h0 ∧ h0 < st.handles.length then k else getHandle st x := by
  unfold getHandle setHandle
  dsimp only
  by_cases hx : x = h0
  · subst hx
    by_cases hl : x < st.handles.length
    · rw [if_pos ⟨rfl, hl⟩]
      exact getD_set_self _ _ hl
    · rw [if_neg (by tauto)]
      rw [List.getD_eq_default _ _ (by rw [List.length_set]; omega),
        List.getD_eq_default _ _ (by omega)]
  · rw [if_neg (by tauto)]
    by_cases hl : x < st.handles.length
    · exact getD_set_ne2 _ _ hl hx
    · rw [List.getD_eq_default _ _ (by rw [List.length_set]; omega),
        List.getD_eq_default _ _ (by omega)]

theorem getHandle_set_same {st : AState} {h0 : Nat} {k : HKind}
    (hk : getHandle st h0 = k) (x : Nat) :
    getHandle (setHandle st h0 k) x = getHandle st x := by
  rw [getHandle_set]
  by_cases hc : x = h0 ∧ h0 < st.handles.length
  · rw [if_pos hc]
    rw [hc.1, hk]
  · rw [if_neg hc]

theorem getHandle_lt_length {st : AState} {h0 : Nat}
    (hne : getHandle st h0 ≠ HKind.hdefault) : h0 < st.handles.length := by
  by_contra hcon
  exact hne (List.getD_eq_default _ _ (by omega))

theorem aptrHdr_eq_of_mem {st st2 : AState} {p : APtr}
    (hmem : memAtPtrEq st st2 p) : aptrHdr st2 p = aptrHdr st p := by
  cases p with
  | osp id =>
    dsimp only [memAtPtrEq] at hmem
    unfold aptrHdr
    dsimp only
    rw [hmem]
  | pgp h2 pg idx =>
    dsimp only [memAtPtrEq] at hmem
    unfold aptrHdr
    dsimp only
    rw [hmem]

theorem payloadCell_eq_of_mem {st st2 : AState} {p : APtr}
    (hmem : memAtPtrEq st st2 p) (k : Nat) :
    payloadCell st2 p k = payloadCell st p k := by
  cases p with
  | osp id =>
    dsimp only [memAtPtrEq] at hmem
    unfold payloadCell
    dsimp only
    rw [hmem]
  | pgp h2 pg idx =>
    dsimp only [memAtPtrEq] at hmem
    unfold payloadCell
    dsimp only
    rw [hmem]

theorem readByte_eq_of_mem {st st2 : AState} {p : APtr}
    (hmem : memAtPtrEq st st2 p) (b : Nat) : readByte st2 p b = readByte st p b := by
  unfold readByte
  rw [payloadCell_eq_of_mem hmem]

theorem owns_congr2 {st st2 : AState} {x : Nat} {p : APtr}
    (hgh : getHandle st2 x = getHandle st x) (hhdr : aptrHdr st2 p = aptrHdr st p) :
    allocator_owns_memory st2 x p = allocator_owns_memory st x p := by
  have hfid : aptrFid st2 p = aptrFid st p := by
    unfold aptrFid
    rw [hhdr]
  unfold allocator_owns_memory
  rw [hgh]
  cases hk : getHandle st x with
  | hdefault =>
    dsimp only
    rw [hfid]
  | hdefaultPlus led =>
    dsimp only
    unfold ledger_contains
    rw [hfid]
  | hstaticArena page => cases p <;> rfl
  | harena ar => cases p <;> rfl

theorem owns_arena_osp {st : AState} {x : Nat} {ar : Arena} {id : Nat}
    (hk : getHandle st x = HKind.harena ar) :
    allocator_owns_memory st x (APtr.osp id) = false := by
  unfold allocator_owns_memory
  rw [hk]

theorem owns_arena_pgp {st : AState} {x : Nat} {ar : Arena} {h2 pg idx : Nat}
    (hk : getHandle st x = HKind.harena ar) :
    allocator_owns_memory st x (APtr.pgp h2 pg idx) =
      (decide (h2 = x) && decide (pg < ar.pages.size)
        && arena_page_contains_allocation (ar.pages.getD pg dummyPage) idx) := by
  unfold allocator_owns_memory
  rw [hk]

theorem stableAt_of_ptwise {st st2 : AState} {p : APtr}
    (hgh : ∀ x, getHandle st2 x = getHandle st x) (ho : st2.os = st.os)
    (hnx : st2.osNext = st.osNext)
    (hlen : st2.handles.length = st.handles.length) : StableAt st st2 p := by
  have hmem : memAtPtrEq st st2 p := by
    cases p with
    | osp id =>
      dsimp only [memAtPtrEq]
      rw [ho]
    | pgp a b c =>
      dsimp only [memAtPtrEq]
      unfold pageOf
      rw [hgh a]
  exact ⟨ho, hnx, hlen, hmem, fun x => owns_congr2 (hgh x) (aptrHdr_eq_of_mem hmem)⟩

theorem stableAt_of_same {st st2 : AState} {p : APtr}
    (h1 : st2.handles = st.handles) (h2 : st2.os = st.os)
    (h3 : st2.osNext = st.osNext) : StableAt st st2 p :=
  stableAt_of_ptwise (fun x => by unfold getHandle; rw [h1]) h2 h3 (by rw [h1])

theorem stableAt_trans {st1 st2 st3 : AState} {p : APtr}
    (a : StableAt st1 st2 p) (b : StableAt st2 st3 p) : StableAt st1 st3 p := by
  obtain ⟨o1, n1, l1, m1, w1⟩ := a
  obtain ⟨o2, n2, l2, m2, w2⟩ := b
  refine ⟨o2.trans o1, n2.trans n1, l2.trans l1, ?_, fun x => (w2 x).trans (w1 x)⟩
  cases p with
  | osp id =>
    dsimp only [memAtPtrEq] at m1 m2 ⊢
    rw [m2, m1]
  | pgp a c d =>
    dsimp only [memAtPtrEq] at m1 m2 ⊢
    rw [m2, m1]

theorem arr_getD_push {α : Type} {a : Array α} {x : α} {i : Nat} (h : i < a.size)
    (d : α) : (a.push x).getD i d = a.getD i d := by
  unfold Array.getD
  rw [dif_pos (by rw [Array.size_push]; omega), dif_pos h]
  exact Array.getElem_push_lt a x i h

theorem arena_malloc_fail_pages {ar : Arena} {size : Nat} {ar2 : Arena}
    (hm : arena_malloc ar size = (none, ar2)) :
    (∀ q, q < ar.pages.size → ar2.pages.getD q dummyPage = ar.pages.getD q dummyPage)
      ∧ ar.pages.size ≤ ar2.pages.size := by
  unfold arena_malloc at hm
  by_cases hs : size > ar.page_size
  · rw [if_pos hs] at hm
    injection hm with _ h2
    subst h2
    exact ⟨fun q hq => rfl, Nat.le_refl _⟩
  · rw [if_neg hs] at hm
    cases hw : arena_malloc_pages ar size 0 ar.pages.size with
    | some r =>
      rw [hw] at hm
      rcases r with ⟨loc, arw⟩
      dsimp only at hm
      exact absurd hm (by simp)
    | none =>
      rw [hw] at hm
      dsimp only at hm
      cases hc : arena_page_create_from_memory (fun _ => Cell.zero) (ar.page_size / 8) with
      | none =>
        rw [hc] at hm
        dsimp only at hm
        injection hm with _ h2
        subst h2
        exact ⟨fun q hq => rfl, Nat.le_refl _⟩
      | some fresh =>
        rw [hc] at hm
        dsimp only at hm
        cases hmk : arena_page_make_allocation fresh size with
        | some r2 =>
          rw [hmk] at hm
          rcases r2 with ⟨idx, fresh2⟩
          dsimp only at hm
          exact absurd hm (by simp)
        | none =>
          rw [hmk] at hm
          dsimp only at hm
          injection hm with _ h2
          subst h2
          refine ⟨fun q hq => ?_, by rw [Array.size_push]; omega⟩
          dsimp only
          exact arr_getD_push hq dummyPage

theorem arena_realloc_fail_pages {ar : Arena} {pg idx size : Nat} {ar2 : Arena}
    (hr : arena_realloc ar pg idx size = (none, ar2)) :
    (∀ q, q < ar.pages.size → ar2.pages.getD q dummyPage = ar.pages.getD q dummyPage)
      ∧ ar.pages.size ≤ ar2.pages.size := by
  unfold arena_realloc at hr
  by_cases hs : size > ar.page_size
  · rw [if_pos hs] at hr
    injection hr with _ h2
    subst h2
    exact ⟨fun q hq => rfl, Nat.le_refl _⟩
  · rw [if_neg hs] at hr
    cases hf : arena_find_owning_page ar pg idx 0 ar.pages.size with
    | none =>
      rw [hf] at hr
      dsimp only at hr
      injection hr with _ h2
      subst h2
      exact ⟨fun q hq => rfl, Nat.le_refl _⟩
    | some opi =>
      rw [hf] at hr
      dsimp only at hr
      cases hip : arena_page_try_reallocating_in_place (ar.pages.getD opi dummyPage)
          idx size with
      | some page2 =>
        rw [hip] at hr
        dsimp only at hr
        exact absurd hr (by simp)
      | none =>
        rw [hip] at hr
        dsimp only at hr
        rcases hm : arena_malloc ar size with ⟨m1, arm⟩
        rw [hm] at hr
        dsimp only at hr
        cases m1 with
        | some loc =>
          rcases loc with ⟨npg, nidx⟩
          dsimp only at hr
          exact absurd hr (by simp)
        | none =>
          injection hr with _ h2
          subst h2
          exact arena_malloc_fail_pages hm

theorem static_realloc_fail {page : ArenaPage} {a size : Nat} {page2 : ArenaPage}
    (hr : static_arena_realloc page a size = (none, page2)) : page2 = page := by
  unfold static_arena_realloc at hr
  cases hip : arena_page_try_reallocating_in_place page a size with
  | some q =>
    rw [hip] at hr
    dsimp only at hr
    exact absurd hr (by simp)
  | none =>
    rw [hip] at hr
    dsimp only at hr
    cases hmk : arena_page_make_allocation page size with
    | none =>
      rw [hmk] at hr
      dsimp only at hr
      injection hr with _ h2
      exact h2.symm
    | some r =>
      rcases r with ⟨nidx, pg2⟩
      rw [hmk] at hr
      dsimp only at hr
      exact absurd hr (by simp)

theorem setArena_stable {st : AState} {h0 : Nat} {ar ar2 : Arena} {p : APtr} {h : Nat}
    (hmatch : ∀ h2 pg idx, p = APtr.pgp h2 pg idx → h2 = h)
    (hown : allocator_owns_memory st h p = true)
    (hk : getHandle st h0 = HKind.harena ar)
    (hgd : ∀ q, q < ar.pages.size → ar2.pages.getD q dummyPage = ar.pages.getD q dummyPage)
    (hsz : ar.pages.size ≤ ar2.pages.size) :
    StableAt st (setHandle st h0 (HKind.harena ar2)) p := by
  have hlt : h0 < st.handles.length :=
    getHandle_lt_length (by rw [hk]; intro hcon; exact HKind.noConfusion hcon)
  have hgh0 : getHandle (setHandle st h0 (HKind.harena ar2)) h0 = HKind.harena ar2 := by
    rw [getHandle_set, if_pos ⟨rfl, hlt⟩]
  have hghx : ∀ x, x ≠ h0 →
      getHandle (setHandle st h0 (HKind.harena ar2)) x = getHandle st x := by
    intro x hx
    rw [getHandle_set, if_neg (by tauto)]
  cases p with
  | osp id =>
    have hmem : memAtPtrEq st (setHandle st h0 (HKind.harena ar2)) (APtr.osp id) := rfl
    refine ⟨rfl, rfl, by simp [setHandle], hmem, ?_⟩
    intro x
    by_cases hx : x = h0
    · subst hx
      rw [owns_arena_osp hgh0, owns_arena_osp hk]
    · exact owns_congr2 (hghx x hx) (aptrHdr_eq_of_mem hmem)
  | pgp h2 pg idx =>
    have hh2 : h2 = h := hmatch h2 pg idx rfl
    by_cases hxh : h2 = h0
    · have hh0 : h = h0 := by omega
      rw [hh0] at hown
      rw [hxh] at hown
      rw [owns_arena_pgp hk] at hown
      simp only [Bool.and_eq_true, decide_eq_true_eq] at hown
      obtain ⟨⟨-, hpg⟩, hcon⟩ := hown
      have hmem : memAtPtrEq st (setHandle st h0 (HKind.harena ar2))
          (APtr.pgp h2 pg idx) := by
        dsimp only [memAtPtrEq]
        rw [hxh]
        unfold pageOf
        rw [hgh0, hk]
        exact hgd pg hpg
      refine ⟨rfl, rfl, by simp [setHandle], hmem, ?_⟩
      intro x
      by_cases hx : x = h0
      · subst hx
        rw [owns_arena_pgp hgh0, owns_arena_pgp hk, hgd pg hpg,
          decide_eq_true (show pg < ar2.pages.size by omega), decide_eq_true hpg]
      · exact owns_congr2 (hghx x hx) (aptrHdr_eq_of_mem hmem)
    · have hmem : memAtPtrEq st (setHandle st h0 (HKind.harena ar2))
          (APtr.pgp h2 pg idx) := by
        dsimp only [memAtPtrEq]
        unfold pageOf
        rw [hghx h2 hxh]
      refine ⟨rfl, rfl, by simp [setHandle], hmem, ?_⟩
      intro x
      by_cases hx : x = h0
      · subst hx
        rw [owns_arena_pgp hgh0, owns_arena_pgp hk]
        simp [hxh]
      · exact owns_congr2 (hghx x hx) (aptrHdr_eq_of_mem hmem)

theorem strat_malloc_fail_stable {st st1 : AState} {h0 size : Nat} {p : APtr} {h : Nat}
    (hmatch : ∀ h2 pg idx, p = APtr.pgp h2 pg idx → h2 = h)
    (hown : allocator_owns_memory st h p = true)
    (hsm : strategy_malloc st h0 size = (none, st1)) : StableAt st st1 p := by
  unfold strategy_malloc at hsm
  cases hk : getHandle st h0 with
  | hdefault =>
    rw [hk] at hsm
    dsimp only at hsm
    unfold default_malloc at hsm
    by_cases hp : st.plan st.osCtr
    · rw [if_pos hp] at hsm
      exact absurd hsm (by simp)
    · rw [if_neg hp] at hsm
      injection hsm with _ h2
      subst h2
      exact stableAt_of_same rfl rfl rfl
  | hdefaultPlus led =>
    rw [hk] at hsm
    dsimp only at hsm
    unfold default_plus_malloc at hsm
    by_cases hp : st.plan st.osCtr
    · rw [if_pos hp] at hsm
      dsimp only at hsm
      exact absurd hsm (by simp)
    · rw [if_neg hp] at hsm
      dsimp only at hsm
      injection hsm with _ h2
      subst h2
      exact stableAt_of_ptwise (fun x => getHandle_set_same hk x) rfl rfl (by simp [setHandle])
  | hstaticArena page =>
    rw [hk] at hsm
    dsimp only at hsm
    cases hmk : arena_page_make_allocation page size with
    | none =>
      rw [hmk] at hsm
      dsimp only at hsm
      injection hsm with _ h2
      subst h2
      exact stableAt_of_same rfl rfl rfl
    | some r =>
      rcases r with ⟨idx, page2⟩
      rw [hmk] at hsm
      dsimp only at hsm
      exact absurd hsm (by simp)
  | harena ar =>
    rw [hk] at hsm
    dsimp only at hsm
    rcases hr : arena_malloc ar size with ⟨m1, ar2⟩
    rw [hr] at hsm
    dsimp only at hsm
    cases m1 with
    | some loc =>
      rcases loc with ⟨pg, idx⟩
      dsimp only at hsm
      exact absurd hsm (by simp)
    | none =>
      dsimp only at hsm
      injection hsm with _ h2
      subst h2
      have hfacts := arena_malloc_fail_pages hr
      exact setArena_stable hmatch hown hk hfacts.1 hfacts.2

theorem strat_realloc_fail_stable {st st1 : AState} {h size : Nat} {p : APtr}
    (hmatch : ∀ h2 pg idx, p = APtr.pgp h2 pg idx → h2 = h)
    (hown : allocator_owns_memory st h p = true)
    (hsr : strategy_realloc st h p size = (none, st1)) : StableAt st st1 p := by
  unfold strategy_realloc at hsr
  cases hk : getHandle st h with
  | hdefault =>
    rw [hk] at hsr
    dsimp only at hsr
    cases p with
    | pgp a b c =>
      dsimp only at hsr
      injection hsr with _ h2
      subst h2
      exact stableAt_of_same rfl rfl rfl
    | osp id =>
      dsimp only at hsr
      unfold os_user_realloc at hsr
      cases ho : st.os id with
      | none =>
        rw [ho] at hsr
        dsimp only at hsr
        injection hsr with _ h2
        subst h2
        exact stableAt_of_same rfl rfl rfl
      | some b =>
        rw [ho] at hsr
        dsimp only at hsr
        by_cases hp : st.plan st.osCtr
        · rw [if_pos hp] at hsr
          exact absurd hsr (by simp)
        · rw [if_neg hp] at hsr
          injection hsr with _ h2
          subst h2
          exact stableAt_of_same rfl rfl rfl
  | hdefaultPlus led =>
    rw [hk] at hsr
    dsimp only at hsr
    cases p with
    | pgp a b c =>
      dsimp only at hsr
      injection hsr with _ h2
      subst h2
      exact stableAt_of_same rfl rfl rfl
    | osp id =>
      dsimp only at hsr
      unfold os_user_realloc at hsr
      cases ho : st.os id with
      | none =>
        rw [ho] at hsr
        dsimp only at hsr
        injection hsr with _ h2
        subst h2
        exact stableAt_of_same rfl rfl rfl
      | some b =>
        rw [ho] at hsr
        dsimp only at hsr
        by_cases hp : st.plan st.osCtr
        · rw [if_pos hp] at hsr
          exact absurd hsr (by simp)
        · rw [if_neg hp] at hsr
          injection hsr with _ h2
          subst h2
          exact stableAt_of_same rfl rfl rfl
  | hstaticArena page =>
    rw [hk] at hsr
    dsimp only at hsr
    cases p with
    | osp id =>
      dsimp only at hsr
      injection hsr with _ h2
      subst h2
      exact stableAt_of_same rfl rfl rfl
    | pgp a b c =>
      dsimp only at hsr
      rcases hr : static_arena_realloc page c size with ⟨r1, page2⟩
      rw [hr] at hsr
      dsimp only at hsr
      cases r1 with
      | some nidx =>
        dsimp only at hsr
        exact absurd hsr (by simp)
      | none =>
        dsimp only at hsr
        have hpg2 : page2 = page := static_realloc_fail hr
        subst hpg2
        injection hsr with _ h2
        subst h2
        exact stableAt_of_ptwise (fun x => getHandle_set_same hk x) rfl rfl
          (by simp [setHandle])
  | harena ar =>
    rw [hk] at hsr
    dsimp only at hsr
    cases p with
    | osp id =>
      dsimp only at hsr
      injection hsr with _ h2
      subst h2
      exact stableAt_of_same rfl rfl rfl
    | pgp a pg idx =>
      dsimp only at hsr
      rcases hr : arena_realloc ar pg idx size with ⟨r1, ar2⟩
      rw [hr] at hsr
      dsimp only at hsr
      cases r1 with
      | some loc =>
        rcases loc with ⟨npg, nidx⟩
        dsimp only at hsr
        exact absurd hsr (by simp)
      | none =>
        dsimp only at hsr
        injection hsr with _ h2
        subst h2
        have hfacts := arena_realloc_fail_pages hr
        exact setArena_stable hmatch hown hk hfacts.1 hfacts.2

theorem malloc_from_fail_stable {size : Nat} {p : APtr} {h : Nat}
    (hmatch : ∀ h2 pg idx, p = APtr.pgp h2 pg idx → h2 = h) :
    ∀ (fuel : Nat) (st : AState) (h0 : Nat) (st1 : AState),
      allocator_malloc_from st h0 size fuel = (none, st1) →
      allocator_owns_memory st h p = true → StableAt st st1 p := by
  intro fuel
  induction fuel with
  | zero =>
    intro st h0 st1 hm hown
    unfold allocator_malloc_from at hm
    injection hm with _ h2
    subst h2
    exact stableAt_of_same rfl rfl rfl
  | succ fuel ih =>
    intro st h0 st1 hm hown
    unfold allocator_malloc_from at hm
    by_cases hl : h0 < st.handles.length
    · rw [if_pos hl] at hm
      rcases hsm : strategy_malloc st h0 size with ⟨m1, stm⟩
      rw [hsm] at hm
      cases m1 with
      | some q =>
        dsimp only at hm
        exact absurd hm (by simp)
      | none =>
        dsimp only at hm
        have hstep := strat_malloc_fail_stable hmatch hown hsm
        have hown2 : allocator_owns_memory stm h p = true := by
          rw [hstep.2.2.2.2 h]
          exact hown
        exact stableAt_trans hstep (ih stm (h0 + 1) st1 hm hown2)
    · rw [if_neg hl] at hm
      injection hm with _ h2
      subst h2
      exact stableAt_of_same rfl rfl rfl

theorem allocator_malloc_fail_stable {st st1 : AState} {size : Nat} {p : APtr} {h : Nat}
    (hmatch : ∀ h2 pg idx, p = APtr.pgp h2 pg idx → h2 = h)
    (hown : allocator_owns_memory st h p = true)
    (hm : allocator_malloc st size = (none, st1)) : StableAt st st1 p := by
  unfold allocator_malloc at hm
  by_cases hs : size = 0
  · rw [if_pos hs] at hm
    injection hm with _ h2
    subst h2
    exact stableAt_of_same rfl rfl rfl
  · rw [if_neg hs] at hm
    exact malloc_from_fail_stable hmatch st.handles.length st 0 st1 hm hown

theorem find_from_owns {st : AState} {p : APtr} {h : Nat} :
    ∀ {fuel h0 : Nat}, find_owning_from st p h0 fuel = some h →
      allocator_owns_memory st h p = true := by
  intro fuel
  induction fuel with
  | zero =>
    intro h0 hf
    exact absurd hf (by simp [find_owning_from])
  | succ fuel ih =>
    intro h0 hf
    unfold find_owning_from at hf
    by_cases hl : h0 < st.handles.length
    · rw [if_pos hl] at hf
      by_cases hw : allocator_owns_memory st h0 p = true
      · rw [if_pos hw] at hf
        injection hf with h1
        rw [← h1]
        exact hw
      · rw [if_neg hw] at hf
        exact ih hf
    · rw [if_neg hl] at hf
      exact absurd hf (by simp)

theorem find_from_congr {st st2 : AState} {p : APtr}
    (hlen : st2.handles.length = st.handles.length)
    (howns : ∀ x, allocator_owns_memory st2 x p = allocator_owns_memory st x p) :
    ∀ (fuel h0 : Nat), find_owning_from st2 p h0 fuel = find_owning_from st p h0 fuel := by
  intro fuel
  induction fuel with
  | zero => intro h0; rfl
  | succ fuel ih =>
    intro h0
    unfold find_owning_from
    rw [hlen, howns h0, ih (h0 + 1)]

/-- **C9.**  If `allocator_realloc` with `size > 0` on a pointer the chain
recognises returns `NULL`, the original allocation is untouched: the
region (or OS block) it lives in is exactly as before the call — header,
payload bytes and freelist alike — and `find_owning_allocator` still
reports the same handle, so the allocation is still live and still owned
by the same strategy (allocator.c lines 732-787, 246-311, 112-147). -/
theorem claim_C9 (st : AState) (p : APtr) (h size : Nat) (st2 : AState)
    (hpos : 0 < size)
    (hfind : find_owning_allocator st p = some h)
    (hmatch : ∀ h2 pg idx, p = APtr.pgp h2 pg idx → h2 = h)
    (hres : allocator_realloc st (some p) size = some (none, st2)) :
    memAtPtrEq st st2 p ∧
    aptrHdr st2 p = aptrHdr st p ∧
    (∀ b, readByte st2 p b = readByte st p b) ∧
    find_owning_allocator st2 p = some h := by
  have hown : allocator_owns_memory st h p = true := find_from_owns hfind
  unfold allocator_realloc at hres
  rw [if_neg (by omega)] at hres
  dsimp only at hres
  rw [hfind] at hres
  dsimp only at hres
  rcases hsr : strategy_realloc st h p size with ⟨r1, stA⟩
  rw [hsr] at hres
  cases r1 with
  | some np =>
    dsimp only at hres
    exact absurd hres (by simp)
  | none =>
    dsimp only at hres
    rcases hm : allocator_malloc stA size with ⟨m1, stB⟩
    rw [hm] at hres
    dsimp only at hres
    cases m1 with
    | some np =>
      dsimp only at hres
      exact absurd hres (by simp)
    | none =>
      simp only [Option.some.injEq, Prod.mk.injEq] at hres
      obtain ⟨-, h2⟩ := hres
      subst h2
      have s1 : StableAt st stA p := strat_realloc_fail_stable hmatch hown hsr
      have hown2 : allocator_owns_memory stA h p = true := by
        rw [s1.2.2.2.2 h]
        exact hown
      have s2 : StableAt stA stB p := allocator_malloc_fail_stable hmatch hown2 hm
      obtain ⟨ho, hnx, hlen, hmem, hw⟩ := stableAt_trans s1 s2
      refine ⟨hmem, aptrHdr_eq_of_mem hmem, fun b => readByte_eq_of_mem hmem b, ?_⟩
      unfold find_owning_allocator at hfind ⊢
      rw [hlen, find_from_congr hlen hw st.handles.length 0]
      exact hfind

/-- Witness for C9: on a one-page fixed region holding one live 2-block
allocation, a grow to 100 bytes fails in place, fails to re-allocate, and
the fallback walk fails too; the region and the ownership answer are
untouched. -/
theorem claim_C9_witness :
    memAtPtrEq c9st c9st2 (APtr.pgp 0 0 0) ∧
    aptrHdr c9st2 (APtr.pgp 0 0 0) = aptrHdr c9st (APtr.pgp 0 0 0) ∧
    (∀ b, readByte c9st2 (APtr.pgp 0 0 0) b = readByte c9st (APtr.pgp 0 0 0) b) ∧
    find_owning_allocator c9st2 (APtr.pgp 0 0 0) = some 0 :=
  claim_C9 c9st (APtr.pgp 0 0 0) 0 100 c9st2 (by decide) (by decide)
    (by intro h2 pg idx hh; injection hh with a _ _; exact a.symm) rfl

/-! ### Byte-level lemmas about block cells -/

theorem val_lt (c : Cell) : c.val < 2 ^ 64 := by
  unfold Cell.val
  simp only [U32]
  omega

theorem val_ofVal (w : Nat) : (Cell.ofVal w).val = w % 2 ^ 64 := by
  unfold Cell.val Cell.ofVal
  simp only [U32]
  omega

theorem byte_lt (c : Cell) (j : Nat) : c.byte j < 256 :=
  Nat.mod_lt _ (by omega)

theorem two_pow_pos8 (n : Nat) : 0 < 2 ^ n := Nat.pos_pow_of_pos n (by omega)

theorem setByte_val (c : Cell) (j v : Nat) (hj : j < 8) :
    (c.setByte j v).val = c.val % 2 ^ (8 * j) + v % 256 * 2 ^ (8 * j)
      + c.val / 2 ^ (8 * (j + 1)) * 2 ^ (8 * (j + 1)) := by
  unfold Cell.setByte
  rw [val_ofVal]
  apply Nat.mod_eq_of_lt
  have hE1 : (2:Nat) ^ (8 * (j + 1)) = 2 ^ (8 * j) * 256 := by
    rw [show 8 * (j + 1) = 8 * j + 8 by ring, pow_add]
    norm_num
  have h1 : c.val % 2 ^ (8 * j) + v % 256 * 2 ^ (8 * j) < 2 ^ (8 * (j + 1)) := by
    have hm : c.val % 2 ^ (8 * j) < 2 ^ (8 * j) := Nat.mod_lt _ (two_pow_pos8 _)
    have h255 : v % 256 * 2 ^ (8 * j) ≤ 255 * 2 ^ (8 * j) :=
      Nat.mul_le_mul_right _ (by omega)
    rw [hE1]
    have : c.val % 2 ^ (8 * j) + v % 256 * 2 ^ (8 * j)
        < 2 ^ (8 * j) + 255 * 2 ^ (8 * j) := by omega
    calc c.val % 2 ^ (8 * j) + v % 256 * 2 ^ (8 * j)
        < 2 ^ (8 * j) + 255 * 2 ^ (8 * j) := this
      _ = 2 ^ (8 * j) * 256 := by ring
  have h2 : c.val / 2 ^ (8 * (j + 1)) * 2 ^ (8 * (j + 1)) + 2 ^ (8 * (j + 1))
      ≤ 2 ^ 64 := by
    have hdvd : (2:Nat) ^ (8 * (j + 1)) ∣ 2 ^ 64 := pow_dvd_pow 2 (by omega)
    have hq : c.val / 2 ^ (8 * (j + 1)) < 2 ^ 64 / 2 ^ (8 * (j + 1)) :=
      Nat.div_lt_div_of_lt_of_dvd hdvd (val_lt c)
    calc c.val / 2 ^ (8 * (j + 1)) * 2 ^ (8 * (j + 1)) + 2 ^ (8 * (j + 1))
        = (c.val / 2 ^ (8 * (j + 1)) + 1) * 2 ^ (8 * (j + 1)) := by ring
      _ ≤ 2 ^ 64 / 2 ^ (8 * (j + 1)) * 2 ^ (8 * (j + 1)) :=
          Nat.mul_le_mul_right _ (by omega)
      _ = 2 ^ 64 := Nat.div_mul_cancel hdvd
  omega

theorem byte_mod_window (x i : Nat) :
    x / 2 ^ (8 * i) % 256 = x % 2 ^ (8 * (i + 1)) / 2 ^ (8 * i) := by
  have hE1 : (2:Nat) ^ (8 * (i + 1)) = 2 ^ (8 * i) * 256 := by
    rw [show 8 * (i + 1) = 8 * i + 8 by ring, pow_add]
    norm_num
  rw [hE1, ← Nat.mod_mul_right_div_self]

theorem byte_setByte_self (c : Cell) (j v : Nat) (hj : j < 8) :
    (c.setByte j v).byte j = v % 256 := by
  unfold Cell.byte
  rw [setByte_val c j v hj]
  have hE1 : (2:Nat) ^ (8 * (j + 1)) = 2 ^ (8 * j) * 256 := by
    rw [show 8 * (j + 1) = 8 * j + 8 by ring, pow_add]
    norm_num
  rw [show c.val % 2 ^ (8 * j) + v % 256 * 2 ^ (8 * j)
        + c.val / 2 ^ (8 * (j + 1)) * 2 ^ (8 * (j + 1))
      = c.val % 2 ^ (8 * j)
        + (v % 256 + c.val / 2 ^ (8 * (j + 1)) * 256) * 2 ^ (8 * j) by
    rw [hE1]
    ring]
  rw [Nat.add_mul_div_right _ _ (two_pow_pos8 (8 * j)),
    Nat.div_eq_of_lt (Nat.mod_lt _ (two_pow_pos8 (8 * j)))]
  omega

theorem byte_setByte_ne (c : Cell) (i j v : Nat) (hj : j < 8) (hne : i ≠ j) :
    (c.setByte j v).byte i = c.byte i := by
  unfold Cell.byte
  rw [setByte_val c j v hj]
  have hE1 : (2:Nat) ^ (8 * (j + 1)) = 2 ^ (8 * j) * 256 := by
    rw [show 8 * (j + 1) = 8 * j + 8 by ring, pow_add]
    norm_num
  rcases Nat.lt_or_ge i j with hlt | hge
  · -- the written byte sits in a strictly higher position
    have hdvd : (2:Nat) ^ (8 * (i + 1)) ∣ 2 ^ (8 * j) :=
      pow_dvd_pow 2 (by omega)
    obtain ⟨t, ht⟩ := hdvd
    rw [byte_mod_window _ i, byte_mod_window _ i]
    rw [show c.val % 2 ^ (8 * j) + v % 256 * 2 ^ (8 * j)
          + c.val / 2 ^ (8 * (j + 1)) * 2 ^ (8 * (j + 1))
        = c.val % 2 ^ (8 * j)
          + (v % 256 + c.val / 2 ^ (8 * (j + 1)) * 256) * t * 2 ^ (8 * (i + 1)) by
      rw [hE1, ht]
      ring]
    rw [Nat.add_mul_mod_self_right, Nat.mod_mod_of_dvd _ ⟨t, ht⟩]
  · -- the written byte sits in a strictly lower position
    have hij : j + 1 ≤ i := by omega
    have hsplit : (2:Nat) ^ (8 * i) = 2 ^ (8 * (j + 1)) * 2 ^ (8 * (i - j - 1)) := by
      rw [← pow_add]
      congr 1
      omega
    have hlow : c.val % 2 ^ (8 * j) + v % 256 * 2 ^ (8 * j) < 2 ^ (8 * (j + 1)) := by
      have hm : c.val % 2 ^ (8 * j) < 2 ^ (8 * j) := Nat.mod_lt _ (two_pow_pos8 _)
      have h255 : v % 256 * 2 ^ (8 * j) ≤ 255 * 2 ^ (8 * j) :=
        Nat.mul_le_mul_right _ (by omega)
      calc c.val % 2 ^ (8 * j) + v % 256 * 2 ^ (8 * j)
          < 2 ^ (8 * j) + 255 * 2 ^ (8 * j) := by omega
        _ = 2 ^ (8 * j) * 256 := by ring
        _ = 2 ^ (8 * (j + 1)) := hE1.symm
    rw [hsplit, ← Nat.div_div_eq_div_mul, ← Nat.div_div_eq_div_mul,
      Nat.add_mul_div_right _ _ (two_pow_pos8 (8 * (j + 1))),
      Nat.div_eq_of_lt hlow]
    conv =>
      rhs
      rw [show c.val / 2 ^ (8 * (j + 1))
          = 0 + c.val / 2 ^ (8 * (j + 1)) by omega]

theorem setCell_self (buf : Nat → Cell) (i : Nat) (c : Cell) : setCell buf i c i = c := by
  unfold setCell
  simp

theorem setCell_ne (buf : Nat → Cell) (i : Nat) (c : Cell) (j : Nat) (h : j ≠ i) :
    setCell buf i c j = buf j := by
  unfold setCell
  simp [h]

/-! ### The cell-range copy -/

theorem copyCells_out : ∀ (n : Nat) (buf : Nat → Cell) (src dst j : Nat),
    j < dst ∨ dst + n ≤ j → copyCells buf src dst n j = buf j := by
  intro n
  induction n with
  | zero => intro buf src dst j hj; rfl
  | succ n ih =>
    intro buf src dst j hj
    show copyCells (setCell buf dst (buf src)) (src + 1) (dst + 1) n j = buf j
    rw [ih _ _ _ j (by omega), setCell_ne _ _ _ _ (by omega)]

theorem copyCells_copy : ∀ (n : Nat) (buf : Nat → Cell) (src dst : Nat),
    (dst + n ≤ src ∨ src + n ≤ dst) → ∀ k, k < n →
    copyCells buf src dst n (dst + k) = buf (src + k) := by
  intro n
  induction n with
  | zero => intro buf src dst hd k hk; exact absurd hk (by omega)
  | succ n ih =>
    intro buf src dst hd k hk
    show copyCells (setCell buf dst (buf src)) (src + 1) (dst + 1) n (dst + k)
      = buf (src + k)
    rcases Nat.eq_zero_or_pos k with rfl | hkpos
    · rw [copyCells_out n _ _ _ _ (by omega), Nat.add_zero, setCell_self, Nat.add_zero]
    · obtain ⟨k2, rfl⟩ : ∃ k2, k = k2 + 1 := ⟨k - 1, by omega⟩
      rw [show dst + (k2 + 1) = dst + 1 + k2 by omega,
        ih (setCell buf dst (buf src)) (src + 1) (dst + 1) (by omega) k2 (by omega),
        show src + 1 + k2 = src + (k2 + 1) by omega,
        setCell_ne _ _ _ _ (by omega)]

/-! ### Write footprints of the freelist-array operations -/

theorem remove_buf_out {buf : Nat → Cell} {fl : List Nat} {m j : Nat}
    (hfl : fl ≠ []) (hj : ∀ e ∈ fl, j ≠ e) (hm : j ≠ m) :
    (allocation_array_remove buf fl m).1 j = buf j := by
  unfold allocation_array_remove
  dsimp only
  have hlast : fl.getD (fl.length - 1) 0 ∈ fl := by
    rw [List.getD_eq_getElem _ _ (by
      cases fl with
      | nil => exact absurd rfl hfl
      | cons x xs => simp)]
    exact List.getElem_mem _
  rw [setFid_apply_ne _ _ _ _ hm, setFid_apply_ne _ _ _ _ (hj _ hlast)]

theorem take_buf_out {buf : Nat → Cell} {fl : List Nat} {m required j : Nat}
    (hreq : 1 ≤ required) (hreqU : required < U32)
    (hfl : fl ≠ []) (hj : ∀ e ∈ fl, j ≠ e)
    (hspan : j < m ∨ allocation_next buf m ≤ j) :
    (allocation_array_try_to_take_blocks_from_member buf fl m required).2.1 j = buf j := by
  unfold allocation_array_try_to_take_blocks_from_member
  dsimp only
  have hjm : j ≠ m := by
    unfold allocation_next at hspan
    simp only [ALLOCATION_HEAD_BLOCK_COUNT] at hspan
    omega
  by_cases h1 : getBc buf m + ALLOCATION_HEAD_BLOCK_COUNT < required
  · rw [if_pos h1]
  · rw [if_neg h1]
    by_cases h2 : getBc buf m + ALLOCATION_HEAD_BLOCK_COUNT
        < required + MIN_BLOCKS_REQUIRED_FOR_ALLOCATION
    · rw [if_pos h2]
      exact remove_buf_out hfl hj hjm
    · rw [if_neg h2]
      dsimp only
      have hbc : (required + U64 - 1) % U64 = required - 1 := by
        simp only [U32, U64] at hreqU ⊢
        omega
      have hnode : allocation_next (setBc buf m ((required + U64 - 1) % U64)) m
          = m + required := by
        unfold allocation_next
        rw [getBc_setBc_self, hbc]
        simp only [ALLOCATION_HEAD_BLOCK_COUNT, U32] at hreqU ⊢
        omega
      rw [hnode]
      have hjnode : j ≠ m + required := by
        unfold allocation_next at hspan
        simp only [ALLOCATION_HEAD_BLOCK_COUNT,
          MIN_BLOCKS_REQUIRED_FOR_ALLOCATION] at h1 h2 hspan
        rcases hspan with h | h
        · omega
        · have : getBc buf m ≥ required + 1 := by omega
          omega
      rw [setFid_apply_ne _ _ _ _ hjnode, setBc_apply_ne _ _ _ _ hjnode,
        setBc_apply_ne _ _ _ _ hjm]

theorem span_ne {buf : Nat → Cell} {j e : Nat}
    (h : j < e ∨ allocation_next buf e ≤ j) : j ≠ e := by
  unfold allocation_next at h
  simp only [ALLOCATION_HEAD_BLOCK_COUNT] at h
  omega

theorem take_fail_eq {buf : Nat → Cell} {fl : List Nat} {m required : Nat}
    (hreq : 1 ≤ required)
    (h : (allocation_array_try_to_take_blocks_from_member buf fl m required).1 = 0) :
    allocation_array_try_to_take_blocks_from_member buf fl m required = (0, buf, fl) := by
  unfold allocation_array_try_to_take_blocks_from_member at h ⊢
  dsimp only at h ⊢
  by_cases h1 : getBc buf m + ALLOCATION_HEAD_BLOCK_COUNT < required
  · rw [if_pos h1]
  · rw [if_neg h1] at h ⊢
    by_cases h2 : getBc buf m + ALLOCATION_HEAD_BLOCK_COUNT
        < required + MIN_BLOCKS_REQUIRED_FOR_ALLOCATION
    · rw [if_pos h2] at h
      dsimp only at h
      simp only [ALLOCATION_HEAD_BLOCK_COUNT] at h
      omega
    · rw [if_neg h2] at h
      dsimp only at h
      omega

theorem take_success_spec {buf : Nat → Cell} {fl : List Nat} {m required cnt : Nat}
    {buf2 : Nat → Cell} {fl2 : List Nat}
    (hreq : 1 ≤ required) (hreqU : required < U32) (hm : m ∈ fl)
    (ht : allocation_array_try_to_take_blocks_from_member buf fl m required
      = (cnt, buf2, fl2))
    (hcnt : cnt ≠ 0) :
    required ≤ cnt ∧ cnt ≤ getBc buf m + 1 ∧
    (∀ e ∈ fl2, e ∈ fl ∨ (e = m + required ∧ cnt = required)) := by
  have hfl : fl ≠ [] := by
    intro hc
    rw [hc] at hm
    exact absurd hm (List.not_mem_nil m)
  unfold allocation_array_try_to_take_blocks_from_member at ht
  dsimp only at ht
  by_cases h1 : getBc buf m + ALLOCATION_HEAD_BLOCK_COUNT < required
  · rw [if_pos h1] at ht
    injection ht with hc _
    exact absurd hc.symm hcnt
  · rw [if_neg h1] at ht
    by_cases h2 : getBc buf m + ALLOCATION_HEAD_BLOCK_COUNT
        < required + MIN_BLOCKS_REQUIRED_FOR_ALLOCATION
    · rw [if_pos h2] at ht
      injection ht with hc hrest
      injection hrest with hbuf hfl2
      refine ⟨by simp only [ALLOCATION_HEAD_BLOCK_COUNT] at h1 hc; omega,
        by simp only [ALLOCATION_HEAD_BLOCK_COUNT] at hc; omega, ?_⟩
      intro e he
      rw [← hfl2] at he
      unfold allocation_array_remove at he
      dsimp only at he
      left
      have he2 := List.dropLast_subset _ he
      rcases List.mem_or_eq_of_mem_set he2 with h | h
      · exact h
      · rw [h]
        rw [List.getD_eq_getElem _ _ (by
          cases fl with
          | nil => exact absurd rfl hfl
          | cons x xs => simp)]
        exact List.getElem_mem _
    · rw [if_neg h2] at ht
      injection ht with hc hrest
      injection hrest with hbuf hfl2
      have hnode : allocation_next (setBc buf m ((required + U64 - 1) % U64)) m
          = m + required := by
        unfold allocation_next
        rw [getBc_setBc_self]
        simp only [ALLOCATION_HEAD_BLOCK_COUNT, U32, U64] at hreqU ⊢
        omega
      refine ⟨by omega, by simp only [ALLOCATION_HEAD_BLOCK_COUNT,
        MIN_BLOCKS_REQUIRED_FOR_ALLOCATION] at h1 h2; omega, ?_⟩
      intro e he
      rw [← hfl2] at he
      rcases List.mem_or_eq_of_mem_set he with h | h
      · exact Or.inl h
      · right
        refine ⟨by rw [h, hnode], by omega⟩

theorem ap_alloc_spec : ∀ (fuel : Nat) (buf : Nat → Cell) (fl : List Nat)
    (required i a : Nat) (buf2 : Nat → Cell) (fl2 : List Nat),
    1 ≤ required → required < U32 →
    ap_alloc_from_freelist buf fl required i fuel = some (a, buf2, fl2) →
    a ∈ fl ∧
    required ≤ getBc buf2 a + 1 ∧
    getBc buf2 a ≤ getBc buf a ∧
    getFid buf2 a = 0 ∧
    (∀ j, (∀ e ∈ fl, j ≠ e) → (j < a ∨ allocation_next buf a ≤ j) → buf2 j = buf j) ∧
    (∀ e ∈ fl2, e ∈ fl ∨ e = allocation_next buf2 a) := by
  intro fuel
  induction fuel with
  | zero =>
    intro buf fl required i a buf2 fl2 h1 h2 hap
    exact absurd hap (by simp [ap_alloc_from_freelist])
  | succ fuel ih =>
    intro buf fl required i a buf2 fl2 h1 h2 hap
    unfold ap_alloc_from_freelist at hap
    by_cases hi : i < fl.length
    · rw [dif_pos hi] at hap
      dsimp only at hap
      rcases htk : allocation_array_try_to_take_blocks_from_member buf fl
          (fl.get ⟨i, hi⟩) required with ⟨cnt, bufX, flX⟩
      rw [htk] at hap
      cases cnt with
      | zero =>
        have hfe := take_fail_eq h1 (by rw [htk])
        rw [htk] at hfe
        injection hfe with _ hrest
        injection hrest with hbuf hfl
        dsimp only at hap
        rw [hbuf, hfl] at hap
        exact ih buf fl required (i + 1) a buf2 fl2 h1 h2 hap
      | succ cnt2 =>
        injection hap with hap2
        injection hap2 with ha hrest
        injection hrest with hbuf hfl
        rw [ha] at htk hbuf
        have hmem : a ∈ fl := by
          rw [← ha]
          exact List.get_mem fl i hi
        have hspec := take_success_spec h1 h2 hmem htk (by omega)
        have hcle : cnt2 + 1 ≤ getBc buf a + 1 := hspec.2.1
        have hbc32 : cnt2 < U32 := by
          have := getBc_lt buf a
          omega
        have hgb : getBc buf2 a = cnt2 := by
          rw [← hbuf, getBc_setBc_self]
          simp only [U32] at hbc32 ⊢
          omega
        refine ⟨hmem, by omega, by omega, ?_, ?_, ?_⟩
        · rw [← hbuf]
          unfold getFid setBc setFid setCell
          simp
        · intro j hj hspan
          have hja : j ≠ a := hj a hmem
          rw [← hbuf, setBc_apply_ne _ _ _ _ hja, setFid_apply_ne _ _ _ _ hja]
          exact take_buf_out h1 h2 (by
            intro hc
            rw [hc] at hmem
            exact absurd hmem (List.not_mem_nil a)) hj hspan ▸ (by rw [htk])
        · intro e he
          rw [← hfl] at he
          rcases hspec.2.2 e he with h | ⟨h, hcr⟩
          · exact Or.inl h
          · right
            rw [h]
            unfold allocation_next
            rw [hgb]
            simp only [ALLOCATION_HEAD_BLOCK_COUNT]
            omega
    · rw [dif_neg hi] at hap
      exact absurd hap (by simp)

/-- What a successful `arena_page_make_allocation` guarantees: the end
sentinel is unchanged, the new allocation has a zero tag and at least the
required payload capacity, cells below the head and outside every free
span are untouched, the new allocation is carved either out of a free
node (head unchanged, span shrunk) or at the old bump head, and every
entry of the new freelist is an old entry or the split remainder. -/
theorem make_success_spec {page : ArenaPage} {size nidx : Nat} {page2 : ArenaPage}
    (hreqU : blocks_required_for_size size + ALLOCATION_HEAD_BLOCK_COUNT < U32)
    (hmk : arena_page_make_allocation page size = some (nidx, page2)) :
    page2.endIdx = page.endIdx ∧
    blocks_required_for_size size ≤ getBc page2.buf nidx ∧
    getFid page2.buf nidx = 0 ∧
    (∀ j, (∀ e ∈ page.freelist, j < e ∨ allocation_next page.buf e ≤ j) →
      j < page.headIdx → page2.buf j = page.buf j) ∧
    ((nidx ∈ page.freelist ∧ getBc page2.buf nidx ≤ getBc page.buf nidx
        ∧ page2.headIdx = page.headIdx)
      ∨ (nidx = page.headIdx ∧ page2.headIdx = allocation_next page2.buf nidx
        ∧ page2.headIdx ≤ page2.endIdx)) ∧
    (∀ e ∈ page2.freelist, e ∈ page.freelist
      ∨ e = allocation_next page2.buf nidx) := by
  unfold arena_page_make_allocation at hmk
  dsimp only at hmk
  by_cases hfull : (page.endIdx : Int) - (page.headIdx : Int)
      ≤ ((blocks_required_for_size size + ALLOCATION_HEAD_BLOCK_COUNT : Nat) : Int)
      ∧ page.freelist.length = 0
  · rw [if_pos hfull] at hmk
    exact absurd hmk (by simp)
  · rw [if_neg hfull] at hmk
    rcases hap : ap_alloc_from_freelist page.buf page.freelist
        (blocks_required_for_size size + ALLOCATION_HEAD_BLOCK_COUNT) 0
        page.freelist.length with _ | r
    · -- freelist exhausted: carve from the bump head
      rw [hap] at hmk
      dsimp only at hmk
      cases hadv : arena_page_try_advancing_head page
          (blocks_required_for_size size + ALLOCATION_HEAD_BLOCK_COUNT) with
      | none =>
        rw [hadv] at hmk
        exact absurd hmk (by simp)
      | some pageA =>
        rw [hadv] at hmk
        dsimp only at hmk
        injection hmk with hmk2
        injection hmk2 with hn hpg
        unfold arena_page_try_advancing_head at hadv
        by_cases hov : page.headIdx
            + (blocks_required_for_size size + ALLOCATION_HEAD_BLOCK_COUNT)
            > page.endIdx
        · rw [if_pos hov] at hadv
          exact absurd hadv (by simp)
        · rw [if_neg hov] at hadv
          injection hadv with hadv2
          have hbc : getBc page2.buf nidx
              = blocks_required_for_size size := by
            rw [← hpg, ← hn]
            dsimp only
            rw [getBc_setFid, getBc_setBc_self]
            simp only [ALLOCATION_HEAD_BLOCK_COUNT, U32] at hreqU ⊢
            omega
          refine ⟨?_, by omega, ?_, ?_, ?_, ?_⟩
          · rw [← hpg, ← hadv2]
          · rw [← hpg, ← hn]
            dsimp only
            rw [getFid_setFid_self]
            simp
          · intro j hj hjh
            rw [← hpg]
            dsimp only
            rw [setFid_apply_ne _ _ _ _ (by omega), setBc_apply_ne _ _ _ _ (by omega),
              ← hadv2]
          · right
            refine ⟨hn.symm, ?_, ?_⟩
            · unfold allocation_next
              rw [hbc, ← hpg, ← hadv2, ← hn]
              dsimp only
              simp only [ALLOCATION_HEAD_BLOCK_COUNT]
              omega
            · rw [← hpg, ← hadv2]
              dsimp only
              omega
          · intro e he
            rw [← hpg] at he
            dsimp only at he
            rw [← hadv2] at he
            exact Or.inl he
    · -- carve out of a free node
      rcases r with ⟨a, bufN, flN⟩
      rw [hap] at hmk
      dsimp only at hmk
      injection hmk with hmk2
      injection hmk2 with hn hpg
      have hreq1 : 1 ≤ blocks_required_for_size size + ALLOCATION_HEAD_BLOCK_COUNT := by
        simp only [ALLOCATION_HEAD_BLOCK_COUNT]
        omega
      have hspec := ap_alloc_spec page.freelist.length page.buf page.freelist
        (blocks_required_for_size size + ALLOCATION_HEAD_BLOCK_COUNT) 0 a bufN flN
        hreq1 hreqU hap
      obtain ⟨hmem, hcap, hshrink, hfid0, hfoot, hflmem⟩ := hspec
      subst hn
      refine ⟨by rw [← hpg], ?_, ?_, ?_, ?_, ?_⟩
      · rw [← hpg]
        dsimp only
        simp only [ALLOCATION_HEAD_BLOCK_COUNT] at hcap
        omega
      · rw [← hpg]
        exact hfid0
      · intro j hj hjh
        rw [← hpg]
        dsimp only
        refine hfoot j (fun e he => span_ne (hj e he)) ?_
        exact hj a hmem
      · left
        refine ⟨hmem, ?_, by rw [← hpg]⟩
        rw [← hpg]
        exact hshrink
      · intro e he
        rw [← hpg] at he
        dsimp only at he
        rw [← hpg]
        exact hflmem e he

theorem after_scan_buf_out {buf : Nat → Cell} {fl : List Nat} {a j : Nat}
    (hja : j ≠ a) : (aaj_after_scan buf fl a).1 j = buf j := by
  unfold aaj_after_scan
  by_cases h : getFid buf a = 0
  · rw [if_pos h]
    unfold allocation_array_append
    dsimp only
    exact setFid_apply_ne _ _ _ _ hja
  · rw [if_neg h]

theorem aaj_scan_buf_out : ∀ (fuel : Nat) (buf : Nat → Cell) (fl : List Nat)
    (a i j : Nat), (∀ e ∈ fl, j ≠ e) → j ≠ a →
    (aaj_scan buf fl a i fuel).1 j = buf j := by
  intro fuel
  induction fuel with
  | zero =>
    intro buf fl a i j hj hja
    exact after_scan_buf_out hja
  | succ fuel ih =>
    intro buf fl a i j hj hja
    unfold aaj_scan
    by_cases hi : i < fl.length
    · rw [dif_pos hi]
      dsimp only
      have hbef : fl.get ⟨i, hi⟩ ∈ fl := List.get_mem fl i hi
      by_cases hadj : allocation_next buf (fl.get ⟨i, hi⟩) = a
      · rw [if_pos hadj]
        by_cases hfid : getFid (setBc buf (fl.get ⟨i, hi⟩)
            (getBc buf (fl.get ⟨i, hi⟩) + getBc buf a + 1)) a ≠ 0
        · rw [if_pos hfid]
          rw [remove_buf_out (by
              intro hc
              rw [hc] at hi
              simp at hi) hj hja]
          exact setBc_apply_ne _ _ _ _ (hj _ hbef)
        · rw [if_neg hfid]
          exact setBc_apply_ne _ _ _ _ (hj _ hbef)
      · rw [if_neg hadj]
        exact ih buf fl a (i + 1) j hj hja
    · rw [dif_neg hi]
      exact after_scan_buf_out hja

theorem join_buf_out {buf : Nat → Cell} {fl : List Nat} {a j : Nat}
    (hj : ∀ e ∈ fl, j ≠ e) (hja : j ≠ a) :
    (allocation_array_join_allocation buf fl a).1 j = buf j := by
  unfold allocation_array_join_allocation
  dsimp only
  by_cases hc : allocation_array_contains buf fl (allocation_next buf a) = true
  · rw [if_pos hc]
    rw [aaj_scan_buf_out (fl.length + 1) _ _ a 0 j (by
        intro e he
        rcases List.mem_or_eq_of_mem_set he with h | h
        · exact hj e h
        · rw [h]
          exact hja) hja]
    rw [setBc_apply_ne _ _ _ _ hja, setFid_apply_ne _ _ _ _ hja]
  · rw [if_neg hc]
    exact aaj_scan_buf_out (fl.length + 1) buf fl a 0 j hj hja

theorem free_buf_out {page : ArenaPage} {x j : Nat}
    (hj : ∀ e ∈ page.freelist, j ≠ e) (hjx : j ≠ x) :
    (arena_page_free_allocation page x).buf j = page.buf j := by
  unfold arena_page_free_allocation
  by_cases h : allocation_next page.buf x = page.headIdx
  · rw [if_pos h]
  · rw [if_neg h]
    dsimp only
    exact join_buf_out hj hjx

theorem live_payload_ne {buf : Nat → Cell} {fl : List Nat} {a j : Nat}
    (hlive : ∀ e ∈ fl, allocation_next buf e ≤ a ∨ allocation_next buf a ≤ e)
    (hj1 : a < j) (hj2 : j < allocation_next buf a) : ∀ e ∈ fl, j ≠ e := by
  intro e he
  rcases hlive e he with h | h
  · have : e < allocation_next buf e := by
      unfold allocation_next
      simp only [ALLOCATION_HEAD_BLOCK_COUNT]
      omega
    omega
  · omega

/-- A successful in-place resize never touches the first
`min(old block count, required blocks)` payload cells. -/
theorem inplace_payload_spec {page : ArenaPage} {a size : Nat} {page2 : ArenaPage}
    (hreqU : blocks_required_for_size size < U32)
    (hlive : ∀ e ∈ page.freelist,
      allocation_next page.buf e ≤ a ∨ allocation_next page.buf a ≤ e)
    (hip : arena_page_try_reallocating_in_place page a size = some page2) :
    ∀ k, k < min (getBc page.buf a) (blocks_required_for_size size) →
      page2.buf (a + 1 + k) = page.buf (a + 1 + k) := by
  intro k hk
  have hnexta : allocation_next page.buf a = a + 1 + getBc page.buf a := by
    unfold allocation_next
    simp only [ALLOCATION_HEAD_BLOCK_COUNT]
  have hkbc : k < getBc page.buf a := by omega
  have hjmem : ∀ e ∈ page.freelist, a + 1 + k ≠ e :=
    live_payload_ne hlive (by omega) (by omega)
  unfold arena_page_try_reallocating_in_place at hip
  dsimp only at hip
  by_cases hshr : getBc page.buf a
      ≥ blocks_required_for_size size + MIN_BLOCKS_REQUIRED_FOR_ALLOCATION
  · rw [if_pos hshr] at hip
    have hkreq : k < blocks_required_for_size size := by
      simp only [MIN_BLOCKS_REQUIRED_FOR_ALLOCATION] at hshr
      omega
    by_cases hhead : allocation_next page.buf a = page.headIdx
    · rw [if_pos hhead] at hip
      injection hip with hip2
      rw [← hip2]
      dsimp only
      exact setBc_apply_ne _ _ _ _ (by omega)
    · rw [if_neg hhead] at hip
      injection hip with hip2
      rw [← hip2]
      dsimp only
      have hrem : allocation_next (setBc page.buf a (blocks_required_for_size size)) a
          = a + 1 + blocks_required_for_size size := by
        unfold allocation_next
        rw [getBc_setBc_self]
        simp only [ALLOCATION_HEAD_BLOCK_COUNT, U32] at hreqU ⊢
        omega
      rw [hrem]
      rw [join_buf_out hjmem (by omega)]
      rw [setFid_apply_ne _ _ _ _ (by omega), setBc_apply_ne _ _ _ _ (by omega),
        setBc_apply_ne _ _ _ _ (by omega)]
  · rw [if_neg hshr] at hip
    by_cases hgrow : getBc page.buf a < blocks_required_for_size size
    · rw [if_pos hgrow] at hip
      by_cases hhead : allocation_next page.buf a = page.headIdx
      · rw [if_pos hhead] at hip
        cases hadv : arena_page_try_advancing_head page
            (blocks_required_for_size size - getBc page.buf a) with
        | none =>
          rw [hadv] at hip
          exact absurd hip (by simp)
        | some pageA =>
          rw [hadv] at hip
          dsimp only at hip
          injection hip with hip2
          rw [← hip2]
          dsimp only
          unfold arena_page_try_advancing_head at hadv
          by_cases hov : page.headIdx
              + (blocks_required_for_size size - getBc page.buf a) > page.endIdx
          · rw [if_pos hov] at hadv
            exact absurd hadv (by simp)
          · rw [if_neg hov] at hadv
            injection hadv with hadv2
            rw [← hadv2]
            dsimp only
            exact setBc_apply_ne _ _ _ _ (by omega)
      · rw [if_neg hhead] at hip
        by_cases hcon : allocation_array_contains page.buf page.freelist
            (allocation_next page.buf a) = true
        · rw [if_pos hcon] at hip
          rcases htk : allocation_array_try_to_take_blocks_from_member page.buf
              page.freelist (allocation_next page.buf a)
              (blocks_required_for_size size - getBc page.buf a)
            with ⟨cnt, bufX, flX⟩
          rw [htk] at hip
          cases cnt with
          | zero => exact absurd hip (by simp)
          | succ cnt2 =>
            injection hip with hip2
            rw [← hip2]
            dsimp only
            have hflne : page.freelist ≠ [] := by
              rw [contains_iff] at hcon
              intro hc
              rw [hc] at hcon
              simp at hcon
              omega
            have hfoot : bufX (a + 1 + k) = page.buf (a + 1 + k) := by
              have := @take_buf_out page.buf page.freelist
                (allocation_next page.buf a)
                (blocks_required_for_size size - getBc page.buf a)
                (a + 1 + k)
                (by omega) (by simp only [U32] at hreqU ⊢; omega) hflne hjmem
                (Or.inl (by omega))
              rw [htk] at this
              exact this
            rw [setBc_apply_ne _ _ _ _ (by omega)]
            exact hfoot
        · rw [if_neg hcon] at hip
          exact absurd hip (by simp)
    · rw [if_neg hgrow] at hip
      injection hip with hip2
      rw [← hip2]

theorem lt_next (buf : Nat → Cell) (e : Nat) : e < allocation_next buf e := by
  unfold allocation_next
  simp only [ALLOCATION_HEAD_BLOCK_COUNT]
  omega

/-- The consequences of carving a fresh allocation next to a live one:
the live allocation's header and payload are untouched, the fresh span
does not overlap the live span, and no entry of the new freelist (nor
the live header) lies strictly inside the fresh span. -/
theorem relocate_core {page : ArenaPage} {size nidx : Nat} {pageM : ArenaPage} {a : Nat}
    (hreqU : blocks_required_for_size size + ALLOCATION_HEAD_BLOCK_COUNT < U32)
    (hwf : PageWF page) (hlive : LiveAt page a)
    (hmk : arena_page_make_allocation page size = some (nidx, pageM)) :
    (∀ k, k < getBc page.buf a → pageM.buf (a + 1 + k) = page.buf (a + 1 + k)) ∧
    getBc pageM.buf a = getBc page.buf a ∧
    blocks_required_for_size size ≤ getBc pageM.buf nidx ∧
    (nidx + 1 + min (getBc pageM.buf a) (getBc pageM.buf nidx) ≤ a + 1
      ∨ a + 1 + min (getBc pageM.buf a) (getBc pageM.buf nidx) ≤ nidx + 1) ∧
    (∀ j, nidx < j → j < allocation_next pageM.buf nidx →
      (∀ e ∈ pageM.freelist, j ≠ e) ∧ j ≠ a) := by
  obtain ⟨hhe, hfb, hdisj⟩ := hwf
  obtain ⟨hla, hld⟩ := hlive
  obtain ⟨hend, hbcge, hfid0, hfoot, hloc, hflm⟩ := make_success_spec hreqU hmk
  have hna : allocation_next page.buf a = a + 1 + getBc page.buf a := by
    unfold allocation_next
    simp only [ALLOCATION_HEAD_BLOCK_COUNT]
  have hahead : a < page.headIdx := by
    have := lt_next page.buf a
    omega
  have hcondA : ∀ e ∈ page.freelist, a < e ∨ allocation_next page.buf e ≤ a := by
    intro e he
    rcases hld e he with h | h
    · exact Or.inr h
    · left
      have := lt_next page.buf a
      omega
  have d1 : pageM.buf a = page.buf a := by
    refine hfoot a ?_ hahead
    intro e he
    rcases hcondA e he with h | h
    · exact Or.inl h
    · exact Or.inr h
  have d3 : getBc pageM.buf a = getBc page.buf a := by
    unfold getBc
    rw [d1]
  have d2 : ∀ k, k < getBc page.buf a →
      pageM.buf (a + 1 + k) = page.buf (a + 1 + k) := by
    intro k hk
    refine hfoot (a + 1 + k) ?_ (by omega)
    intro e he
    rcases hld e he with h | h
    · right
      omega
    · left
      omega
  have hnn : allocation_next pageM.buf nidx = nidx + 1 + getBc pageM.buf nidx := by
    unfold allocation_next
    simp only [ALLOCATION_HEAD_BLOCK_COUNT]
  refine ⟨d2, d3, hbcge, ?_, ?_⟩
  · -- span disjointness
    rcases hloc with ⟨hmemn, hshr, hheq⟩ | ⟨hnh, hMh, hMe⟩
    · have hnold : allocation_next page.buf nidx = nidx + 1 + getBc page.buf nidx := by
        unfold allocation_next
        simp only [ALLOCATION_HEAD_BLOCK_COUNT]
      rcases hld nidx hmemn with h | h
      · left
        omega
      · right
        omega
    · right
      omega
  · intro j hj1 hj2
    have hjne : j ≠ a := by
      rcases hloc with ⟨hmemn, hshr, hheq⟩ | ⟨hnh, hMh, hMe⟩
      · have hnold : allocation_next page.buf nidx = nidx + 1 + getBc page.buf nidx := by
          unfold allocation_next
          simp only [ALLOCATION_HEAD_BLOCK_COUNT]
        rcases hld nidx hmemn with h | h
        · omega
        · omega
      · omega
    refine ⟨?_, hjne⟩
    intro e he
    rcases hflm e he with hold | hnew
    · rcases hloc with ⟨hmemn, hshr, hheq⟩ | ⟨hnh, hMh, hMe⟩
      · by_cases hen : e = nidx
        · omega
        · have hnold : allocation_next page.buf nidx = nidx + 1 + getBc page.buf nidx := by
            unfold allocation_next
            simp only [ALLOCATION_HEAD_BLOCK_COUNT]
          rcases hdisj e hold nidx hmemn hen with h | h
          · have := lt_next page.buf e
            omega
          · omega
      · have := hfb e hold
        have := lt_next page.buf e
        omega
    · omega

/-- `static_arena_realloc` success preserves the first
`min(old block count, required blocks)` payload cells of the original
allocation, read back at the returned block index. -/
theorem static_realloc_spec {page : ArenaPage} {a size nidx : Nat} {page2 : ArenaPage}
    (hreqU : blocks_required_for_size size + ALLOCATION_HEAD_BLOCK_COUNT < U32)
    (hwf : PageWF page) (hlive : LiveAt page a)
    (hr : static_arena_realloc page a size = (some nidx, page2)) :
    ∀ k, k < min (getBc page.buf a) (blocks_required_for_size size) →
      page2.buf (nidx + 1 + k) = page.buf (a + 1 + k) := by
  intro k hk
  unfold static_arena_realloc at hr
  cases hip : arena_page_try_reallocating_in_place page a size with
  | some pageI =>
    rw [hip] at hr
    dsimp only at hr
    injection hr with hn hpg
    injection hn with hn2
    rw [← hpg, ← hn2]
    exact inplace_payload_spec (by
      simp only [ALLOCATION_HEAD_BLOCK_COUNT, U32] at hreqU ⊢
      omega) hlive.2 hip k hk
  | none =>
    rw [hip] at hr
    dsimp only at hr
    cases hmk : arena_page_make_allocation page size with
    | none =>
      rw [hmk] at hr
      exact absurd hr (by simp)
    | some r =>
      rcases r with ⟨nidxM, pageM⟩
      rw [hmk] at hr
      dsimp only at hr
      injection hr with hn hpg
      injection hn with hn2
      obtain ⟨d2, d3, dge, ddisj, dfree⟩ := relocate_core hreqU hwf hlive hmk
      have hks : k < min (getBc pageM.buf a) (getBc pageM.buf nidxM) := by
        omega
      have hjlt : nidxM + 1 + k < allocation_next pageM.buf nidxM := by
        unfold allocation_next
        simp only [ALLOCATION_HEAD_BLOCK_COUNT]
        omega
      have hfree := dfree (nidxM + 1 + k) (by omega) hjlt
      rw [← hn2, ← hpg]
      have hfb2 : (arena_page_free_allocation
          { buf := copyCells pageM.buf (a + 1) (nidxM + 1)
              (min (getBc pageM.buf a) (getBc pageM.buf nidxM)),
            headIdx := pageM.headIdx, endIdx := pageM.endIdx,
            freelist := pageM.freelist } a).buf (nidxM + 1 + k)
          = copyCells pageM.buf (a + 1) (nidxM + 1)
              (min (getBc pageM.buf a) (getBc pageM.buf nidxM)) (nidxM + 1 + k) :=
        free_buf_out hfree.1 hfree.2
      rw [hfb2, copyCells_copy _ pageM.buf (a + 1) (nidxM + 1) ddisj k hks]
      exact d2 k (by omega)

/-! ### The growing arena: page-vector lemmas -/

theorem arr_size_setD {α : Type} (a : Array α) (i : Nat) (v : α) :
    (a.setD i v).size = a.size := by
  unfold Array.setD
  split <;> simp

theorem arr_getD_setD_self {α : Type} {a : Array α} {i : Nat} (v d : α)
    (h : i < a.size) : (a.setD i v).getD i d = v := by
  unfold Array.setD
  rw [dif_pos h]
  unfold Array.getD
  rw [dif_pos (by simp [Array.size_set]; omega)]
  simp [Array.getElem_set]

theorem arr_getD_setD_ne {α : Type} {a : Array α} {i q : Nat} (v d : α)
    (hne : q ≠ i) : (a.setD i v).getD q d = a.getD q d := by
  unfold Array.setD
  split
  · unfold Array.getD
    by_cases hq : q < a.size
    · rw [dif_pos (by simp [Array.size_set]; omega), dif_pos hq]
      simp [Array.getElem_set]
      omega
    · rw [dif_neg (by simp [Array.size_set]; omega), dif_neg (by omega)]
  · rfl

theorem arr_getD_set_self {α : Type} {a : Array α} {i : Nat} {h : i < a.size}
    (v d : α) : (a.set ⟨i, h⟩ v).getD i d = v := by
  unfold Array.getD
  rw [dif_pos (by simp [Array.size_set]; omega)]
  simp [Array.getElem_set]

theorem arr_getD_set_ne {α : Type} {a : Array α} {i : Nat} {h : i < a.size}
    {q : Nat} (v d : α) (hne : q ≠ i) :
    (a.set ⟨i, h⟩ v).getD q d = a.getD q d := by
  unfold Array.getD
  by_cases hq : q < a.size
  · rw [dif_pos (by simp [Array.size_set]; omega), dif_pos hq]
    simp [Array.getElem_set]
    omega
  · rw [dif_neg (by simp [Array.size_set]; omega), dif_neg (by omega)]

theorem arr_getD_push_self {α : Type} (a : Array α) (x : α) (d : α) :
    (a.push x).getD a.size d = x := by
  unfold Array.getD
  rw [dif_pos (by simp)]
  simp

/-- A successful page-loop run of `arena_malloc`: the allocation comes
from an existing page via `arena_page_make_allocation`, and every other
page is untouched. -/
theorem arena_malloc_pages_spec : ∀ (fuel i : Nat) {ar : Arena} {size npg nidx : Nat}
    {arM : Arena},
    arena_malloc_pages ar size i fuel = some ((npg, nidx), arM) →
    npg < ar.pages.size ∧
    arena_page_make_allocation (ar.pages.getD npg dummyPage) size
      = some (nidx, arM.pages.getD npg dummyPage) ∧
    (∀ q, q ≠ npg → arM.pages.getD q dummyPage = ar.pages.getD q dummyPage) ∧
    arM.pages.size = ar.pages.size := by
  intro fuel
  induction fuel with
  | zero =>
    intro i ar size npg nidx arM hw
    exact absurd hw (by simp [arena_malloc_pages])
  | succ fuel ih =>
    intro i ar size npg nidx arM hw
    unfold arena_malloc_pages at hw
    by_cases hi : i < ar.pages.size
    · rw [dif_pos hi] at hw
      cases hmk : arena_page_make_allocation (ar.pages.get ⟨i, hi⟩) size with
      | none =>
        rw [hmk] at hw
        dsimp only at hw
        exact ih (i + 1) hw
      | some r =>
        rcases r with ⟨idx2, pg2⟩
        rw [hmk] at hw
        dsimp only at hw
        injection hw with hw0
        injection hw0 with hw1 hw2
        injection hw1 with hnpg hnidx
        have hget : ar.pages.getD i dummyPage = ar.pages.get ⟨i, hi⟩ := by
          unfold Array.getD
          rw [dif_pos hi]
        refine ⟨by omega, ?_, ?_, ?_⟩
        · rw [← hnpg, hget, hmk, ← hw2]
          dsimp only
          rw [arr_getD_set_self, hnidx]
        · intro q hq
          rw [← hw2]
          dsimp only
          rw [arr_getD_set_ne]
          rw [← hnpg] at hq
          exact hq
        · rw [← hw2]
          simp [Array.size_set]
    · rw [dif_neg hi] at hw
      exact absurd hw (by simp)

/-- A successful `arena_malloc`: the allocation was made by
`arena_page_make_allocation` either on an existing page or on a fresh
page appended at index `pages.size`; all other pages are untouched. -/
theorem arena_malloc_success_spec {ar : Arena} {size npg nidx : Nat} {arM : Arena}
    (hm : arena_malloc ar size = (some (npg, nidx), arM)) :
    (∀ q, q < ar.pages.size → q ≠ npg →
      arM.pages.getD q dummyPage = ar.pages.getD q dummyPage) ∧
    npg < arM.pages.size ∧
    (∃ pageOld, arena_page_make_allocation pageOld size
        = some (nidx, arM.pages.getD npg dummyPage) ∧
      (npg = ar.pages.size ∨
        (npg < ar.pages.size ∧ pageOld = ar.pages.getD npg dummyPage))) := by
  unfold arena_malloc at hm
  by_cases hs : size > ar.page_size
  · rw [if_pos hs] at hm
    exact absurd hm (by simp)
  · rw [if_neg hs] at hm
    cases hw : arena_malloc_pages ar size 0 ar.pages.size with
    | some r =>
      rcases r with ⟨loc, arW⟩
      rcases loc with ⟨npgW, nidxW⟩
      rw [hw] at hm
      dsimp only at hm
      injection hm with hm1 hm2
      injection hm1 with hm3
      injection hm3 with hnpg hnidx
      obtain ⟨h1, h2, h3, h4⟩ := arena_malloc_pages_spec ar.pages.size 0 hw
      subst hm2
      refine ⟨fun q hq hqn => h3 q (by omega), by omega, ?_⟩
      refine ⟨ar.pages.getD npg dummyPage, ?_, Or.inr ⟨by omega, rfl⟩⟩
      rw [hnpg, hnidx] at h2
      exact h2
    | none =>
      rw [hw] at hm
      dsimp only at hm
      cases hc : arena_page_create_from_memory (fun _ => Cell.zero) (ar.page_size / 8) with
      | none =>
        rw [hc] at hm
        exact absurd hm (by simp)
      | some fresh =>
        rw [hc] at hm
        dsimp only at hm
        cases hmk : arena_page_make_allocation fresh size with
        | none =>
          rw [hmk] at hm
          exact absurd hm (by simp)
        | some r2 =>
          rcases r2 with ⟨idx2, fresh2⟩
          rw [hmk] at hm
          dsimp only at hm
          injection hm with hm1 hm2
          injection hm1 with hm3
          injection hm3 with hnpg hnidx
          refine ⟨?_, ?_, ?_⟩
          · intro q hq hqn
            rw [← hm2]
            dsimp only
            exact arr_getD_push hq dummyPage
          · rw [← hm2, ← hnpg]
            simp
          · refine ⟨fresh, ?_, Or.inl hnpg.symm⟩
            rw [← hnidx, hmk, ← hm2, ← hnpg]
            dsimp only
            rw [arr_getD_push_self]

theorem acc_step_eq (ar : Arena) (spg src dpg dst n : Nat) :
    arena_copy_cells ar spg src dpg dst (n + 1)
      = arena_copy_cells (acc_step ar spg src dpg dst) spg (src + 1) dpg (dst + 1) n := rfl

theorem acc_step_size (ar : Arena) (spg src dpg dst : Nat) :
    (acc_step ar spg src dpg dst).pages.size = ar.pages.size := by
  unfold acc_step
  dsimp only
  exact arr_size_setD _ _ _

theorem acc_step_getD_ne {ar : Arena} {spg src dpg dst q : Nat} (hq : q ≠ dpg) :
    (acc_step ar spg src dpg dst).pages.getD q dummyPage = ar.pages.getD q dummyPage := by
  unfold acc_step
  dsimp only
  exact arr_getD_setD_ne _ _ hq

theorem acc_step_getD_self {ar : Arena} {spg src dpg dst : Nat}
    (hlt : dpg < ar.pages.size) :
    ((acc_step ar spg src dpg dst).pages.getD dpg dummyPage).buf
        = setCell (ar.pages.getD dpg dummyPage).buf dst
          ((ar.pages.getD spg dummyPage).buf src) ∧
    ((acc_step ar spg src dpg dst).pages.getD dpg dummyPage).headIdx
        = (ar.pages.getD dpg dummyPage).headIdx ∧
    ((acc_step ar spg src dpg dst).pages.getD dpg dummyPage).endIdx
        = (ar.pages.getD dpg dummyPage).endIdx ∧
    ((acc_step ar spg src dpg dst).pages.getD dpg dummyPage).freelist
        = (ar.pages.getD dpg dummyPage).freelist := by
  unfold acc_step
  dsimp only
  rw [arr_getD_setD_self _ _ hlt]
  exact ⟨rfl, rfl, rfl, rfl⟩

theorem arena_copy_cross : ∀ (n : Nat) (ar : Arena) (spg src dpg dst : Nat),
    spg ≠ dpg → dpg < ar.pages.size →
    (arena_copy_cells ar spg src dpg dst n).pages.size = ar.pages.size ∧
    (∀ q, q ≠ dpg → (arena_copy_cells ar spg src dpg dst n).pages.getD q dummyPage
      = ar.pages.getD q dummyPage) ∧
    (∀ k, k < n →
      ((arena_copy_cells ar spg src dpg dst n).pages.getD dpg dummyPage).buf (dst + k)
        = (ar.pages.getD spg dummyPage).buf (src + k)) ∧
    (∀ j, j < dst ∨ dst + n ≤ j →
      ((arena_copy_cells ar spg src dpg dst n).pages.getD dpg dummyPage).buf j
        = (ar.pages.getD dpg dummyPage).buf j) := by
  intro n
  induction n with
  | zero =>
    intro ar spg src dpg dst hne hlt
    exact ⟨rfl, fun q hq => rfl, fun k hk => absurd hk (by omega), fun j hj => rfl⟩
  | succ n ih =>
    intro ar spg src dpg dst hne hlt
    have hlt2 : dpg < (acc_step ar spg src dpg dst).pages.size := by
      rw [acc_step_size]
      exact hlt
    obtain ⟨ihsz, ihq, ihcp, ihout⟩ := ih (acc_step ar spg src dpg dst) spg (src + 1)
      dpg (dst + 1) hne hlt2
    obtain ⟨hgb, hgh, hge, hgf⟩ := @acc_step_getD_self ar spg src dpg dst hlt
    refine ⟨?_, ?_, ?_, ?_⟩
    · rw [acc_step_eq, ihsz, acc_step_size]
    · intro q hq
      rw [acc_step_eq, ihq q hq, acc_step_getD_ne hq]
    · intro k hk
      rcases Nat.eq_zero_or_pos k with rfl | hkpos
      · rw [acc_step_eq]
        simp only [Nat.add_zero]
        rw [ihout dst (by omega), hgb, setCell_self]
      · obtain ⟨k2, rfl⟩ : ∃ k2, k = k2 + 1 := ⟨k - 1, by omega⟩
        rw [acc_step_eq, show dst + (k2 + 1) = dst + 1 + k2 by omega, ihcp k2 (by omega),
          acc_step_getD_ne hne, show src + 1 + k2 = src + (k2 + 1) by omega]
    · intro j hj
      rw [acc_step_eq, ihout j (by omega), hgb, setCell_ne _ _ _ _ (by omega)]

theorem arena_copy_same : ∀ (n : Nat) (ar : Arena) (pg src dst : Nat),
    pg < ar.pages.size →
    (arena_copy_cells ar pg src pg dst n).pages.size = ar.pages.size ∧
    (∀ q, q ≠ pg → (arena_copy_cells ar pg src pg dst n).pages.getD q dummyPage
      = ar.pages.getD q dummyPage) ∧
    ((arena_copy_cells ar pg src pg dst n).pages.getD pg dummyPage).buf
      = copyCells (ar.pages.getD pg dummyPage).buf src dst n ∧
    ((arena_copy_cells ar pg src pg dst n).pages.getD pg dummyPage).headIdx
      = (ar.pages.getD pg dummyPage).headIdx ∧
    ((arena_copy_cells ar pg src pg dst n).pages.getD pg dummyPage).endIdx
      = (ar.pages.getD pg dummyPage).endIdx ∧
    ((arena_copy_cells ar pg src pg dst n).pages.getD pg dummyPage).freelist
      = (ar.pages.getD pg dummyPage).freelist := by
  intro n
  induction n with
  | zero =>
    intro ar pg src dst hlt
    exact ⟨rfl, fun q hq => rfl, rfl, rfl, rfl, rfl⟩
  | succ n ih =>
    intro ar pg src dst hlt
    have hlt2 : pg < (acc_step ar pg src pg dst).pages.size := by
      rw [acc_step_size]
      exact hlt
    obtain ⟨ihsz, ihq, ihb, ihh, ihe, ihf⟩ := ih (acc_step ar pg src pg dst) pg (src + 1)
      (dst + 1) hlt2
    obtain ⟨hgb, hgh, hge, hgf⟩ := @acc_step_getD_self ar pg src pg dst hlt
    refine ⟨?_, ?_, ?_, ?_, ?_, ?_⟩
    · rw [acc_step_eq, ihsz, acc_step_size]
    · intro q hq
      rw [acc_step_eq, ihq q hq, acc_step_getD_ne hq]
    · rw [acc_step_eq, ihb, hgb]
      exact rfl
    · rw [acc_step_eq, ihh, hgh]
    · rw [acc_step_eq, ihe, hge]
    · rw [acc_step_eq, ihf, hgf]

theorem find_page_eq : ∀ (fuel i : Nat) {ar : Arena} {pg idx opi : Nat},
    arena_find_owning_page ar pg idx i fuel = some opi →
    opi = pg ∧ opi < ar.pages.size := by
  intro fuel
  induction fuel with
  | zero =>
    intro i ar pg idx opi hf
    exact absurd hf (by simp [arena_find_owning_page])
  | succ fuel ih =>
    intro i ar pg idx opi hf
    unfold arena_find_owning_page at hf
    by_cases hi : i < ar.pages.size
    · rw [dif_pos hi] at hf
      by_cases hc : pg = i ∧ arena_page_contains_allocation (ar.pages.get ⟨i, hi⟩) idx
      · rw [if_pos hc] at hf
        injection hf with h
        constructor
        · omega
        · omega
      · rw [if_neg hc] at hf
        exact ih (i + 1) hf
    · rw [dif_neg hi] at hf
      exact absurd hf (by simp)

theorem find_page_from : ∀ (fuel i : Nat) {ar : Arena} {pg idx : Nat},
    i ≤ pg → pg < ar.pages.size → pg < i + fuel →
    arena_page_contains_allocation (ar.pages.getD pg dummyPage) idx = true →
    arena_find_owning_page ar pg idx i fuel = some pg := by
  intro fuel
  induction fuel with
  | zero =>
    intro i ar pg idx h1 h2 h3 hcon
    omega
  | succ fuel ih =>
    intro i ar pg idx h1 h2 h3 hcon
    unfold arena_find_owning_page
    rw [dif_pos (by omega)]
    by_cases hieq : pg = i
    · rw [if_pos ⟨hieq, by
        subst hieq
        unfold Array.getD at hcon
        rw [dif_pos h2] at hcon
        exact hcon⟩]
      rw [hieq]
    · rw [if_neg (by tauto)]
      exact ih (i + 1) (by omega) h2 (by omega) hcon

theorem find_page_some {ar : Arena} {pg idx : Nat} (hpg : pg < ar.pages.size)
    (hcon : arena_page_contains_allocation (ar.pages.getD pg dummyPage) idx = true) :
    arena_find_owning_page ar pg idx 0 ar.pages.size = some pg :=
  find_page_from ar.pages.size 0 (by omega) hpg (by omega) hcon

/-- `arena_realloc` success preserves the first
`min(old block count, required blocks)` payload cells of the original
allocation, read back at the returned page and block index. -/
theorem arena_realloc_spec {ar : Arena} {pg idx size npg nidx : Nat} {ar2 : Arena}
    (hreqU : blocks_required_for_size size + ALLOCATION_HEAD_BLOCK_COUNT < U32)
    (hwf : PageWF (ar.pages.getD pg dummyPage))
    (hlive : LiveAt (ar.pages.getD pg dummyPage) idx)
    (hr : arena_realloc ar pg idx size = (some (npg, nidx), ar2)) :
    ∀ k, k < min (getBc (ar.pages.getD pg dummyPage).buf idx)
        (blocks_required_for_size size) →
      (ar2.pages.getD npg dummyPage).buf (nidx + 1 + k)
        = (ar.pages.getD pg dummyPage).buf (idx + 1 + k) := by
  unfold arena_realloc at hr
  by_cases hs : size > ar.page_size
  · rw [if_pos hs] at hr
    exact absurd hr (by simp)
  · rw [if_neg hs] at hr
    cases hf : arena_find_owning_page ar pg idx 0 ar.pages.size with
    | none =>
      rw [hf] at hr
      exact absurd hr (by simp)
    | some opi =>
      rw [hf] at hr
      dsimp only at hr
      obtain ⟨hopi, hoplt⟩ := find_page_eq ar.pages.size 0 hf
      subst hopi
      cases hip : arena_page_try_reallocating_in_place (ar.pages.getD opi dummyPage)
          idx size with
      | some pageI =>
        rw [hip] at hr
        dsimp only at hr
        injection hr with h1 h2
        injection h1 with h1b
        injection h1b with hnp hni
        intro k hk
        rw [← hnp, ← hni, ← h2]
        dsimp only
        rw [arr_getD_setD_self _ _ hoplt]
        exact inplace_payload_spec (by
          simp only [ALLOCATION_HEAD_BLOCK_COUNT, U32] at hreqU ⊢
          omega) hlive.2 hip k hk
      | none =>
        rw [hip] at hr
        dsimp only at hr
        rcases hm : arena_malloc ar size with ⟨m1, arM⟩
        rw [hm] at hr
        dsimp only at hr
        cases m1 with
        | none => exact absurd hr (by simp)
        | some loc =>
          rcases loc with ⟨npgM, nidxM⟩
          dsimp only at hr
          injection hr with h1 h2
          injection h1 with h1b
          injection h1b with hnp hni
          obtain ⟨hA, hBlt, pageOld, hmkO, hcase⟩ := arena_malloc_success_spec hm
          by_cases hsame : npgM = opi
          · -- reallocation landed in the owning page
            rcases hcase with hfr | ⟨hlt2, hpgold⟩
            · exact absurd hfr (by omega)
            · rw [hpgold, hsame] at hmkO
              rw [hsame] at hBlt hnp h2
              obtain ⟨d2, d3, dge, ddisj, dfree⟩ := relocate_core hreqU hwf hlive hmkO
              intro k hk
              obtain ⟨csz, cq, cb, chh, che, cf⟩ := arena_copy_same
                (min (getBc ((arM.pages.getD opi dummyPage)).buf idx)
                  (getBc ((arM.pages.getD opi dummyPage)).buf nidxM))
                arM opi (idx + 1) (nidxM + 1) hBlt
              have hks : k < min (getBc ((arM.pages.getD opi dummyPage)).buf idx)
                  (getBc ((arM.pages.getD opi dummyPage)).buf nidxM) := by
                omega
              have hjlt : nidxM + 1 + k
                  < allocation_next (arM.pages.getD opi dummyPage).buf nidxM := by
                unfold allocation_next
                simp only [ALLOCATION_HEAD_BLOCK_COUNT]
                omega
              have hfree := dfree (nidxM + 1 + k) (by omega) hjlt
              rw [← hnp, ← hni, ← h2]
              dsimp only
              rw [arr_getD_setD_self _ _ (by rw [csz]; exact hBlt)]
              rw [free_buf_out (by rw [cf]; exact hfree.1) hfree.2]
              rw [cb, copyCells_copy _ _ (idx + 1) (nidxM + 1) ddisj k hks]
              exact d2 k (by omega)
          · -- reallocation landed in another (possibly fresh) page
            have hnepg : opi ≠ npgM := fun hc => hsame hc.symm
            have hApg : arM.pages.getD opi dummyPage = ar.pages.getD opi dummyPage :=
              hA opi hoplt hnepg
            have hbcge : blocks_required_for_size size
                ≤ getBc (arM.pages.getD npgM dummyPage).buf nidxM :=
              (make_success_spec hreqU hmkO).2.1
            intro k hk
            obtain ⟨csz, cq, ccp, cout⟩ := arena_copy_cross
              (min (getBc ((arM.pages.getD opi dummyPage)).buf idx)
                (getBc ((arM.pages.getD npgM dummyPage)).buf nidxM))
              arM opi (idx + 1) npgM (nidxM + 1) hnepg hBlt
            have he1 : getBc (arM.pages.getD opi dummyPage).buf idx
                = getBc (ar.pages.getD opi dummyPage).buf idx := by
              rw [hApg]
            have hks : k < min (getBc ((arM.pages.getD opi dummyPage)).buf idx)
                (getBc ((arM.pages.getD npgM dummyPage)).buf nidxM) := by
              omega
            rw [← hnp, ← hni, ← h2]
            dsimp only
            rw [arr_getD_setD_ne _ _ (fun hc => hnepg hc.symm)]
            rw [ccp k hks, hApg]


theorem arena_malloc_pages_none : ∀ (fuel i : Nat) {ar : Arena} {size : Nat},
    (∀ j (hj : j < ar.pages.size), i ≤ j →
      arena_page_make_allocation (ar.pages.get ⟨j, hj⟩) size = none) →
    arena_malloc_pages ar size i fuel = none := by
  intro fuel
  induction fuel with
  | zero => intro i ar size hj; rfl
  | succ fuel ih =>
    intro i ar size hj
    unfold arena_malloc_pages
    by_cases hi : i < ar.pages.size
    · rw [dif_pos hi]
      rw [hj i hi (Nat.le_refl i)]
      exact ih (i + 1) (fun j hj2 hij => hj j hj2 (by omega))
    · rw [dif_neg hi]

theorem arena_malloc_pages_none_elim : ∀ (fuel i : Nat) {ar : Arena} {size : Nat},
    arena_malloc_pages ar size i fuel = none →
    ∀ j (hj : j < ar.pages.size), i ≤ j → j < i + fuel →
      arena_page_make_allocation (ar.pages.get ⟨j, hj⟩) size = none := by
  intro fuel
  induction fuel with
  | zero =>
    intro i ar size hw j hj h1 h2
    omega
  | succ fuel ih =>
    intro i ar size hw j hj h1 h2
    unfold arena_malloc_pages at hw
    by_cases hi : i < ar.pages.size
    · rw [dif_pos hi] at hw
      cases hmk : arena_page_make_allocation (ar.pages.get ⟨i, hi⟩) size with
      | some r =>
        rw [hmk] at hw
        rcases r with ⟨idx2, pg2⟩
        exact absurd hw (by simp)
      | none =>
        rw [hmk] at hw
        dsimp only at hw
        by_cases hji : j = i
        · subst hji
          exact hmk
        · exact ih (i + 1) hw j hj (by omega) (by omega)
    · omega

/-- Once `arena_malloc` has failed, repeating the identical request on
the returned arena fails too: every old page still rejects it, and the
appended fresh page is exactly the page the first call already failed
on. -/
theorem arena_malloc_again {ar : Arena} {size : Nat} {ar2 : Arena}
    (hm : arena_malloc ar size = (none, ar2)) : (arena_malloc ar2 size).1 = none := by
  unfold arena_malloc at hm
  by_cases hs : size > ar.page_size
  · rw [if_pos hs] at hm
    injection hm with _ h2
    subst h2
    unfold arena_malloc
    rw [if_pos hs]
  · rw [if_neg hs] at hm
    cases hw : arena_malloc_pages ar size 0 ar.pages.size with
    | some r =>
      rw [hw] at hm
      rcases r with ⟨loc, arw⟩
      dsimp only at hm
      exact absurd hm (by simp)
    | none =>
      rw [hw] at hm
      dsimp only at hm
      cases hc : arena_page_create_from_memory (fun _ => Cell.zero) (ar.page_size / 8) with
      | none =>
        rw [hc] at hm
        dsimp only at hm
        injection hm with _ h2
        subst h2
        unfold arena_malloc
        rw [if_neg hs, hw]
        dsimp only
        rw [hc]
      | some fresh =>
        rw [hc] at hm
        dsimp only at hm
        cases hmk : arena_page_make_allocation fresh size with
        | some r2 =>
          rw [hmk] at hm
          rcases r2 with ⟨idx2, fresh2⟩
          dsimp only at hm
          exact absurd hm (by simp)
        | none =>
          rw [hmk] at hm
          dsimp only at hm
          injection hm with _ h2
          subst h2
          unfold arena_malloc
          dsimp only
          rw [if_neg hs]
          have hw2 : arena_malloc_pages
              { page_size := ar.page_size, pages := ar.pages.push fresh } size 0
              (ar.pages.push fresh).size = none := by
            refine arena_malloc_pages_none _ 0 ?_
            intro j hj hij
            dsimp only at hj ⊢
            by_cases hjs : j < ar.pages.size
            · have hg : (ar.pages.push fresh).get ⟨j, hj⟩ = ar.pages.get ⟨j, hjs⟩ :=
                Array.getElem_push_lt ar.pages fresh j hjs
              rw [hg]
              exact arena_malloc_pages_none_elim ar.pages.size 0 hw j hjs (by omega)
                (by omega)
            · have hjeq : j = ar.pages.size := by
                rw [Array.size_push] at hj
                omega
              have hg : (ar.pages.push fresh).get ⟨j, hj⟩ = fresh := by
                subst hjeq
                exact Array.getElem_push_eq ar.pages fresh
              rw [hg]
              exact hmk
          rw [hw2]
          dsimp only
          rw [hc]
          dsimp only
          rw [hmk]

/-! ### Resize at the router level -/

theorem blocks_lt_of_size {size : Nat} (hsz : size < 2 ^ 34) :
    blocks_required_for_size size + ALLOCATION_HEAD_BLOCK_COUNT < U32 := by
  unfold blocks_required_for_size
  simp only [U64, U32, ALLOCATION_HEAD_BLOCK_COUNT]
  omega

theorem byte_cell_lt {b bc size : Nat} (hsz : size < 2 ^ 34)
    (hb : b < min (bc * 8) size) :
    b / 8 < min bc (blocks_required_for_size size) := by
  unfold blocks_required_for_size
  simp only [U64]
  omega

theorem owns_static_pgp {st : AState} {x : Nat} {page : ArenaPage} {h2 pg idx : Nat}
    (hk : getHandle st x = HKind.hstaticArena page) :
    allocator_owns_memory st x (APtr.pgp h2 pg idx)
      = (decide (h2 = x ∧ pg = 0) && arena_page_contains_allocation page idx) := by
  unfold allocator_owns_memory
  rw [hk]

theorem pageOf_static {st : AState} {x : Nat} {page : ArenaPage}
    (hk : getHandle st x = HKind.hstaticArena page) : pageOf st x 0 = page := by
  unfold pageOf
  rw [hk]
  simp

theorem pageOf_arena {st : AState} {x : Nat} {ar : Arena}
    (hk : getHandle st x = HKind.harena ar) (pg : Nat) :
    pageOf st x pg = ar.pages.getD pg dummyPage := by
  unfold pageOf
  rw [hk]

theorem pageOf_set_self {st : AState} {x : Nat} {k : HKind}
    (hlt : x < st.handles.length) (pg : Nat) :
    pageOf (setHandle st x k) x pg =
      (match k with
        | HKind.hstaticArena page => if pg = 0 then page else dummyPage
        | HKind.harena ar => ar.pages.getD pg dummyPage
        | _ => dummyPage) := by
  unfold pageOf
  rw [getHandle_set, if_pos ⟨rfl, hlt⟩]

/-- `os_user_realloc` success: the pointer is returned unchanged and the
first `min(old payload, new size)` bytes read back as before. -/
theorem os_realloc_bytes {st : AState} {id size : Nat} {np : APtr} {st2 : AState}
    (hsz : size < 2 ^ 34)
    (hos : os_user_realloc st id size = (some np, st2)) :
    np = APtr.osp id ∧
    ∀ b, b < min (aptrBc st (APtr.osp id) * 8) size →
      readByte st2 (APtr.osp id) b = readByte st (APtr.osp id) b := by
  unfold os_user_realloc at hos
  cases ho : st.os id with
  | none =>
    rw [ho] at hos
    exact absurd hos (by simp)
  | some blk =>
    rw [ho] at hos
    dsimp only at hos
    by_cases hp : st.plan st.osCtr
    · rw [if_pos hp] at hos
      injection hos with h1 h2
      injection h1 with h1b
      refine ⟨h1b.symm, ?_⟩
      intro b hb
      have hbc : aptrBc st (APtr.osp id) = blk.hdr.bc % U32 := by
        unfold aptrBc aptrHdr
        dsimp only
        rw [ho]
      have hcell : b / 8 < min (blk.hdr.bc % U32) (blocks_required_for_size size) := by
        refine byte_cell_lt hsz ?_
        rw [hbc] at hb
        exact hb
      rw [← h2]
      unfold readByte payloadCell
      dsimp only
      rw [if_pos rfl, ho]
      dsimp only
      rw [if_pos hcell]
    · rw [if_neg hp] at hos
      exact absurd hos (by simp)

/-- The in-place / strategy-local phase of resize: when the owning
strategy's `realloc` succeeds, the returned pointer's first
`min(old payload, new size)` bytes equal the original payload bytes. -/
theorem strat_realloc_success_bytes {st : AState} {h size : Nat} {p np : APtr}
    {st2 : AState}
    (hsz : size < 2 ^ 34)
    (hmatch : ∀ h2 pg idx, p = APtr.pgp h2 pg idx → h2 = h)
    (hown : allocator_owns_memory st h p = true)
    (hwf : PtrWF st p)
    (hsr : strategy_realloc st h p size = (some np, st2)) :
    ∀ b, b < min (aptrBc st p * 8) size → readByte st2 np b = readByte st p b := by
  have hreqU := blocks_lt_of_size hsz
  unfold strategy_realloc at hsr
  cases hk : getHandle st h with
  | hdefault =>
    rw [hk] at hsr
    dsimp only at hsr
    cases p with
    | pgp a b c => exact absurd hsr (by simp)
    | osp id =>
      obtain ⟨hnp, hbytes⟩ := os_realloc_bytes hsz hsr
      rw [hnp]
      exact hbytes
  | hdefaultPlus led =>
    rw [hk] at hsr
    dsimp only at hsr
    cases p with
    | pgp a b c => exact absurd hsr (by simp)
    | osp id =>
      obtain ⟨hnp, hbytes⟩ := os_realloc_bytes hsz hsr
      rw [hnp]
      exact hbytes
  | hstaticArena page =>
    rw [hk] at hsr
    dsimp only at hsr
    cases p with
    | osp id => exact absurd hsr (by simp)
    | pgp h2 pg idx =>
      have hh2 : h2 = h := hmatch h2 pg idx rfl
      rw [owns_static_pgp hk] at hown
      simp only [Bool.and_eq_true, decide_eq_true_eq] at hown
      obtain ⟨⟨-, hpg0⟩, hcon⟩ := hown
      have hlt : h < st.handles.length :=
        getHandle_lt_length (by rw [hk]; intro hc; exact HKind.noConfusion hc)
      have hpage : pageOf st h2 pg = page := by
        rw [hh2, hpg0]
        exact pageOf_static hk
      dsimp only at hsr
      rcases hsr2 : static_arena_realloc page idx size with ⟨r1, page2⟩
      rw [hsr2] at hsr
      dsimp only at hsr
      cases r1 with
      | none =>
        dsimp only at hsr
        exact absurd hsr (by simp)
      | some nidx =>
        dsimp only at hsr
        injection hsr with h1 h2r
        injection h1 with h1b
        obtain ⟨hwp, hlv⟩ : PageWF (pageOf st h2 pg) ∧ LiveAt (pageOf st h2 pg) idx := hwf
        rw [hpage] at hwp hlv
        intro b hb
        have hbc : aptrBc st (APtr.pgp h2 pg idx) = getBc page.buf idx := by
          unfold aptrBc aptrHdr getBc
          dsimp only
          rw [hpage]
        have hcell : b / 8 < min (getBc page.buf idx) (blocks_required_for_size size) := by
          refine byte_cell_lt hsz ?_
          rw [hbc] at hb
          exact hb
        have hspec := static_realloc_spec hreqU hwp hlv (by rw [hsr2]) (b / 8) hcell
        rw [← h1b, ← h2r]
        unfold readByte payloadCell
        dsimp only
        rw [pageOf_set_self hlt 0]
        dsimp only
        rw [if_pos rfl]
        rw [hpage, hspec]
  | harena ar =>
    rw [hk] at hsr
    dsimp only at hsr
    cases p with
    | osp id => exact absurd hsr (by simp)
    | pgp h2 pg idx =>
      have hh2 : h2 = h := hmatch h2 pg idx rfl
      have hlt : h < st.handles.length :=
        getHandle_lt_length (by rw [hk]; intro hc; exact HKind.noConfusion hc)
      have hpage : pageOf st h2 pg = ar.pages.getD pg dummyPage := by
        rw [hh2]
        exact pageOf_arena hk pg
      dsimp only at hsr
      rcases hsr2 : arena_realloc ar pg idx size with ⟨r1, ar2⟩
      rw [hsr2] at hsr
      dsimp only at hsr
      cases r1 with
      | none =>
        dsimp only at hsr
        exact absurd hsr (by simp)
      | some loc =>
        rcases loc with ⟨npg, nidx⟩
        dsimp only at hsr
        injection hsr with h1 h2r
        injection h1 with h1b
        obtain ⟨hwp, hlv⟩ : PageWF (pageOf st h2 pg) ∧ LiveAt (pageOf st h2 pg) idx := hwf
        rw [hpage] at hwp hlv
        intro b hb
        have hbc : aptrBc st (APtr.pgp h2 pg idx)
            = getBc (ar.pages.getD pg dummyPage).buf idx := by
          unfold aptrBc aptrHdr getBc
          dsimp only
          rw [hpage]
        have hcell : b / 8 < min (getBc (ar.pages.getD pg dummyPage).buf idx)
            (blocks_required_for_size size) := by
          refine byte_cell_lt hsz ?_
          rw [hbc] at hb
          exact hb
        have hspec := arena_realloc_spec hreqU hwp hlv (by rw [hsr2]) (b / 8) hcell
        rw [← h1b, ← h2r]
        unfold readByte payloadCell
        dsimp only
        rw [pageOf_set_self hlt npg]
        dsimp only
        rw [hpage, hspec]

/-! ### The migration path: byte copies and the deferred free -/

theorem payloadCell_congr_at {st st2 : AState} {np : APtr}
    (hos : ∀ nid, np = APtr.osp nid → st2.os nid = st.os nid)
    (hpg : ∀ h2 pg idx, np = APtr.pgp h2 pg idx → pageOf st2 h2 pg = pageOf st h2 pg) :
    ∀ k, payloadCell st2 np k = payloadCell st np k := by
  intro k
  cases np with
  | osp nid =>
    unfold payloadCell
    dsimp only
    rw [hos nid rfl]
  | pgp h2 pg idx =>
    unfold payloadCell
    dsimp only
    rw [hpg h2 pg idx rfl]

theorem readByte_congr_at {st st2 : AState} {np : APtr}
    (hpc : ∀ k, payloadCell st2 np k = payloadCell st np k) (b : Nat) :
    readByte st2 np b = readByte st np b := by
  unfold readByte
  rw [hpc]

theorem pageOf_setHandle_ne {st : AState} {x : Nat} {k : HKind} {h2 pg : Nat}
    (hne : h2 ≠ x) : pageOf (setHandle st x k) h2 pg = pageOf st h2 pg := by
  unfold pageOf
  rw [getHandle_set, if_neg (by tauto)]

theorem payloadCell_setHandle {st : AState} {x : Nat} {k : HKind} {np : APtr}
    (hnph : ∀ h2 pg idx, np = APtr.pgp h2 pg idx → h2 ≠ x) :
    ∀ k2, payloadCell (setHandle st x k) np k2 = payloadCell st np k2 := by
  refine payloadCell_congr_at (fun nid hnp => rfl) ?_
  intro h2 pg idx hnp
  exact pageOf_setHandle_ne (hnph h2 pg idx hnp)

theorem payloadCell_osSetFid (st : AState) (x v nid k : Nat) :
    payloadCell (osSetFid st x v) (APtr.osp nid) k
      = payloadCell st (APtr.osp nid) k := by
  unfold osSetFid
  cases ho : st.os x with
  | none => rfl
  | some b =>
    unfold payloadCell
    dsimp only
    by_cases hnx : nid = x
    · subst hnx
      rw [if_pos rfl, ho]
    · rw [if_neg hnx]

theorem os_wpc {st : AState} {q : APtr} {k : Nat} {c : Cell} {nid : Nat}
    (hq : ∀ id2, q = APtr.osp id2 → nid ≠ id2) :
    (writePayloadCell st q k c).os nid = st.os nid := by
  cases q with
  | osp id =>
    unfold writePayloadCell
    dsimp only
    cases ho : st.os id with
    | none => rfl
    | some b =>
      dsimp only
      rw [if_neg (hq id rfl)]
  | pgp h2 pg idx =>
    unfold writePayloadCell setPageOf
    dsimp only
    cases getHandle st h2 with
    | hdefault => rfl
    | hdefaultPlus led => rfl
    | hstaticArena page =>
      dsimp only
      by_cases hz : pg = 0
      · rw [if_pos hz]
        rfl
      · rw [if_neg hz]
        rfl
    | harena ar => rfl

theorem pageOf_wpc_other {st : AState} {q : APtr} {k : Nat} {c : Cell} {x pgx : Nat}
    (hx : ∀ h2 pg idx, q = APtr.pgp h2 pg idx → h2 ≠ x) :
    pageOf (writePayloadCell st q k c) x pgx = pageOf st x pgx := by
  cases q with
  | osp id =>
    unfold writePayloadCell
    dsimp only
    cases ho : st.os id with
    | none => rfl
    | some b => rfl
  | pgp h2 pg idx =>
    unfold writePayloadCell setPageOf
    dsimp only
    cases getHandle st h2 with
    | hdefault => rfl
    | hdefaultPlus led => rfl
    | hstaticArena page =>
      dsimp only
      by_cases hz : pg = 0
      · rw [if_pos hz]
        exact pageOf_setHandle_ne (Ne.symm (hx h2 pg idx rfl))
      · rw [if_neg hz]
        exact pageOf_setHandle_ne (Ne.symm (hx h2 pg idx rfl))
    | harena ar =>
      dsimp only
      exact pageOf_setHandle_ne (Ne.symm (hx h2 pg idx rfl))

theorem wpc_other {st : AState} {q : APtr} {k : Nat} {c : Cell} {p : APtr}
    (hd : DistinctPtr p q) :
    ∀ k2, payloadCell (writePayloadCell st q k c) p k2 = payloadCell st p k2 := by
  refine payloadCell_congr_at ?_ ?_
  · intro nid hnp
    refine os_wpc ?_
    intro id2 hq
    rw [hnp, hq] at hd
    unfold DistinctPtr at hd
    intro hc
    exact hd (by omega)
  · intro h2 pg idx hnp
    refine pageOf_wpc_other ?_
    intro h2q pgq idxq hq
    rw [hnp, hq] at hd
    unfold DistinctPtr at hd
    exact fun hc => hd (by omega)

theorem pageOf_wpc_self {st : AState} {h2 pg idx : Nat} {k : Nat} {c : Cell}
    (hw : WritablePtr st (APtr.pgp h2 pg idx)) :
    (pageOf (writePayloadCell st (APtr.pgp h2 pg idx) k c) h2 pg).buf
      = setCell (pageOf st h2 pg).buf (idx + ALLOCATION_HEAD_BLOCK_COUNT + k) c := by
  unfold WritablePtr at hw
  dsimp only at hw
  unfold writePayloadCell setPageOf
  dsimp only
  cases hk : getHandle st h2 with
  | hdefault =>
    rw [hk] at hw
    exact absurd hw (by simp)
  | hdefaultPlus led =>
    rw [hk] at hw
    exact absurd hw (by simp)
  | hstaticArena page =>
    rw [hk] at hw
    dsimp only at hw
    have hlt : h2 < st.handles.length :=
      getHandle_lt_length (by rw [hk]; intro hc; exact HKind.noConfusion hc)
    dsimp only
    rw [if_pos hw]
    rw [hw]
    rw [pageOf_set_self hlt 0]
    dsimp only
    rw [if_pos rfl]
  | harena ar =>
    rw [hk] at hw
    dsimp only at hw
    have hlt : h2 < st.handles.length :=
      getHandle_lt_length (by rw [hk]; intro hc; exact HKind.noConfusion hc)
    dsimp only
    rw [pageOf_set_self hlt pg]
    dsimp only
    rw [arr_getD_setD_self _ _ hw]

theorem payloadCell_wpc_self {st : AState} {q : APtr} {k : Nat} {c : Cell}
    (hw : WritablePtr st q) :
    payloadCell (writePayloadCell st q k c) q k = c := by
  cases q with
  | osp id =>
    unfold WritablePtr at hw
    dsimp only at hw
    cases ho : st.os id with
    | none => exact absurd ho hw
    | some b =>
      unfold writePayloadCell payloadCell
      dsimp only
      rw [ho]
      dsimp only
      rw [if_pos rfl]
      dsimp only
      rw [if_pos rfl]
  | pgp h2 pg idx =>
    unfold payloadCell
    dsimp only
    rw [pageOf_wpc_self hw, setCell_self]

theorem payloadCell_wpc_ne {st : AState} {q : APtr} {k k2 : Nat} {c : Cell}
    (hw : WritablePtr st q) (hne : k2 ≠ k) :
    payloadCell (writePayloadCell st q k c) q k2 = payloadCell st q k2 := by
  cases q with
  | osp id =>
    unfold WritablePtr at hw
    dsimp only at hw
    cases ho : st.os id with
    | none => exact absurd ho hw
    | some b =>
      unfold writePayloadCell payloadCell
      dsimp only
      rw [ho]
      dsimp only
      rw [if_pos rfl]
      dsimp only
      rw [if_neg hne]
  | pgp h2 pg idx =>
    unfold payloadCell
    dsimp only
    rw [pageOf_wpc_self hw, setCell_ne _ _ _ _ (by
      simp only [ALLOCATION_HEAD_BLOCK_COUNT]
      omega)]

theorem writable_wpc {st : AState} {q : APtr} {k : Nat} {c : Cell}
    (hw : WritablePtr st q) : WritablePtr (writePayloadCell st q k c) q := by
  cases q with
  | osp id =>
    unfold WritablePtr at hw ⊢
    dsimp only at hw ⊢
    cases ho : st.os id with
    | none => exact absurd ho hw
    | some b =>
      unfold writePayloadCell
      dsimp only
      rw [ho]
      dsimp only
      rw [if_pos rfl]
      intro hc
      exact Option.noConfusion hc
  | pgp h2 pg idx =>
    unfold WritablePtr at hw ⊢
    dsimp only at hw ⊢
    unfold writePayloadCell setPageOf
    dsimp only
    cases hk : getHandle st h2 with
    | hdefault =>
      rw [hk] at hw
      exact absurd hw (by simp)
    | hdefaultPlus led =>
      rw [hk] at hw
      exact absurd hw (by simp)
    | hstaticArena page =>
      rw [hk] at hw
      dsimp only at hw
      have hlt : h2 < st.handles.length :=
        getHandle_lt_length (by rw [hk]; intro hc; exact HKind.noConfusion hc)
      dsimp only
      rw [if_pos hw, getHandle_set, if_pos ⟨rfl, hlt⟩]
      exact hw
    | harena ar =>
      rw [hk] at hw
      dsimp only at hw
      have hlt : h2 < st.handles.length :=
        getHandle_lt_length (by rw [hk]; intro hc; exact HKind.noConfusion hc)
      dsimp only
      rw [getHandle_set, if_pos ⟨rfl, hlt⟩]
      dsimp only
      rw [arr_size_setD]
      exact hw

theorem readByte_lt (st : AState) (p : APtr) (b : Nat) : readByte st p b < 256 :=
  byte_lt _ _

theorem readByte_wb_self {st : AState} {q : APtr} {b v : Nat}
    (hw : WritablePtr st q) :
    readByte (writeByte st q b v) q b = v % 256 := by
  unfold readByte writeByte
  rw [payloadCell_wpc_self hw, byte_setByte_self _ _ _ (by omega)]

theorem readByte_wb_ne {st : AState} {q : APtr} {b v b2 : Nat}
    (hw : WritablePtr st q) (hne : b2 ≠ b) :
    readByte (writeByte st q b v) q b2 = readByte st q b2 := by
  unfold readByte writeByte
  by_cases hcell : b2 / 8 = b / 8
  · rw [hcell, payloadCell_wpc_self hw, byte_setByte_ne _ _ _ _ (by omega) (by omega)]
  · rw [payloadCell_wpc_ne hw hcell]

theorem readByte_wb_other {st : AState} {q p : APtr} {b v b2 : Nat}
    (hd : DistinctPtr p q) :
    readByte (writeByte st q b v) p b2 = readByte st p b2 := by
  unfold readByte writeByte
  rw [wpc_other hd]

theorem copyBytes_spec : ∀ (n : Nat) (st : AState) (p q : APtr) (off : Nat),
    DistinctPtr p q → WritablePtr st q →
    (∀ b, off ≤ b → b < off + n →
      readByte (copyBytes st p q off n) q b = readByte st p b) ∧
    (∀ b, b < off → readByte (copyBytes st p q off n) q b = readByte st q b) ∧
    (∀ b2, readByte (copyBytes st p q off n) p b2 = readByte st p b2) := by
  intro n
  induction n with
  | zero =>
    intro st p q off hd hw
    exact ⟨fun b h1 h2 => absurd h2 (by omega), fun b hb => rfl, fun b2 => rfl⟩
  | succ n ih =>
    intro st p q off hd hw
    have hw1 : WritablePtr (writeByte st q off (readByte st p off)) q := writable_wpc hw
    obtain ⟨ih1, ih2, ih3⟩ := ih (writeByte st q off (readByte st p off)) p q (off + 1)
      hd hw1
    refine ⟨?_, ?_, ?_⟩
    · intro b h1 h2
      show readByte (copyBytes (writeByte st q off (readByte st p off)) p q (off + 1) n)
        q b = readByte st p b
      by_cases hb0 : b = off
      · subst hb0
        rw [ih2 b (by omega), readByte_wb_self hw,
          Nat.mod_eq_of_lt (readByte_lt st p b)]
      · rw [ih1 b (by omega) (by omega), readByte_wb_other hd]
    · intro b hb
      show readByte (copyBytes (writeByte st q off (readByte st p off)) p q (off + 1) n)
        q b = readByte st q b
      rw [ih2 b (by omega), readByte_wb_ne hw (by omega)]
    · intro b2
      show readByte (copyBytes (writeByte st q off (readByte st p off)) p q (off + 1) n)
        p b2 = readByte st p b2
      rw [ih3 b2, readByte_wb_other hd]

theorem default_free_handles (st : AState) (id : Nat) :
    (default_free st id).handles = st.handles := rfl

theorem osSetFid_handles (st : AState) (x v : Nat) :
    (osSetFid st x v).handles = st.handles := by
  unfold osSetFid
  cases st.os x with
  | none => rfl
  | some b => rfl

theorem pageOf_congr_handles {st st2 : AState} (h : st2.handles = st.handles)
    (h2 pg : Nat) : pageOf st2 h2 pg = pageOf st h2 pg := by
  unfold pageOf getHandle
  rw [h]

/-- `allocator_free_internal` of the original pointer never touches the
payload of a pointer backed by a different handle or a different OS
block. -/
theorem free_internal_payload {st : AState} {h : Nat} {p np : APtr}
    (hnph : ∀ h2 pg idx, np = APtr.pgp h2 pg idx → h2 ≠ h)
    (hnpo : ∀ nid id2, np = APtr.osp nid → p = APtr.osp id2 → nid ≠ id2) :
    ∀ k, payloadCell (allocator_free_internal st h p) np k = payloadCell st np k := by
  intro k
  unfold allocator_free_internal
  cases hk : getHandle st h with
  | hdefault =>
    cases p with
    | pgp a b c => rfl
    | osp id =>
      dsimp only
      unfold default_free
      refine payloadCell_congr_at ?_ ?_ k
      · intro nid hnp
        dsimp only
        rw [if_neg (hnpo nid id hnp rfl)]
      · intro h2 pg idx hnp
        rfl
  | hdefaultPlus led =>
    cases p with
    | pgp a b c => rfl
    | osp id =>
      dsimp only
      unfold default_plus_free ledger_remove
      dsimp only
      rw [payloadCell_setHandle hnph]
      cases np with
      | pgp h2 pg idx =>
        unfold payloadCell
        dsimp only
        rw [pageOf_congr_handles (default_free_handles _ _) h2 pg,
          pageOf_congr_handles (osSetFid_handles _ _ _) h2 pg,
          pageOf_congr_handles (osSetFid_handles _ _ _) h2 pg]
      | osp nid =>
        have hne : nid ≠ id := hnpo nid id rfl rfl
        have h1 := payloadCell_osSetFid
          (osSetFid st (led.getD (led.length - 1) 0) (aptrFid st (APtr.osp id)))
          id 0 nid k
        have h2 := payloadCell_osSetFid st (led.getD (led.length - 1) 0)
          (aptrFid st (APtr.osp id)) nid k
        unfold payloadCell
        dsimp only
        unfold default_free
        dsimp only
        rw [if_neg hne]
        unfold payloadCell at h1 h2
        dsimp only at h1 h2
        rw [h1, h2]
  | hstaticArena page =>
    cases p with
    | osp id => rfl
    | pgp a b c =>
      dsimp only
      rw [payloadCell_setHandle hnph]
  | harena ar =>
    cases p with
    | osp id => rfl
    | pgp a pg idx =>
      dsimp only
      cases hf : arena_find_owning_page ar pg idx 0 ar.pages.size with
      | none => rfl
      | some opi =>
        dsimp only
        rw [payloadCell_setHandle hnph]


/-! ### The fallback walk of a successful migration -/

theorem failsAt_congr {st st1 : AState} {h size : Nat}
    (hg : getHandle st1 h = getHandle st h) (hf : FailsAt st h size) :
    FailsAt st1 h size := by
  unfold FailsAt at hf ⊢
  rw [hg]
  exact hf

theorem memAtPtrEq_trans {st1 st2 st3 : AState} {p : APtr}
    (a : memAtPtrEq st1 st2 p) (b : memAtPtrEq st2 st3 p) : memAtPtrEq st1 st3 p := by
  cases p with
  | osp id =>
    dsimp only [memAtPtrEq] at a b ⊢
    rw [b, a]
  | pgp x pg idx =>
    dsimp only [memAtPtrEq] at a b ⊢
    rw [b, a]

theorem static_realloc_fail_make {page : ArenaPage} {a size : Nat} {page2 : ArenaPage}
    (hr : static_arena_realloc page a size = (none, page2)) :
    arena_page_make_allocation page size = none := by
  unfold static_arena_realloc at hr
  cases hip : arena_page_try_reallocating_in_place page a size with
  | some q =>
    rw [hip] at hr
    dsimp only at hr
    exact absurd hr (by simp)
  | none =>
    rw [hip] at hr
    dsimp only at hr
    cases hmk : arena_page_make_allocation page size with
    | none => rfl
    | some r =>
      rcases r with ⟨nidx, pg2⟩
      rw [hmk] at hr
      dsimp only at hr
      exact absurd hr (by simp)

theorem arena_realloc_fail_malloc {ar : Arena} {pg idx size : Nat} {ar2 : Arena}
    (hpg : pg < ar.pages.size)
    (hcon : arena_page_contains_allocation (ar.pages.getD pg dummyPage) idx = true)
    (hr : arena_realloc ar pg idx size = (none, ar2)) :
    (arena_malloc ar2 size).1 = none := by
  unfold arena_realloc at hr
  by_cases hs : size > ar.page_size
  · rw [if_pos hs] at hr
    injection hr with _ h2
    subst h2
    unfold arena_malloc
    rw [if_pos hs]
  · rw [if_neg hs] at hr
    rw [find_page_some hpg hcon] at hr
    dsimp only at hr
    cases hip : arena_page_try_reallocating_in_place (ar.pages.getD pg dummyPage) idx size with
    | some q =>
      rw [hip] at hr
      dsimp only at hr
      exact absurd hr (by simp)
    | none =>
      rw [hip] at hr
      dsimp only at hr
      rcases hm : arena_malloc ar size with ⟨m1, arM⟩
      rw [hm] at hr
      dsimp only at hr
      cases m1 with
      | some loc =>
        rcases loc with ⟨npg, nidx⟩
        dsimp only at hr
        exact absurd hr (by simp)
      | none =>
        dsimp only at hr
        injection hr with _ h2
        subst h2
        exact arena_malloc_again hm

/-- A failed in-place resize leaves the owning handle unable to serve a
fresh allocation of the requested size. -/
theorem strat_realloc_fail_failsAt {st stA : AState} {h size : Nat} {p : APtr}
    (hown : allocator_owns_memory st h p = true)
    (hsr : strategy_realloc st h p size = (none, stA)) :
    FailsAt stA h size := by
  unfold strategy_realloc at hsr
  cases hk : getHandle st h with
  | hdefault =>
    rw [hk] at hsr
    dsimp only at hsr
    have hhandles : stA.handles = st.handles := by
      cases p with
      | pgp a b c =>
        dsimp only at hsr
        injection hsr with _ h2
        rw [← h2]
      | osp id =>
        dsimp only at hsr
        unfold os_user_realloc at hsr
        cases ho : st.os id with
        | none =>
          rw [ho] at hsr
          dsimp only at hsr
          injection hsr with _ h2
          rw [← h2]
        | some b =>
          rw [ho] at hsr
          dsimp only at hsr
          by_cases hp : st.plan st.osCtr
          · rw [if_pos hp] at hsr
            exact absurd hsr (by simp)
          · rw [if_neg hp] at hsr
            injection hsr with _ h2
            rw [← h2]
    have hgA : getHandle stA h = HKind.hdefault := by
      unfold getHandle
      rw [hhandles]
      exact hk
    unfold FailsAt
    rw [hgA]
    trivial
  | hdefaultPlus led =>
    rw [hk] at hsr
    dsimp only at hsr
    have hhandles : stA.handles = st.handles := by
      cases p with
      | pgp a b c =>
        dsimp only at hsr
        injection hsr with _ h2
        rw [← h2]
      | osp id =>
        dsimp only at hsr
        unfold os_user_realloc at hsr
        cases ho : st.os id with
        | none =>
          rw [ho] at hsr
          dsimp only at hsr
          injection hsr with _ h2
          rw [← h2]
        | some b =>
          rw [ho] at hsr
          dsimp only at hsr
          by_cases hp : st.plan st.osCtr
          · rw [if_pos hp] at hsr
            exact absurd hsr (by simp)
          · rw [if_neg hp] at hsr
            injection hsr with _ h2
            rw [← h2]
    have hgA : getHandle stA h = HKind.hdefaultPlus led := by
      unfold getHandle
      rw [hhandles]
      exact hk
    unfold FailsAt
    rw [hgA]
    trivial
  | hstaticArena page =>
    rw [hk] at hsr
    dsimp only at hsr
    cases p with
    | osp id =>
      unfold allocator_owns_memory at hown
      rw [hk] at hown
      exact absurd hown (by simp)
    | pgp h2 pg idx =>
      dsimp only at hsr
      rcases hr2 : static_arena_realloc page idx size with ⟨r1, page2⟩
      rw [hr2] at hsr
      dsimp only at hsr
      cases r1 with
      | some nidx =>
        dsimp only at hsr
        exact absurd hsr (by simp)
      | none =>
        dsimp only at hsr
        injection hsr with _ hB
        have hpg2 : page2 = page := static_realloc_fail hr2
        have hmk : arena_page_make_allocation page size = none :=
          static_realloc_fail_make hr2
        have hlt : h < st.handles.length :=
          getHandle_lt_length (by rw [hk]; intro hc; exact HKind.noConfusion hc)
        unfold FailsAt
        rw [← hB, getHandle_set, if_pos ⟨rfl, hlt⟩, hpg2]
        exact hmk
  | harena ar =>
    rw [hk] at hsr
    dsimp only at hsr
    cases p with
    | osp id =>
      unfold allocator_owns_memory at hown
      rw [hk] at hown
      exact absurd hown (by simp)
    | pgp h2 pg idx =>
      dsimp only at hsr
      rcases hr2 : arena_realloc ar pg idx size with ⟨r1, ar2⟩
      rw [hr2] at hsr
      dsimp only at hsr
      cases r1 with
      | some loc =>
        rcases loc with ⟨npg, nidx⟩
        dsimp only at hsr
        exact absurd hsr (by simp)
      | none =>
        dsimp only at hsr
        injection hsr with _ hB
        unfold allocator_owns_memory at hown
        rw [hk] at hown
        simp only [Bool.and_eq_true, decide_eq_true_eq] at hown
        obtain ⟨⟨-, hpg⟩, hcon⟩ := hown
        have hml : (arena_malloc ar2 size).1 = none :=
          arena_realloc_fail_malloc hpg hcon hr2
        have hlt : h < st.handles.length :=
          getHandle_lt_length (by rw [hk]; intro hc; exact HKind.noConfusion hc)
        unfold FailsAt
        rw [← hB, getHandle_set, if_pos ⟨rfl, hlt⟩]
        exact hml

/-- A failed strategy in the fallback walk keeps any other handle's
inability to allocate. -/
theorem strat_malloc_fail_failsAt {st st1 : AState} {x h size : Nat}
    (hf : FailsAt st h size)
    (hsm : strategy_malloc st x size = (none, st1)) : FailsAt st1 h size := by
  unfold strategy_malloc at hsm
  cases hk : getHandle st x with
  | hdefault =>
    rw [hk] at hsm
    dsimp only at hsm
    unfold default_malloc at hsm
    by_cases hp : st.plan st.osCtr
    · rw [if_pos hp] at hsm
      exact absurd hsm (by simp)
    · rw [if_neg hp] at hsm
      injection hsm with _ h2
      refine failsAt_congr ?_ hf
      rw [← h2]
      rfl
  | hdefaultPlus led =>
    rw [hk] at hsm
    dsimp only at hsm
    unfold default_plus_malloc at hsm
    by_cases hp : st.plan st.osCtr
    · rw [if_pos hp] at hsm
      dsimp only at hsm
      exact absurd hsm (by simp)
    · rw [if_neg hp] at hsm
      dsimp only at hsm
      injection hsm with _ h2
      refine failsAt_congr ?_ hf
      rw [← h2]
      exact getHandle_set_same hk h
  | hstaticArena page =>
    rw [hk] at hsm
    dsimp only at hsm
    cases hmk : arena_page_make_allocation page size with
    | none =>
      rw [hmk] at hsm
      dsimp only at hsm
      injection hsm with _ h2
      refine failsAt_congr ?_ hf
      rw [← h2]
    | some r =>
      rcases r with ⟨idx, page2⟩
      rw [hmk] at hsm
      dsimp only at hsm
      exact absurd hsm (by simp)
  | harena ar =>
    rw [hk] at hsm
    dsimp only at hsm
    rcases hr : arena_malloc ar size with ⟨m1, ar2⟩
    rw [hr] at hsm
    dsimp only at hsm
    cases m1 with
    | some loc =>
      rcases loc with ⟨pg, idx⟩
      dsimp only at hsm
      exact absurd hsm (by simp)
    | none =>
      dsimp only at hsm
      injection hsm with _ h2
      have hlt : x < st.handles.length :=
        getHandle_lt_length (by rw [hk]; intro hc; exact HKind.noConfusion hc)
      by_cases hxh : h = x
      · subst hxh
        unfold FailsAt
        rw [← h2, getHandle_set, if_pos ⟨rfl, hlt⟩]
        exact arena_malloc_again hr
      · refine failsAt_congr ?_ hf
        rw [← h2, getHandle_set, if_neg (by tauto)]


theorem osSetFid_os_ne {st : AState} {x v nid : Nat} (hne : nid ≠ x) :
    (osSetFid st x v).os nid = st.os nid := by
  unfold osSetFid
  cases st.os x with
  | none => rfl
  | some b =>
    dsimp only
    rw [if_neg hne]

theorem pageOf_setHandle_dplus {st : AState} {x : Nat} {l l2 : List Nat}
    (hk : getHandle st x = HKind.hdefaultPlus l) (h2 pg : Nat) :
    pageOf (setHandle st x (HKind.hdefaultPlus l2)) h2 pg = pageOf st h2 pg := by
  by_cases hx : h2 = x
  · subst hx
    unfold pageOf
    rw [getHandle_set, hk]
    by_cases hc : h2 = h2 ∧ h2 < st.handles.length
    · rw [if_pos hc]
    · rw [if_neg hc]
  · exact pageOf_setHandle_ne hx

/-- A successful strategy in the fallback walk: the fresh pointer is
writable, distinct from the original allocation, and the original's
memory is untouched. -/
theorem strat_malloc_success_facts {st : AState} {x size : Nat} {np : APtr}
    {stB : AState} {h : Nat} {p : APtr}
    (hmatch : ∀ h2 pg idx, p = APtr.pgp h2 pg idx → h2 = h)
    (hpid : ∀ id, p = APtr.osp id → id < st.osNext)
    (hfail : FailsAt st h size)
    (hsm : strategy_malloc st x size = (some np, stB)) :
    memAtPtrEq st stB p ∧ WritablePtr stB np ∧
    (∀ h2 pg idx, np = APtr.pgp h2 pg idx → h2 ≠ h) ∧
    (∀ nid, np = APtr.osp nid → st.osNext ≤ nid) := by
  unfold strategy_malloc at hsm
  cases hk : getHandle st x with
  | hdefault =>
    rw [hk] at hsm
    dsimp only at hsm
    unfold default_malloc at hsm
    by_cases hp : st.plan st.osCtr
    · rw [if_pos hp] at hsm
      injection hsm with h1 h2
      injection h1 with hnp
      refine ⟨?_, ?_, ?_, ?_⟩
      · rw [← h2]
        cases p with
        | osp id =>
          have hne1 : id ≠ st.osNext := by
            have := hpid id rfl
            omega
          dsimp only [memAtPtrEq]
          rw [if_neg hne1]
        | pgp a b c =>
          dsimp only [memAtPtrEq]
          rfl
      · rw [← hnp, ← h2]
        unfold WritablePtr
        dsimp only
        rw [if_pos rfl]
        intro hc
        exact Option.noConfusion hc
      · intro h2x pg idx hq
        rw [← hnp] at hq
        exact APtr.noConfusion hq
      · intro nid hq
        rw [← hnp] at hq
        injection hq with he
        omega
    · rw [if_neg hp] at hsm
      exact absurd hsm (by simp)
  | hdefaultPlus led =>
    rw [hk] at hsm
    dsimp only at hsm
    unfold default_plus_malloc at hsm
    by_cases hp : st.plan st.osCtr
    · rw [if_pos hp] at hsm
      dsimp only at hsm
      unfold ledger_append at hsm
      dsimp only at hsm
      injection hsm with h1 h2
      injection h1 with hnp
      refine ⟨?_, ?_, ?_, ?_⟩
      · rw [← h2]
        cases p with
        | osp id =>
          have hne1 : id ≠ st.osNext := by
            have := hpid id rfl
            omega
          dsimp only [memAtPtrEq]
          unfold setHandle
          dsimp only
          rw [osSetFid_os_ne hne1]
          dsimp only
          rw [if_neg hne1]
        | pgp a b c =>
          dsimp only [memAtPtrEq]
          refine Eq.trans (@pageOf_setHandle_dplus _ x led (led ++ [st.osNext]) ?_ a b)
            (Eq.trans (pageOf_congr_handles (osSetFid_handles _ _ _) a b)
              (pageOf_congr_handles rfl a b))
          unfold getHandle
          rw [osSetFid_handles]
          exact hk
      · rw [← hnp, ← h2]
        unfold WritablePtr
        dsimp only
        unfold setHandle
        dsimp only
        unfold osSetFid
        dsimp only
        rw [if_pos rfl]
        dsimp only
        rw [if_pos rfl]
        intro hc
        exact Option.noConfusion hc
      · intro h2x pg idx hq
        rw [← hnp] at hq
        exact APtr.noConfusion hq
      · intro nid hq
        rw [← hnp] at hq
        injection hq with he
        omega
    · rw [if_neg hp] at hsm
      dsimp only at hsm
      exact absurd hsm (by simp)
  | hstaticArena page =>
    rw [hk] at hsm
    dsimp only at hsm
    cases hmk : arena_page_make_allocation page size with
    | none =>
      rw [hmk] at hsm
      dsimp only at hsm
      exact absurd hsm (by simp)
    | some r =>
      rcases r with ⟨idx0, page2⟩
      rw [hmk] at hsm
      dsimp only at hsm
      injection hsm with h1 h2
      injection h1 with hnp
      have hlt : x < st.handles.length :=
        getHandle_lt_length (by rw [hk]; intro hc; exact HKind.noConfusion hc)
      have hxh : x ≠ h := by
        intro heq
        rw [heq] at hk
        unfold FailsAt at hfail
        rw [hk] at hfail
        dsimp only at hfail
        rw [hmk] at hfail
        exact Option.noConfusion hfail
      refine ⟨?_, ?_, ?_, ?_⟩
      · rw [← h2]
        cases p with
        | osp id =>
          dsimp only [memAtPtrEq]
          rfl
        | pgp a b c =>
          have ha : a = h := hmatch a b c rfl
          dsimp only [memAtPtrEq]
          refine pageOf_setHandle_ne ?_
          rw [ha]
          exact Ne.symm hxh
      · rw [← hnp, ← h2]
        unfold WritablePtr
        dsimp only
        rw [getHandle_set, if_pos ⟨rfl, hlt⟩]
      · intro h2x pg idx hq
        rw [← hnp] at hq
        injection hq with e1 e2 e3
        rw [← e1]
        exact hxh
      · intro nid hq
        rw [← hnp] at hq
        exact APtr.noConfusion hq
  | harena ar =>
    rw [hk] at hsm
    dsimp only at hsm
    rcases hr : arena_malloc ar size with ⟨m1, arM⟩
    rw [hr] at hsm
    dsimp only at hsm
    cases m1 with
    | none =>
      dsimp only at hsm
      exact absurd hsm (by simp)
    | some loc =>
      rcases loc with ⟨npg, nidx⟩
      dsimp only at hsm
      injection hsm with h1 h2
      injection h1 with hnp
      have hlt : x < st.handles.length :=
        getHandle_lt_length (by rw [hk]; intro hc; exact HKind.noConfusion hc)
      have hxh : x ≠ h := by
        intro heq
        rw [heq] at hk
        unfold FailsAt at hfail
        rw [hk] at hfail
        dsimp only at hfail
        rw [hr] at hfail
        exact absurd hfail (by simp)
      refine ⟨?_, ?_, ?_, ?_⟩
      · rw [← h2]
        cases p with
        | osp id =>
          dsimp only [memAtPtrEq]
          rfl
        | pgp a b c =>
          have ha : a = h := hmatch a b c rfl
          dsimp only [memAtPtrEq]
          refine pageOf_setHandle_ne ?_
          rw [ha]
          exact Ne.symm hxh
      · rw [← hnp, ← h2]
        unfold WritablePtr
        dsimp only
        rw [getHandle_set, if_pos ⟨rfl, hlt⟩]
        exact (arena_malloc_success_spec hr).2.1
      · intro h2x pg idx hq
        rw [← hnp] at hq
        injection hq with e1 e2 e3
        rw [← e1]
        exact hxh
      · intro nid hq
        rw [← hnp] at hq
        exact APtr.noConfusion hq


/-- The whole fallback walk of a successful migration, by induction over
the chain: failed strategies are invisible at the original pointer and
keep the owner's inability token, and the eventually successful strategy
returns a writable pointer distinct from the original. -/
theorem malloc_from_success_facts : ∀ (fuel x : Nat) {st : AState} {size : Nat}
    {np : APtr} {stB : AState} {h : Nat} {p : APtr},
    (∀ h2 pg idx, p = APtr.pgp h2 pg idx → h2 = h) →
    allocator_owns_memory st h p = true →
    (∀ id, p = APtr.osp id → id < st.osNext) →
    FailsAt st h size →
    allocator_malloc_from st x size fuel = (some np, stB) →
    memAtPtrEq st stB p ∧ WritablePtr stB np ∧
    (∀ h2 pg idx, np = APtr.pgp h2 pg idx → h2 ≠ h) ∧
    (∀ nid, np = APtr.osp nid → st.osNext ≤ nid) := by
  intro fuel
  induction fuel with
  | zero =>
    intro x st size np stB h p hmatch hown hpid hfail hw
    exact absurd hw (by simp [allocator_malloc_from])
  | succ fuel ih =>
    intro x st size np stB h p hmatch hown hpid hfail hw
    unfold allocator_malloc_from at hw
    by_cases hx : x < st.handles.length
    · rw [if_pos hx] at hw
      rcases hs : strategy_malloc st x size with ⟨m1, st1⟩
      rw [hs] at hw
      cases m1 with
      | some q =>
        dsimp only at hw
        injection hw with h1 h2
        injection h1 with hq
        rw [← h2]
        rw [hq] at hs
        exact strat_malloc_success_facts hmatch hpid hfail hs
      | none =>
        dsimp only at hw
        obtain ⟨ho1, hnx1, hlen1, hmem1, howns1⟩ := strat_malloc_fail_stable hmatch hown hs
        have hfail1 : FailsAt st1 h size := strat_malloc_fail_failsAt hfail hs
        have hown1 : allocator_owns_memory st1 h p = true := by
          rw [howns1 h]
          exact hown
        have hpid1 : ∀ id, p = APtr.osp id → id < st1.osNext := by
          intro id hpq
          rw [hnx1]
          exact hpid id hpq
        obtain ⟨hmem2, hwr, hnph, hnpo⟩ := ih (x + 1) hmatch hown1 hpid1 hfail1 hw
        refine ⟨memAtPtrEq_trans hmem1 hmem2, hwr, hnph, ?_⟩
        intro nid hq
        have := hnpo nid hq
        omega
    · rw [if_neg hx] at hw
      exact absurd hw (by simp)

theorem allocator_malloc_success_facts {st : AState} {size : Nat} {np : APtr}
    {stB : AState} {h : Nat} {p : APtr}
    (hmatch : ∀ h2 pg idx, p = APtr.pgp h2 pg idx → h2 = h)
    (hown : allocator_owns_memory st h p = true)
    (hpid : ∀ id, p = APtr.osp id → id < st.osNext)
    (hfail : FailsAt st h size)
    (hm : allocator_malloc st size = (some np, stB)) :
    memAtPtrEq st stB p ∧ WritablePtr stB np ∧
    (∀ h2 pg idx, np = APtr.pgp h2 pg idx → h2 ≠ h) ∧
    (∀ nid, np = APtr.osp nid → st.osNext ≤ nid) := by
  unfold allocator_malloc at hm
  by_cases h0 : size = 0
  · rw [if_pos h0] at hm
    exact absurd hm (by simp)
  · rw [if_neg h0] at hm
    exact malloc_from_success_facts st.handles.length 0 hmatch hown hpid hfail hm


/-- C6 (amended): a successful resize of a live allocation to a size
below `2 ^ 34` bytes (no `size_t` wrap in `blocks_required_for_size` and
no `uint32` truncation of the block count) returns a pointer whose first
`min(old payload bytes, new size)` payload bytes hold exactly the bytes
the original payload held immediately before the call — whether the
resize resolves in place, relocates within the owning strategy, or
migrates to another strategy through the fallback walk. -/
theorem claim_C6 (st : AState) (p : APtr) (h size : Nat) (np : APtr) (st2 : AState)
    (hsz : size < 2 ^ 34)
    (hfind : find_owning_allocator st p = some h)
    (hmatch : ∀ h2 pg idx, p = APtr.pgp h2 pg idx → h2 = h)
    (hfresh : ∀ id, p = APtr.osp id → id < st.osNext)
    (hwf : PtrWF st p)
    (hres : allocator_realloc st (some p) size = some (some np, st2)) :
    ∀ b, b < min (aptrBc st p * 8) size → readByte st2 np b = readByte st p b := by
  have hown : allocator_owns_memory st h p = true := find_from_owns hfind
  unfold allocator_realloc at hres
  by_cases h0 : size = 0
  · rw [if_pos h0] at hres
    cases hf : allocator_free st (some p) with
    | none =>
      rw [hf] at hres
      exact absurd hres (by simp)
    | some stf =>
      rw [hf] at hres
      dsimp only at hres
      exact absurd hres (by simp)
  · rw [if_neg h0] at hres
    dsimp only at hres
    rw [hfind] at hres
    dsimp only at hres
    rcases hsr : strategy_realloc st h p size with ⟨r1, stA⟩
    rw [hsr] at hres
    cases r1 with
    | some np0 =>
      dsimp only at hres
      injection hres with h1
      injection h1 with h1a h1b
      injection h1a with h1np
      rw [h1np] at hsr
      rw [← h1b]
      exact strat_realloc_success_bytes hsz hmatch hown hwf hsr
    | none =>
      dsimp only at hres
      rcases hm : allocator_malloc stA size with ⟨m1, stB⟩
      rw [hm] at hres
      dsimp only at hres
      cases m1 with
      | none =>
        dsimp only at hres
        exact absurd hres (by simp)
      | some np1 =>
        dsimp only at hres
        injection hres with h1
        injection h1 with h1a h1b
        injection h1a with h1np
        obtain ⟨hoA, hnxA, hlenA, hmemA, hownsA⟩ := strat_realloc_fail_stable hmatch hown hsr
        have hfailA : FailsAt stA h size := strat_realloc_fail_failsAt hown hsr
        have hownA : allocator_owns_memory stA h p = true := by
          rw [hownsA h]
          exact hown
        have hpidA : ∀ id, p = APtr.osp id → id < stA.osNext := by
          intro id hpq
          rw [hnxA]
          exact hfresh id hpq
        obtain ⟨hmemB, hwrit, hnph, hnpo⟩ :=
          allocator_malloc_success_facts hmatch hownA hpidA hfailA hm
        have hmem : memAtPtrEq st stB p := memAtPtrEq_trans hmemA hmemB
        have hbc : aptrBc stB p = aptrBc st p := by
          unfold aptrBc
          rw [aptrHdr_eq_of_mem hmem]
        have hd : DistinctPtr p np1 := by
          cases p with
          | osp id =>
            cases np1 with
            | osp nid =>
              unfold DistinctPtr
              have hx1 := hnpo nid rfl
              have hx2 := hfresh id rfl
              omega
            | pgp a2 b2 c2 =>
              unfold DistinctPtr
              trivial
          | pgp a b c =>
            cases np1 with
            | osp nid =>
              unfold DistinctPtr
              trivial
            | pgp a2 b2 c2 =>
              unfold DistinctPtr
              have hx1 := hnph a2 b2 c2 rfl
              have hx2 := hmatch a b c rfl
              rw [hx2]
              exact hx1
        have hnpo2 : ∀ nid id2, np1 = APtr.osp nid → p = APtr.osp id2 → nid ≠ id2 := by
          intro nid id2 hq hpq
          have hx1 := hnpo nid hq
          have hx2 := hfresh id2 hpq
          omega
        obtain ⟨cb1, cb2, cb3⟩ :=
          copyBytes_spec (min (aptrBc stB p * 8) size) stB p np1 0 hd hwrit
        rw [← h1b, ← h1np]
        intro b hb
        have hbK : b < min (aptrBc stB p * 8) size := by
          rw [hbc]
          exact hb
        rw [readByte_congr_at (free_internal_payload hnph hnpo2) b]
        rw [cb1 b (by omega) (by omega)]
        exact readByte_eq_of_mem hmem b

/-- Counterexample to C6 as stated (no size bound): on a one-page fixed
region holding a live 2-payload-block allocation, a resize to
`SIZE_MAX = 2^64 - 1` bytes wraps `blocks_required_for_size` to 0, takes
the in-place shrink path, writes a remainder header into the first
payload cell and returns the pointer as a success — byte 0 of the
payload reads 1 where it read 123 before the call, with
`min(N, M) = 16 > 0`. -/
theorem claim_C6_counterexample :
    0 < (18446744073709551615 : Nat) ∧
    find_owning_allocator c6st (APtr.pgp 0 0 0) = some 0 ∧
    (∀ h2 pg idx, APtr.pgp 0 0 0 = APtr.pgp h2 pg idx → h2 = 0) ∧
    (∀ id, APtr.pgp 0 0 0 = APtr.osp id → id < c6st.osNext) ∧
    PtrWF c6st (APtr.pgp 0 0 0) ∧
    (allocator_realloc c6st (some (APtr.pgp 0 0 0)) 18446744073709551615).map
        (fun r => (r.1, readByte r.2 (APtr.pgp 0 0 0) 0))
      = some (some (APtr.pgp 0 0 0), 1) ∧
    0 < min (aptrBc c6st (APtr.pgp 0 0 0) * 8) 18446744073709551615 ∧
    readByte c6st (APtr.pgp 0 0 0) 0 = 123 :=
  ⟨by decide, by decide,
    fun h2 pg idx hh => by injection hh with a _ _; exact a.symm,
    fun id hh => APtr.noConfusion hh,
    by decide, rfl, by decide, rfl⟩

/-- Witness for the amended C6: growing a head-adjacent 2-block
allocation to 20 bytes succeeds in place and byte 0 reads back
unchanged. -/
theorem claim_C6_witness :
    readByte c6wst2 (APtr.pgp 0 0 0) 0 = readByte c6wst (APtr.pgp 0 0 0) 0 :=
  claim_C6 c6wst (APtr.pgp 0 0 0) 0 20 (APtr.pgp 0 0 0) c6wst2 (by decide) (by decide)
    (fun h2 pg idx hh => by injection hh with a _ _; exact a.symm)
    (fun id hh => APtr.noConfusion hh)
    (by decide) rfl 0 (by decide)

end LibcAlloc
